import Mathlib

/-!
# OldAndNewSchoolCpp: rule of three versus rule of five

A shallow embedding of `src/main.cpp`: the two resource containers `HolderOld`
(copy constructor and copy assignment only) and `Holder` (copy and move), the free store
they allocate their `int` arrays from, and the process-wide stack of start times `vStart`
used by `setChrono0` / `showChrono`.

Conventions of the embedding.

* A pointer to an `int` array is a natural number; `0` is `nullptr`.
* The free store (`Heap`) maps the address of every live array to its elements. `new int[n]`
  hands out an address that was never used before; whether the platform grants a request, and
  the indeterminate values of the fresh elements, are read from a script carried by the heap,
  so that a statement over all heaps covers every behaviour of the platform.
* C++ objects have an identity (`this == &other` compares addresses of objects): a `World`
  holds the objects in a list, an object is named by its position, and an object whose
  lifetime has ended is `none`.
* A member function is a function from the world before the call to an `Outcome`.
* The templates `createHolder<holder>` and `process<holder>` are functions over an `Api`, the
  operations of the class after overload resolution; `process` works on a `Machine`, the
  timing stack together with the world. Clock readings and days of the month are inputs.
-/

namespace OldAndNewSchool

/-! ## The free store -/

/-- The free store: the live `int` arrays by address, the last address handed out, and the
platform's answers to the array-new requests still to come (`none`: the request is refused,
`some junk`: it is granted and the fresh elements start with the values `junk`). -/
structure Heap where
  cell : Nat → Option (List Int)
  brk : Nat
  script : List (Option (List Int))

/-- The indeterminate initial elements of a fresh array of `n` elements. -/
def fresh (junk : List Int) (n : Nat) : List Int :=
  (junk ++ List.replicate n 0).take n

/-- The expression `new int[n]`: the heap afterwards and the address of the new array, or
`none` when `std::bad_alloc` is thrown. A granted request yields a non-null address that no
array ever had, also for `n = 0`. -/
def Heap.newArray (h : Heap) (n : Nat) : Heap × Option Nat :=
  match h.script with
  | [] => (h, none)
  | none :: rest => ({ cell := h.cell, brk := h.brk, script := rest }, none)
  | some junk :: rest =>
    ({ cell := fun q => if q = h.brk + 1 then some (fresh junk n) else h.cell q,
       brk := h.brk + 1, script := rest }, some (h.brk + 1))

/-- The statement `delete[] p`: nothing happens for the null pointer, a live array is
released, and any other pointer (dangling, already released) is undefined behaviour,
rendered `none`. -/
def Heap.deleteArray (h : Heap) (p : Nat) : Option Heap :=
  if p = 0 then some h
  else
    match h.cell p with
    | none => none
    | some _ =>
      some { cell := fun q => if q = p then none else h.cell q, brk := h.brk, script := h.script }

/-- The call `std::copy(src, src + n, dst)`: the first `n` elements of the array at `dst`
become the first `n` elements of the array at `src`. An empty range copies nothing; otherwise
both ranges have to lie inside live arrays, or the behaviour is undefined (`none`). -/
def Heap.copy (h : Heap) (src n dst : Nat) : Option Heap :=
  if n = 0 then some h
  else if src = 0 ∨ dst = 0 then none
  else
    match h.cell src, h.cell dst with
    | some a, some b =>
      if n ≤ a.length ∧ n ≤ b.length then
        some { cell := fun q => if q = dst then some (a.take n ++ b.drop n) else h.cell q,
               brk := h.brk, script := h.script }
      else none
    | _, _ => none

/-- The free store of a starting process: no array, and the given answers of the platform. -/
def Heap.init (script : List (Option (List Int))) : Heap :=
  { cell := fun _ => none, brk := 0, script := script }

/-- A heap is well formed when the null address holds no array and nothing lives at an
address that was not handed out yet. -/
def Heap.wf (h : Heap) : Prop :=
  h.cell 0 = none ∧ ∀ p, h.brk < p → h.cell p = none

/-! ## Outcomes and worlds -/

/-- How a call ends. -/
inductive Outcome (σ : Type) where
  /-- The call returned; the state afterwards. -/
  | done (s : σ)
  /-- An exception (`std::bad_alloc`, the only one this program can raise) left the call; the
  state it left behind. -/
  | threw (s : σ)
  /-- An exception tried to leave a `noexcept` function: `std::terminate`. -/
  | terminated
  /-- The call has undefined behaviour. -/
  | undefined

/-- The free store together with the objects of class `α` created so far, by identity. -/
structure World (α : Type) where
  heap : Heap
  objs : List (Option α)

/-- The world of a starting process. -/
def World.init (α : Type) (script : List (Option (List Int))) : World α :=
  { heap := Heap.init script, objs := [] }

/-! ## `class HolderOld` (rule of three) -/

/-- The data members of `HolderOld`. -/
structure HolderOld where
  m_data : Nat
  m_size : Nat
  deriving DecidableEq, Repr

/-- `HolderOld(int size)`. A negative `size` makes the array-new expression throw. -/
def HolderOld.ctor (size : Int) (w : World HolderOld) : Outcome (World HolderOld) :=
  if size < 0 then .threw w
  else
    match w.heap.newArray size.toNat with
    | (h, none) => .threw { heap := h, objs := w.objs }
    | (h, some p) => .done { heap := h, objs := w.objs ++ [some ⟨p, size.toNat⟩] }

/-- `HolderOld(const HolderOld& other)`. -/
def HolderOld.copyCtor (other : Nat) (w : World HolderOld) : Outcome (World HolderOld) :=
  match w.objs[other]? with
  | some (some o) =>
    match w.heap.newArray o.m_size with
    | (h, none) => .threw { heap := h, objs := w.objs }
    | (h, some p) =>
      match h.copy o.m_data o.m_size p with
      | none => .undefined
      | some h1 => .done { heap := h1, objs := w.objs ++ [some ⟨p, o.m_size⟩] }
  | _ => .undefined

/-- `HolderOld& operator=(const HolderOld& other)`. When the array-new expression throws,
`m_data` still holds the address released on the line before. -/
def HolderOld.copyAssign (self other : Nat) (w : World HolderOld) : Outcome (World HolderOld) :=
  match w.objs[self]?, w.objs[other]? with
  | some (some s), some (some o) =>
    if self = other then .done w
    else
      match w.heap.deleteArray s.m_data with
      | none => .undefined
      | some h1 =>
        match h1.newArray o.m_size with
        | (h2, none) => .threw { heap := h2, objs := w.objs }
        | (h2, some p) =>
          match h2.copy o.m_data o.m_size p with
          | none => .undefined
          | some h3 => .done { heap := h3, objs := w.objs.set self (some ⟨p, o.m_size⟩) }
  | _, _ => .undefined

/-- `~HolderOld()`; the lifetime of the object ends. -/
def HolderOld.dtor (self : Nat) (w : World HolderOld) : Outcome (World HolderOld) :=
  match w.objs[self]? with
  | some (some s) =>
    match w.heap.deleteArray s.m_data with
    | none => .undefined
    | some h => .done { heap := h, objs := w.objs.set self none }
  | _ => .undefined

/-! ## `class Holder` (rule of five) -/

/-- The data members of `Holder`. -/
structure Holder where
  m_data : Nat
  m_size : Nat
  deriving DecidableEq, Repr

/-- `Holder(int size) noexcept`: an exception of the array-new expression cannot leave the
constructor, the process is terminated. -/
def Holder.ctor (size : Int) (w : World Holder) : Outcome (World Holder) :=
  if size < 0 then .terminated
  else
    match w.heap.newArray size.toNat with
    | (_, none) => .terminated
    | (h, some p) => .done { heap := h, objs := w.objs ++ [some ⟨p, size.toNat⟩] }

/-- `Holder(const Holder& other)`. -/
def Holder.copyCtor (other : Nat) (w : World Holder) : Outcome (World Holder) :=
  match w.objs[other]? with
  | some (some o) =>
    match w.heap.newArray o.m_size with
    | (h, none) => .threw { heap := h, objs := w.objs }
    | (h, some p) =>
      match h.copy o.m_data o.m_size p with
      | none => .undefined
      | some h1 => .done { heap := h1, objs := w.objs ++ [some ⟨p, o.m_size⟩] }
  | _ => .undefined

/-- `Holder(Holder&& other) noexcept`. -/
def Holder.moveCtor (other : Nat) (w : World Holder) : Outcome (World Holder) :=
  match w.objs[other]? with
  | some (some o) =>
    .done { heap := w.heap,
            objs := w.objs.set other (some ⟨0, 0⟩) ++ [some ⟨o.m_data, o.m_size⟩] }
  | _ => .undefined

/-- `Holder& operator=(const Holder& other)`. -/
def Holder.copyAssign (self other : Nat) (w : World Holder) : Outcome (World Holder) :=
  match w.objs[self]?, w.objs[other]? with
  | some (some s), some (some o) =>
    if self = other then .done w
    else
      match w.heap.deleteArray s.m_data with
      | none => .undefined
      | some h1 =>
        match h1.newArray o.m_size with
        | (h2, none) => .threw { heap := h2, objs := w.objs }
        | (h2, some p) =>
          match h2.copy o.m_data o.m_size p with
          | none => .undefined
          | some h3 => .done { heap := h3, objs := w.objs.set self (some ⟨p, o.m_size⟩) }
  | _, _ => .undefined

/-- `Holder& operator=(Holder&& other) noexcept`. -/
def Holder.moveAssign (self other : Nat) (w : World Holder) : Outcome (World Holder) :=
  match w.objs[self]?, w.objs[other]? with
  | some (some s), some (some o) =>
    if self = other then .done w
    else
      match w.heap.deleteArray s.m_data with
      | none => .undefined
      | some h =>
        .done { heap := h,
                objs := (w.objs.set self (some ⟨o.m_data, o.m_size⟩)).set other (some ⟨0, 0⟩) }
  | _, _ => .undefined

/-- `~Holder()`; the lifetime of the object ends. -/
def Holder.dtor (self : Nat) (w : World Holder) : Outcome (World Holder) :=
  match w.objs[self]? with
  | some (some s) =>
    match w.heap.deleteArray s.m_data with
    | none => .undefined
    | some h => .done { heap := h, objs := w.objs.set self none }
  | _ => .undefined

/-! ## What a container holds -/

/-- The container `c` of the copy-only class holds the elements `xs`: its buffer is a live
array of `m_size` elements, namely `xs`. -/
def HolderOld.holds (h : Heap) (c : HolderOld) (xs : List Int) : Prop :=
  c.m_data ≠ 0 ∧ h.cell c.m_data = some xs ∧ xs.length = c.m_size

/-- The vacant state of a `Holder`: null buffer and size 0. -/
def Holder.vacant (c : Holder) : Prop :=
  c.m_data = 0 ∧ c.m_size = 0

/-- The container `c` holds the elements `xs`: it is vacant and there are none, or its buffer
is a live array of `m_size` elements, namely `xs`. -/
def Holder.holds (h : Heap) (c : Holder) (xs : List Int) : Prop :=
  (c.vacant ∧ xs = []) ∨ (c.m_data ≠ 0 ∧ h.cell c.m_data = some xs ∧ xs.length = c.m_size)

instance (h : Heap) (c : HolderOld) (xs : List Int) : Decidable (c.holds h xs) :=
  inferInstanceAs (Decidable (c.m_data ≠ 0 ∧ h.cell c.m_data = some xs ∧ xs.length = c.m_size))

instance (c : Holder) : Decidable c.vacant :=
  inferInstanceAs (Decidable (c.m_data = 0 ∧ c.m_size = 0))

instance (h : Heap) (c : Holder) (xs : List Int) : Decidable (c.holds h xs) :=
  inferInstanceAs (Decidable ((c.vacant ∧ xs = []) ∨
    (c.m_data ≠ 0 ∧ h.cell c.m_data = some xs ∧ xs.length = c.m_size)))

/-! ## Sequencing -/

/-- Run `f` on the state a call returned; any other outcome ends the run. -/
def Outcome.andThen {σ : Type} (r : Outcome σ) (f : σ → Outcome σ) : Outcome σ :=
  match r with
  | .done s => f s
  | .threw s => .threw s
  | .terminated => .terminated
  | .undefined => .undefined

/-! ## Chrono: the stack of start times -/

/-- The global `vStart` (the back of the vector is the end of the list) and the measurement
lines written to `std::cout`, each as its label and the elapsed time. Readings of
`std::chrono::system_clock` and their differences are counted in clock ticks; the printed
figure is that difference in seconds. -/
structure Chrono where
  vStart : List Int
  out : List (String × Int)

/-- `setChrono0()`, where `now` is what `std::chrono::system_clock::now()` returns. -/
def setChrono0 (now : Int) (t : Chrono) : Chrono :=
  { vStart := t.vStart ++ [now], out := t.out }

/-- `showChrono(s)`, where `cur` is what `std::chrono::system_clock::now()` returns.
`vStart.back()` is read without a test for emptiness; on an empty vector that is undefined
behaviour. -/
def showChrono (s : String) (cur : Int) (t : Chrono) : Outcome Chrono :=
  match t.vStart.getLast? with
  | none => .undefined
  | some start => .done { vStart := t.vStart.dropLast, out := t.out ++ [(s, cur - start)] }

/-! ## Sample states -/

/-- A well-formed heap with one array `1, 2, 3, 4` at address 1 and one array `7, 8` at
address 2, on a platform that grants the next two requests. -/
def sampleHeap : Heap :=
  { cell := fun q => if q = 1 then some [1, 2, 3, 4] else if q = 2 then some [7, 8] else none,
    brk := 2, script := [some [], some []] }

/-- Two `HolderOld` objects owning the arrays of `sampleHeap`. -/
def sampleOld : World HolderOld :=
  { heap := sampleHeap, objs := [some ⟨1, 4⟩, some ⟨2, 2⟩] }

/-- Two `Holder` objects owning the arrays of `sampleHeap`. -/
def sampleNew : World Holder :=
  { heap := sampleHeap, objs := [some ⟨1, 4⟩, some ⟨2, 2⟩] }

/-! ## Programs: sequences of calls -/

/-- A call a client of `HolderOld` can make: the three operations the class defines and the
destructor. -/
inductive OldOp where
  | construct (size : Int)
  | duplicateConstruct (other : Nat)
  | duplicateAssign (self other : Nat)
  | destroy (self : Nat)

/-- The member function an `OldOp` stands for. -/
def OldOp.step : OldOp → World HolderOld → Outcome (World HolderOld)
  | .construct size => HolderOld.ctor size
  | .duplicateConstruct other => HolderOld.copyCtor other
  | .duplicateAssign self other => HolderOld.copyAssign self other
  | .destroy self => HolderOld.dtor self

/-- The calls of a program in order; the run ends with the first call that does not return. -/
def runOld : List OldOp → World HolderOld → Outcome (World HolderOld)
  | [], w => .done w
  | op :: ops, w => (op.step w).andThen (runOld ops)

/-- A call a client of `Holder` can make: the five operations the class defines and the
destructor. -/
inductive NewOp where
  | construct (size : Int)
  | duplicateConstruct (other : Nat)
  | duplicateAssign (self other : Nat)
  | transferConstruct (other : Nat)
  | transferAssign (self other : Nat)
  | destroy (self : Nat)

/-- The member function a `NewOp` stands for. -/
def NewOp.step : NewOp → World Holder → Outcome (World Holder)
  | .construct size => Holder.ctor size
  | .duplicateConstruct other => Holder.copyCtor other
  | .duplicateAssign self other => Holder.copyAssign self other
  | .transferConstruct other => Holder.moveCtor other
  | .transferAssign self other => Holder.moveAssign self other
  | .destroy self => Holder.dtor self

/-- The calls of a program in order; the run ends with the first call that does not return. -/
def runNew : List NewOp → World Holder → Outcome (World Holder)
  | [], w => .done w
  | op :: ops, w => (op.step w).andThen (runNew ops)

/-! ## The ownership discipline -/

/-- The ownership discipline between a free store and the objects of a class whose buffer
and size are read by `data` and `size`: the heap is well formed; every live object is vacant
or owns a live array of `size` elements; two live objects never share an array; and every
live array is owned by a live object. -/
structure Owned {α : Type} (data size : α → Nat) (h : Heap) (objs : List (Option α)) :
    Prop where
  wf : h.wf
  own : ∀ (i : Nat) (c : α), objs[i]? = some (some c) →
    (data c = 0 ∧ size c = 0) ∨
      (data c ≠ 0 ∧ ∃ xs, h.cell (data c) = some xs ∧ xs.length = size c)
  excl : ∀ (i j : Nat) (c d : α), objs[i]? = some (some c) → objs[j]? = some (some d) →
    data c ≠ 0 → data c = data d → i = j
  noleak : ∀ (p : Nat) (xs : List Int), h.cell p = some xs →
    ∃ (i : Nat) (c : α), objs[i]? = some (some c) ∧ data c = p

/-- The discipline of the copy-only class: `Owned`, and no live object has a null buffer. -/
def HolderOld.Disciplined (w : World HolderOld) : Prop :=
  Owned HolderOld.m_data HolderOld.m_size w.heap w.objs ∧
    ∀ (i : Nat) (c : HolderOld), w.objs[i]? = some (some c) → c.m_data ≠ 0

/-- The discipline of the copy+move class. -/
def Holder.Disciplined (w : World Holder) : Prop :=
  Owned Holder.m_data Holder.m_size w.heap w.objs

/-- Invariant I3 of the copy-only class: every live object has a non-null buffer that is a
live array of `m_size` elements. -/
def HolderOld.I3 (w : World HolderOld) : Prop :=
  ∀ (i : Nat) (c : HolderOld), w.objs[i]? = some (some c) →
    c.m_data ≠ 0 ∧ ∃ xs, w.heap.cell c.m_data = some xs ∧ xs.length = c.m_size

/-- Invariants I1 and I2 of the copy+move class: every live object has a null buffer and
size 0, or a buffer that is a live array of `m_size` elements. -/
def Holder.I12 (w : World Holder) : Prop :=
  ∀ (i : Nat) (c : Holder), w.objs[i]? = some (some c) →
    (c.m_data = 0 ∧ c.m_size = 0) ∨
      (c.m_data ≠ 0 ∧ ∃ xs, w.heap.cell c.m_data = some xs ∧ xs.length = c.m_size)

/-- A platform that grants five requests. -/
def sampleScript : List (Option (List Int)) :=
  [some [1, 2, 3, 4], some [], some [], some [], some []]

/-- A program over `HolderOld`: the steps of the benchmark without the factory, then a
self-assignment and a destruction. -/
def sampleOldProgram : List OldOp :=
  [.construct 4, .duplicateConstruct 0, .construct 2, .duplicateAssign 1 2,
   .duplicateAssign 1 1, .destroy 0]

/-- A program over `Holder` that uses every operation. -/
def sampleNewProgram : List NewOp :=
  [.construct 4, .duplicateConstruct 0, .transferConstruct 0, .duplicateAssign 1 2,
   .construct 2, .transferAssign 1 3, .transferAssign 1 1, .destroy 0]

/-- The two `Holder` objects of `sampleNew` on a platform that refuses every request. -/
def sampleRefusing : World Holder :=
  { heap := { cell := sampleHeap.cell, brk := 2, script := [] },
    objs := [some ⟨1, 4⟩, some ⟨2, 2⟩] }

/-- The two `HolderOld` objects of `sampleOld` on a platform that refuses the next
request. -/
def sampleOldRefused : World HolderOld :=
  { heap := { cell := sampleHeap.cell, brk := 2, script := [none] },
    objs := [some ⟨1, 4⟩, some ⟨2, 2⟩] }

/-- The object whose buffer a call of the copy-only class has to release: the destination
of a copy assignment from another object, and the object being destroyed. -/
def OldOp.released : OldOp → Option Nat
  | .duplicateAssign self other => if self = other then none else some self
  | .destroy self => some self
  | _ => none

/-- The object whose buffer a call of the copy+move class has to release: the destination
of a copy or move assignment from another object, and the object being destroyed. -/
def NewOp.released : NewOp → Option Nat
  | .duplicateAssign self other => if self = other then none else some self
  | .transferAssign self other => if self = other then none else some self
  | .destroy self => some self
  | _ => none

/-! ## A record of the transfers -/

/-- What has happened in a run, as far as transfers go: the objects that were the source of
a move construction or move assignment, and the objects that were the destination of one
whose source was vacant at the time of the call. -/
structure Trace where
  sources : List Nat
  heirs : List Nat

/-- What a call that returns adds to the record, read off the world before the call. The
destination of a move construction is the object about to be created. -/
def NewOp.note (op : NewOp) (w : World Holder) (t : Trace) : Trace :=
  match op with
  | .transferConstruct other =>
    match w.objs[other]? with
    | some (some o) =>
      { sources := other :: t.sources,
        heirs := if o.vacant then w.objs.length :: t.heirs else t.heirs }
    | _ => t
  | .transferAssign self other =>
    match w.objs[other]? with
    | some (some o) =>
      { sources := other :: t.sources,
        heirs := if o.vacant then self :: t.heirs else t.heirs }
    | _ => t
  | _ => t

/-- The record of a run of `runNew`, call by call. -/
def traceNew : List NewOp → World Holder → Trace → Trace
  | [], _, t => t
  | op :: ops, w, t =>
    match op.step w with
    | .done w1 => traceNew ops w1 (op.note w t)
    | _ => t

/-- A program that moves twice from the same object. -/
def sampleMoveTwice : List NewOp :=
  [.construct 4, .transferConstruct 0, .transferConstruct 0]

/-- Every live vacant object is on the record: it was the source of a transfer, or the
destination of a transfer from a vacant source. -/
def Accounted (w : World Holder) (t : Trace) : Prop :=
  ∀ (i : Nat) (c : Holder), w.objs[i]? = some (some c) → c.vacant →
    i ∈ t.sources ∨ i ∈ t.heirs

/-! ## The templates `createHolder` and `process` -/

/-- `arraysSize0`. -/
def arraysSize0 : Int := 1073741824

/-- `arraysSize1`. -/
def arraysSize1 : Int := 536870912

/-- `arraysSize2`. -/
def arraysSize2 : Int := 268435456

/-- `arraysSize3`. -/
def arraysSize3 : Int := 134217728

/-- The operations of a class `holder` as the templates use them, after overload resolution:
construction from a size, initialisation from an lvalue, initialisation from an rvalue,
assignment from an lvalue, assignment from an rvalue, and destruction. -/
structure Api (α : Type) where
  ctor : Int → World α → Outcome (World α)
  fromLvalue : Nat → World α → Outcome (World α)
  fromRvalue : Nat → World α → Outcome (World α)
  assignLvalue : Nat → Nat → World α → Outcome (World α)
  assignRvalue : Nat → Nat → World α → Outcome (World α)
  dtor : Nat → World α → Outcome (World α)

/-- `HolderOld` declares no move operations: an rvalue binds to `const HolderOld&`, so the
copy constructor and copy assignment serve rvalues too. -/
def HolderOld.api : Api HolderOld :=
  { ctor := HolderOld.ctor, fromLvalue := HolderOld.copyCtor, fromRvalue := HolderOld.copyCtor,
    assignLvalue := HolderOld.copyAssign, assignRvalue := HolderOld.copyAssign,
    dtor := HolderOld.dtor }

/-- `Holder`: rvalues select the move constructor and move assignment. -/
def Holder.api : Api Holder :=
  { ctor := Holder.ctor, fromLvalue := Holder.copyCtor, fromRvalue := Holder.moveCtor,
    assignLvalue := Holder.copyAssign, assignRvalue := Holder.moveAssign,
    dtor := Holder.dtor }

/-- `createHolder<holder>(size)`, where `mday` is `timePtr->tm_mday`. The locals `h01` and
`h02` are constructed; the returned object is initialised from the local named in the
`return` statement, as an rvalue (a different local on each branch, so the copy is not
elided); then `h02` and `h01` are destroyed. The returned object is the newest object of the
world afterwards. -/
def createHolder {α : Type} (api : Api α) (size : Int) (mday : Int) (w : World α) :
    Outcome (World α) :=
  let h01 := w.objs.length
  (api.ctor size w).andThen fun w1 =>
  let h02 := w1.objs.length
  (api.ctor size w1).andThen fun w2 =>
  (api.fromRvalue (if Int.tmod mday 2 ≠ 0 then h01 else h02) w2).andThen fun w3 =>
  (api.dtor h02 w3).andThen fun w4 =>
  api.dtor h01 w4

/-- The state `process` works on: the timing stack with the lines printed so far, and the
objects with their free store. -/
structure Machine (α : Type) where
  chrono : Chrono
  world : World α

/-- `setChrono0()` inside `process`. -/
def Machine.setChrono0 {α : Type} (now : Int) (m : Machine α) : Machine α :=
  { chrono := OldAndNewSchool.setChrono0 now m.chrono, world := m.world }

/-- `showChrono(s)` inside `process`. -/
def Machine.showChrono {α : Type} (s : String) (cur : Int) (m : Machine α) :
    Outcome (Machine α) :=
  match OldAndNewSchool.showChrono s cur m.chrono with
  | .done t => .done { chrono := t, world := m.world }
  | .threw t => .threw { chrono := t, world := m.world }
  | .terminated => .terminated
  | .undefined => .undefined

/-- A statement of `process` that works on the objects only. -/
def Machine.call {α : Type} (op : World α → Outcome (World α)) (m : Machine α) :
    Outcome (Machine α) :=
  match op m.world with
  | .done w => .done { chrono := m.chrono, world := w }
  | .threw w => .threw { chrono := m.chrono, world := w }
  | .terminated => .terminated
  | .undefined => .undefined

/-- `process<holder>()`. `clock k` is what the `k`-th call of
`std::chrono::system_clock::now()` returns (two per measured region, `setChrono0` first),
`mday3` and `mday5` are the days of the month the two calls of `createHolder` read. The
object `createHolder` returns initialises `h3` directly in the third region, and is a
temporary, destroyed at the end of the assignment statement, in the fifth. At the closing
brace `h3`, `h2` and `h1` are destroyed. The program has no handler: a run ends at the first
statement that does not return. -/
def process {α : Type} (api : Api α) (clock : Nat → Int) (mday3 mday5 : Int)
    (m : Machine α) : Outcome (Machine α) :=
  let m := m.setChrono0 (clock 0)
  let m := m.setChrono0 (clock 1)
  let h1 := m.world.objs.length
  (m.call (api.ctor arraysSize2)).andThen fun m =>
  (m.showChrono "regular constructor" (clock 2)).andThen fun m =>
  let m := m.setChrono0 (clock 3)
  let h2 := m.world.objs.length
  (m.call (api.fromLvalue h1)).andThen fun m =>
  (m.showChrono "copy constructor (lvalue in input)" (clock 4)).andThen fun m =>
  let m := m.setChrono0 (clock 5)
  (m.call (createHolder api arraysSize2 mday3)).andThen fun m =>
  let h3 := m.world.objs.length - 1
  (m.showChrono "move constructor (rvalue in input)" (clock 6)).andThen fun m =>
  let m := m.setChrono0 (clock 7)
  (m.call (api.assignLvalue h2 h3)).andThen fun m =>
  (m.showChrono "assignment operator (lvalue in input)" (clock 8)).andThen fun m =>
  let m := m.setChrono0 (clock 9)
  (m.call (createHolder api arraysSize1 mday5)).andThen fun m =>
  let tmp := m.world.objs.length - 1
  (m.call (api.assignRvalue h2 tmp)).andThen fun m =>
  (m.call (api.dtor tmp)).andThen fun m =>
  (m.showChrono "move assignment operator (rvalue in input)" (clock 10)).andThen fun m =>
  (m.showChrono "Total computation" (clock 11)).andThen fun m =>
  (m.call (api.dtor h3)).andThen fun m =>
  (m.call (api.dtor h2)).andThen fun m =>
  m.call (api.dtor h1)

/-- The six lines `process` prints, given the clock. -/
def processReports (clock : Nat → Int) : List (String × Int) :=
  [("regular constructor", clock 2 - clock 1),
   ("copy constructor (lvalue in input)", clock 4 - clock 3),
   ("move constructor (rvalue in input)", clock 6 - clock 5),
   ("assignment operator (lvalue in input)", clock 8 - clock 7),
   ("move assignment operator (rvalue in input)", clock 10 - clock 9),
   ("Total computation", clock 11 - clock 0)]

/-- The platform grants the next `k` requests. -/
def granted : Nat → List (Option (List Int)) → Bool
  | 0, _ => true
  | k + 1, some _ :: rest => granted k rest
  | _ + 1, _ => false

/-- The object `i` of the world is live. -/
def Live {α : Type} (w : World α) (i : Nat) : Prop :=
  ∃ c, w.objs[i]? = some (some c)

/-- A call created one object and ended the lifetime of none. -/
def Grew {α : Type} (w w1 : World α) : Prop :=
  w1.objs.length = w.objs.length + 1 ∧ Live w1 w.objs.length ∧ ∀ i, Live w i → Live w1 i

/-- A call created no object and ended the lifetime of none. -/
def Kept {α : Type} (w w1 : World α) : Prop :=
  w1.objs.length = w.objs.length ∧ ∀ i, Live w i → Live w1 i

/-- A call ended the lifetime of object `i` and of no other. -/
def Ended {α : Type} (w w1 : World α) (i : Nat) : Prop :=
  w1.objs.length = w.objs.length ∧ ∀ j, j ≠ i → Live w j → Live w1 j

/-- What the templates need of a class: in a world that satisfies `Inv`, each operation,
called on live objects while the platform grants the requests it makes (one for a
construction from a size, from an lvalue and for an assignment from an lvalue, `costR` for an
initialisation from an rvalue, `costA` for an assignment from an rvalue), returns, keeps
`Inv`, and creates or ends the lifetime of exactly the objects it should. -/
structure Lawful {α : Type} (api : Api α) (Inv : World α → Prop) (costR costA : Nat) :
    Prop where
  ctor_runs : ∀ (w : World α) (n : Int) (k : Nat), Inv w → 0 ≤ n →
    granted (k + 1) w.heap.script = true →
    ∃ w1, api.ctor n w = .done w1 ∧ Inv w1 ∧ Grew w w1 ∧ granted k w1.heap.script = true
  fromLvalue_runs : ∀ (w : World α) (i k : Nat), Inv w → Live w i →
    granted (k + 1) w.heap.script = true →
    ∃ w1, api.fromLvalue i w = .done w1 ∧ Inv w1 ∧ Grew w w1 ∧
      granted k w1.heap.script = true
  fromRvalue_runs : ∀ (w : World α) (i k : Nat), Inv w → Live w i →
    granted (k + costR) w.heap.script = true →
    ∃ w1, api.fromRvalue i w = .done w1 ∧ Inv w1 ∧ Grew w w1 ∧
      granted k w1.heap.script = true
  assignLvalue_runs : ∀ (w : World α) (i j k : Nat), Inv w → Live w i → Live w j →
    granted (k + 1) w.heap.script = true →
    ∃ w1, api.assignLvalue i j w = .done w1 ∧ Inv w1 ∧ Kept w w1 ∧
      granted k w1.heap.script = true
  assignRvalue_runs : ∀ (w : World α) (i j k : Nat), Inv w → Live w i → Live w j →
    granted (k + costA) w.heap.script = true →
    ∃ w1, api.assignRvalue i j w = .done w1 ∧ Inv w1 ∧ Kept w w1 ∧
      granted k w1.heap.script = true
  dtor_runs : ∀ (w : World α) (i k : Nat), Inv w → Live w i →
    granted k w.heap.script = true →
    ∃ w1, api.dtor i w = .done w1 ∧ Inv w1 ∧ Ended w w1 i ∧
      granted k w1.heap.script = true

/-- What the templates need of a class whatever the platform answers: in a world that
satisfies `Inv`, no operation called on live objects has undefined behaviour, and one that
returns keeps `Inv` and creates or ends the lifetime of exactly the objects it should. -/
structure Sound {α : Type} (api : Api α) (Inv : World α → Prop) : Prop where
  ctor_defined : ∀ (w : World α) (n : Int), Inv w → api.ctor n w ≠ .undefined
  ctor_done : ∀ (w w1 : World α) (n : Int), Inv w → api.ctor n w = .done w1 →
    Inv w1 ∧ Grew w w1
  fromLvalue_defined : ∀ (w : World α) (i : Nat), Inv w → Live w i →
    api.fromLvalue i w ≠ .undefined
  fromLvalue_done : ∀ (w w1 : World α) (i : Nat), Inv w → api.fromLvalue i w = .done w1 →
    Inv w1 ∧ Grew w w1
  fromRvalue_defined : ∀ (w : World α) (i : Nat), Inv w → Live w i →
    api.fromRvalue i w ≠ .undefined
  fromRvalue_done : ∀ (w w1 : World α) (i : Nat), Inv w → api.fromRvalue i w = .done w1 →
    Inv w1 ∧ Grew w w1
  assignLvalue_defined : ∀ (w : World α) (i j : Nat), Inv w → Live w i → Live w j →
    api.assignLvalue i j w ≠ .undefined
  assignLvalue_done : ∀ (w w1 : World α) (i j : Nat), Inv w →
    api.assignLvalue i j w = .done w1 → Inv w1 ∧ Kept w w1
  assignRvalue_defined : ∀ (w : World α) (i j : Nat), Inv w → Live w i → Live w j →
    api.assignRvalue i j w ≠ .undefined
  assignRvalue_done : ∀ (w w1 : World α) (i j : Nat), Inv w →
    api.assignRvalue i j w = .done w1 → Inv w1 ∧ Kept w w1
  dtor_defined : ∀ (w : World α) (i : Nat), Inv w → Live w i → api.dtor i w ≠ .undefined
  dtor_done : ∀ (w w1 : World α) (i : Nat), Inv w → api.dtor i w = .done w1 →
    Inv w1 ∧ Ended w w1 i

/-- A clock that advances by five ticks between two readings. -/
def sampleClock : Nat → Int := fun k => 5 * (k : Int)

/-- A starting process with an empty timing stack, on a platform that grants ten requests. -/
def sampleMachineOld : Machine HolderOld :=
  { chrono := { vStart := [], out := [] },
    world := World.init HolderOld (List.replicate 10 (some [])) }

/-- A starting process with an empty timing stack, on a platform that grants seven
requests. -/
def sampleMachineNew : Machine Holder :=
  { chrono := { vStart := [], out := [] },
    world := World.init Holder (List.replicate 7 (some [])) }

/-! ## Lemmas on lists and on the free store -/

theorem getElem?_lt_length {α : Type} {l : List α} {i : Nat} {a : α} (h : l[i]? = some a) :
    i < l.length := by
  rcases Nat.lt_or_ge i l.length with h1 | h1
  · exact h1
  · rw [List.getElem?_eq_none h1] at h; cases h

theorem length_fresh (junk : List Int) (n : Nat) : (fresh junk n).length = n := by
  simp [fresh]

theorem Heap.newArray_granted (h : Heap) (n : Nat) (junk : List Int)
    (rest : List (Option (List Int))) (hs : h.script = some junk :: rest) :
    h.newArray n =
      ({ cell := fun q => if q = h.brk + 1 then some (fresh junk n) else h.cell q,
         brk := h.brk + 1, script := rest }, some (h.brk + 1)) := by
  simp [Heap.newArray, hs]

theorem Heap.wf_ne_next {h : Heap} (hwf : h.wf) {p : Nat} {xs : List Int}
    (hc : h.cell p = some xs) : p ≠ h.brk + 1 := by
  intro e
  have := hwf.2 p (by omega)
  rw [hc] at this; cases this

/-- Releasing the null pointer or a live array succeeds and touches no other array. -/
theorem Heap.deleteArray_ok (h : Heap) (p : Nat) (hp : p = 0 ∨ ∃ ys, h.cell p = some ys) :
    ∃ h1, h.deleteArray p = some h1 ∧ h1.brk = h.brk ∧ h1.script = h.script ∧
      (∀ q, q ≠ p → h1.cell q = h.cell q) ∧ (p ≠ 0 → h1.cell p = none) ∧
      (p = 0 → h1 = h) := by
  by_cases h0 : p = 0
  · exact ⟨h, by simp [Heap.deleteArray, h0], rfl, rfl, fun _ _ => rfl, fun e => absurd h0 e,
      fun _ => rfl⟩
  · rcases hp with hp | ⟨ys, hys⟩
    · exact absurd hp h0
    · refine ⟨⟨fun q => if q = p then none else h.cell q, h.brk, h.script⟩, ?_, rfl, rfl, ?_, ?_, ?_⟩
      · simp [Heap.deleteArray, h0, hys]
      · intro q hq; simp [hq]
      · intro _; simp
      · intro e; exact absurd e h0

/-- A granted `new int[n]` followed by `std::copy` of `n` elements from a live array `xs` of
that length (or of nothing) leaves `xs` in the new array and every other array as it was. -/
theorem Heap.newArray_copy (h : Heap) (src n : Nat) (xs junk : List Int)
    (rest : List (Option (List Int))) (hs : h.script = some junk :: rest)
    (hsrc : (n = 0 ∧ xs = []) ∨
      (src ≠ 0 ∧ src ≠ h.brk + 1 ∧ h.cell src = some xs ∧ xs.length = n)) :
    ∃ h0 h1, h.newArray n = (h0, some (h.brk + 1)) ∧ h0.copy src n (h.brk + 1) = some h1 ∧
      h1.cell (h.brk + 1) = some xs ∧ (∀ q, q ≠ h.brk + 1 → h1.cell q = h.cell q) ∧
      h1.brk = h.brk + 1 ∧ h1.script = rest := by
  refine ⟨_, ⟨fun q => if q = h.brk + 1 then some xs else h.cell q, h.brk + 1, rest⟩,
    Heap.newArray_granted h n junk rest hs, ?_, by simp, fun q hq => by simp [hq], rfl, rfl⟩
  by_cases hn : n = 0
  · have hx : xs = [] := by
      rcases hsrc with ⟨_, hx⟩ | ⟨_, _, _, hl⟩
      · exact hx
      · exact List.length_eq_zero.mp (hl.trans hn)
    simp only [Heap.copy, hn, if_true, Option.some.injEq, Heap.mk.injEq, and_true]
    funext q
    by_cases hq : q = h.brk + 1
    · simp [hq, hx, fresh]
    · simp [hq]
  · rcases hsrc with ⟨h0, _⟩ | ⟨h1, h2, h3, h4⟩
    · exact absurd h0 hn
    · simp [Heap.copy, hn, h1, h2, h3, h4, length_fresh]
      funext q
      by_cases hq : q = h.brk + 1
      · simp [hq, ← h4, fresh]
      · simp [hq]

theorem sampleHeap_wf : sampleHeap.wf := by
  refine ⟨rfl, fun p hp => ?_⟩
  have h1 : p ≠ 1 := by simp [sampleHeap] at hp; omega
  have h2 : p ≠ 2 := by simp [sampleHeap] at hp; omega
  simp [sampleHeap, h1, h2]

/-! ## The copy operations, class by class -/

theorem HolderOld.copyCtor_old_ok (w : World HolderOld) (other : Nat) (o : HolderOld)
    (xs junk : List Int) (rest : List (Option (List Int))) (hwf : w.heap.wf)
    (hlive : w.objs[other]? = some (some o)) (hholds : o.holds w.heap xs)
    (hscript : w.heap.script = some junk :: rest) :
    ∃ w1 r, HolderOld.copyCtor other w = .done w1 ∧
      w1.objs[w.objs.length]? = some (some r) ∧
      r.m_size = o.m_size ∧ r.m_data ≠ 0 ∧ w1.heap.cell r.m_data = some xs ∧
      xs.length = r.m_size ∧
      w1.objs[other]? = some (some o) ∧ o.holds w1.heap xs := by
  have hlt := getElem?_lt_length hlive
  obtain ⟨a1, a2, a3⟩ := hholds
  have hnext := Heap.wf_ne_next hwf a2
  obtain ⟨h0, h1, e0, e1, c1, c2, _, _⟩ :=
    Heap.newArray_copy w.heap o.m_data o.m_size xs junk rest hscript
      (Or.inr ⟨a1, hnext, a2, a3⟩)
  refine ⟨⟨h1, w.objs ++ [some ⟨w.heap.brk + 1, o.m_size⟩]⟩, ⟨w.heap.brk + 1, o.m_size⟩,
    ?_, ?_, rfl, Nat.succ_ne_zero _, c1, a3, ?_, ?_⟩
  · simp [HolderOld.copyCtor, hlive, e0, e1]
  · simp [List.getElem?_append_right]
  · simp [List.getElem?_append_left, hlt, hlive]
  · exact ⟨a1, by rw [c2 _ hnext]; exact a2, a3⟩

theorem Holder.copyCtor_new_ok (w : World Holder) (other : Nat) (o : Holder) (xs junk : List Int)
    (rest : List (Option (List Int))) (hwf : w.heap.wf)
    (hlive : w.objs[other]? = some (some o)) (hholds : o.holds w.heap xs)
    (hscript : w.heap.script = some junk :: rest) :
    ∃ w1 r, Holder.copyCtor other w = .done w1 ∧
      w1.objs[w.objs.length]? = some (some r) ∧
      r.m_size = o.m_size ∧ r.m_data ≠ 0 ∧ w1.heap.cell r.m_data = some xs ∧
      xs.length = r.m_size ∧
      w1.objs[other]? = some (some o) ∧ o.holds w1.heap xs := by
  have hlt := getElem?_lt_length hlive
  have hsrc : (o.m_size = 0 ∧ xs = []) ∨
      (o.m_data ≠ 0 ∧ o.m_data ≠ w.heap.brk + 1 ∧ w.heap.cell o.m_data = some xs ∧
        xs.length = o.m_size) := by
    rcases hholds with ⟨⟨_, h0⟩, hx⟩ | ⟨h1, h2, h3⟩
    · exact Or.inl ⟨h0, hx⟩
    · exact Or.inr ⟨h1, Heap.wf_ne_next hwf h2, h2, h3⟩
  have hlen : xs.length = o.m_size := by
    rcases hsrc with ⟨h0, hx⟩ | ⟨_, _, _, h3⟩
    · simp [h0, hx]
    · exact h3
  obtain ⟨h0, h1, e0, e1, c1, c2, _, _⟩ :=
    Heap.newArray_copy w.heap o.m_data o.m_size xs junk rest hscript hsrc
  refine ⟨⟨h1, w.objs ++ [some ⟨w.heap.brk + 1, o.m_size⟩]⟩, ⟨w.heap.brk + 1, o.m_size⟩,
    ?_, ?_, rfl, Nat.succ_ne_zero _, c1, hlen, ?_, ?_⟩
  · simp [Holder.copyCtor, hlive, e0, e1]
  · simp [List.getElem?_append_right]
  · simp [List.getElem?_append_left, hlt, hlive]
  · rcases hholds with hv | ⟨h1, h2, h3⟩
    · exact Or.inl hv
    · exact Or.inr ⟨h1, by rw [c2 _ (Heap.wf_ne_next hwf h2)]; exact h2, h3⟩

theorem HolderOld.copyAssign_old_ok (w : World HolderOld) (self other : Nat) (s o : HolderOld)
    (ys xs junk : List Int) (rest : List (Option (List Int))) (hwf : w.heap.wf)
    (hne : self ≠ other)
    (hself : w.objs[self]? = some (some s)) (hother : w.objs[other]? = some (some o))
    (hs : s.holds w.heap ys) (ho : o.holds w.heap xs)
    (hexcl : s.m_data ≠ o.m_data)
    (hscript : w.heap.script = some junk :: rest) :
    ∃ w1 r, HolderOld.copyAssign self other w = .done w1 ∧
      w1.objs[self]? = some (some r) ∧
      r.m_size = o.m_size ∧ r.m_data ≠ 0 ∧ w1.heap.cell r.m_data = some xs ∧
      xs.length = r.m_size ∧
      w1.objs[other]? = some (some o) ∧ o.holds w1.heap xs := by
  have hl1 := getElem?_lt_length hself
  obtain ⟨a1, a2, a3⟩ := ho
  obtain ⟨h1, d0, dbrk, dscript, dframe, _, _⟩ :=
    Heap.deleteArray_ok w.heap s.m_data (Or.inr ⟨ys, hs.2.1⟩)
  have hkeep : h1.cell o.m_data = some xs := by
    rw [dframe _ (Ne.symm hexcl)]; exact a2
  have hnext : o.m_data ≠ h1.brk + 1 := by rw [dbrk]; exact Heap.wf_ne_next hwf a2
  obtain ⟨h2, h3, e0, e1, c1, c2, _, _⟩ :=
    Heap.newArray_copy h1 o.m_data o.m_size xs junk rest (dscript.trans hscript)
      (Or.inr ⟨a1, hnext, hkeep, a3⟩)
  refine ⟨⟨h3, w.objs.set self (some ⟨h1.brk + 1, o.m_size⟩)⟩, ⟨h1.brk + 1, o.m_size⟩,
    ?_, ?_, rfl, Nat.succ_ne_zero _, c1, a3, ?_, ?_⟩
  · simp [HolderOld.copyAssign, hself, hother, hne, d0, e0, e1]
  · simp [List.getElem?_set, hl1]
  · simp [List.getElem?_set, hne, hother]
  · exact ⟨a1, by rw [c2 _ hnext]; exact hkeep, a3⟩

theorem Holder.copyAssign_new_ok (w : World Holder) (self other : Nat) (s o : Holder)
    (ys xs junk : List Int) (rest : List (Option (List Int))) (hwf : w.heap.wf)
    (hne : self ≠ other)
    (hself : w.objs[self]? = some (some s)) (hother : w.objs[other]? = some (some o))
    (hs : s.holds w.heap ys) (ho : o.holds w.heap xs)
    (hexcl : s.m_data ≠ 0 → s.m_data ≠ o.m_data)
    (hscript : w.heap.script = some junk :: rest) :
    ∃ w1 r, Holder.copyAssign self other w = .done w1 ∧
      w1.objs[self]? = some (some r) ∧
      r.m_size = o.m_size ∧ r.m_data ≠ 0 ∧ w1.heap.cell r.m_data = some xs ∧
      xs.length = r.m_size ∧
      w1.objs[other]? = some (some o) ∧ o.holds w1.heap xs := by
  have hl1 := getElem?_lt_length hself
  have hdel : s.m_data = 0 ∨ ∃ ys, w.heap.cell s.m_data = some ys := by
    rcases hs with ⟨⟨h0, _⟩, _⟩ | ⟨_, h2, _⟩
    · exact Or.inl h0
    · exact Or.inr ⟨ys, h2⟩
  obtain ⟨h1, d0, dbrk, dscript, dframe, _, _⟩ := Heap.deleteArray_ok w.heap s.m_data hdel
  have hkeep : o.m_data ≠ 0 → h1.cell o.m_data = w.heap.cell o.m_data := by
    intro hnz
    by_cases hs0 : s.m_data = 0
    · exact dframe _ (by rw [hs0]; exact hnz)
    · exact dframe _ (Ne.symm (hexcl hs0))
  have hsrc : (o.m_size = 0 ∧ xs = []) ∨
      (o.m_data ≠ 0 ∧ o.m_data ≠ h1.brk + 1 ∧ h1.cell o.m_data = some xs ∧
        xs.length = o.m_size) := by
    rcases ho with ⟨⟨_, h0⟩, hx⟩ | ⟨a1, a2, a3⟩
    · exact Or.inl ⟨h0, hx⟩
    · exact Or.inr ⟨a1, by rw [dbrk]; exact Heap.wf_ne_next hwf a2, by rw [hkeep a1]; exact a2, a3⟩
  have hlen : xs.length = o.m_size := by
    rcases hsrc with ⟨h0, hx⟩ | ⟨_, _, _, h3⟩
    · simp [h0, hx]
    · exact h3
  obtain ⟨h2, h3, e0, e1, c1, c2, _, _⟩ :=
    Heap.newArray_copy h1 o.m_data o.m_size xs junk rest (dscript.trans hscript) hsrc
  refine ⟨⟨h3, w.objs.set self (some ⟨h1.brk + 1, o.m_size⟩)⟩, ⟨h1.brk + 1, o.m_size⟩,
    ?_, ?_, rfl, Nat.succ_ne_zero _, c1, hlen, ?_, ?_⟩
  · simp [Holder.copyAssign, hself, hother, hne, d0, e0, e1]
  · simp [List.getElem?_set, hl1]
  · simp [List.getElem?_set, hne, hother]
  · rcases ho with hv | ⟨a1, a2, a3⟩
    · exact Or.inl hv
    · refine Or.inr ⟨a1, ?_, a3⟩
      rw [c2 _ (by rw [dbrk]; exact Heap.wf_ne_next hwf a2), hkeep a1]; exact a2

/-! ## What a successful call did to the free store -/

theorem Heap.newArray_some {h h0 : Heap} {n p : Nat} (e : h.newArray n = (h0, some p)) :
    p = h.brk + 1 ∧ h0.brk = h.brk + 1 ∧
      (∃ xs, h0.cell p = some xs ∧ xs.length = n) ∧ ∀ q, q ≠ p → h0.cell q = h.cell q := by
  unfold Heap.newArray at e
  split at e
  · cases e
  · cases e
  · rename_i junk rest _
    simp only [Prod.mk.injEq, Option.some.injEq] at e
    obtain ⟨e1, e2⟩ := e
    subst e1 e2
    exact ⟨rfl, rfl, ⟨fresh junk n, by simp, length_fresh _ _⟩, fun q hq => by simp [hq]⟩

theorem Heap.copy_some {h h1 : Heap} {src n dst : Nat} (e : h.copy src n dst = some h1) :
    h1.brk = h.brk ∧ (∀ q, q ≠ dst → h1.cell q = h.cell q) ∧
      ∀ b, h.cell dst = some b → ∃ b1, h1.cell dst = some b1 ∧ b1.length = b.length := by
  unfold Heap.copy at e
  split at e
  · cases e; exact ⟨rfl, fun _ _ => rfl, fun b hb => ⟨b, hb, rfl⟩⟩
  · split at e
    · cases e
    · split at e
      · rename_i a b ha hb
        split at e
        · rename_i hle
          cases e
          refine ⟨rfl, fun q hq => by simp [hq], fun b1 hb1 => ?_⟩
          rw [hb] at hb1; cases hb1
          refine ⟨a.take n ++ b.drop n, by simp, ?_⟩
          simp only [List.length_append, List.length_take, List.length_drop]
          omega
        · cases e
      · cases e

/-- What `delete[] p` leaves: every other array, and no array at `p`. -/
theorem Heap.deleteArray_some {h h1 : Heap} {p : Nat} (e : h.deleteArray p = some h1) :
    h1.brk = h.brk ∧ (∀ q, q ≠ p → h1.cell q = h.cell q) ∧
      (p ≠ 0 → h1.cell p = none) ∧ (p = 0 → h1 = h) := by
  unfold Heap.deleteArray at e
  split at e
  · rename_i h0
    cases e
    exact ⟨rfl, fun _ _ => rfl, fun hp => absurd h0 hp, fun _ => rfl⟩
  · rename_i h0
    split at e
    · cases e
    · cases e
      exact ⟨rfl, fun q hq => by simp [hq], fun _ => by simp, fun hp => absurd hp h0⟩

/-! ## The ownership discipline is kept by each kind of change -/

section Discipline

variable {α : Type} {data size : α → Nat}

/-- A fresh array given to an object in a slot that held no live object. -/
theorem Owned.alloc {h h1 : Heap} {objs objs1 : List (Option α)} {i : Nat} {c : α}
    {xs : List Int} (inv : Owned data size h objs)
    (hdead : ∀ d, objs[i]? ≠ some (some d))
    (hupd : ∀ k, objs1[k]? = if k = i then some (some c) else objs[k]?)
    (hdata : data c = h.brk + 1) (hcell : h1.cell (h.brk + 1) = some xs)
    (hlen : xs.length = size c) (hframe : ∀ q, q ≠ h.brk + 1 → h1.cell q = h.cell q)
    (hbrk : h1.brk = h.brk + 1) : Owned data size h1 objs1 := by
  have hold : ∀ {k : Nat} {d : α}, objs[k]? = some (some d) → data d ≠ h.brk + 1 := by
    intro k d hk e
    rcases inv.own k d hk with ⟨h0, _⟩ | ⟨_, ys, hys, _⟩
    · omega
    · exact Heap.wf_ne_next inv.wf hys (by rw [← e])
  refine ⟨⟨?_, ?_⟩, ?_, ?_, ?_⟩
  · rw [hframe 0 (by omega)]; exact inv.wf.1
  · intro p hp
    rw [hframe p (by omega)]; exact inv.wf.2 p (by omega)
  · intro k d hk
    rw [hupd] at hk
    by_cases hki : k = i
    · simp only [hki, if_true, Option.some.injEq] at hk
      subst hk
      exact Or.inr ⟨by omega, xs, by rw [hdata]; exact hcell, hlen⟩
    · simp only [hki, if_false] at hk
      rcases inv.own k d hk with hv | ⟨h0, ys, hys, hl⟩
      · exact Or.inl hv
      · exact Or.inr ⟨h0, ys, by rw [hframe _ (hold hk)]; exact hys, hl⟩
  · intro k l d e hk hl hnz hde
    rw [hupd] at hk hl
    by_cases hki : k = i <;> by_cases hli : l = i
    · rw [hki, hli]
    · simp only [hki, if_true, Option.some.injEq] at hk
      simp only [hli, if_false] at hl
      subst hk
      exact absurd (hde.symm.trans hdata) (hold hl)
    · simp only [hli, if_true, Option.some.injEq] at hl
      simp only [hki, if_false] at hk
      subst hl
      exact absurd (hde.trans hdata) (hold hk)
    · simp only [hki, if_false] at hk
      simp only [hli, if_false] at hl
      exact inv.excl k l d e hk hl hnz hde
  · intro p ys hp
    by_cases hpn : p = h.brk + 1
    · exact ⟨i, c, by rw [hupd]; simp, by rw [hdata, hpn]⟩
    · rw [hframe p hpn] at hp
      obtain ⟨k, d, hk, hd⟩ := inv.noleak p ys hp
      have hki : k ≠ i := fun e => hdead d (by rw [← e]; exact hk)
      exact ⟨k, d, by rw [hupd]; simp [hki, hk], hd⟩

/-- The array of a live object released and the object's lifetime ended. -/
theorem Owned.release {h h1 : Heap} {objs objs1 : List (Option α)} {i : Nat} {s : α}
    (inv : Owned data size h objs) (hlive : objs[i]? = some (some s))
    (hupd : ∀ k, objs1[k]? = if k = i then some none else objs[k]?)
    (hbrk : h1.brk = h.brk) (hframe : ∀ q, q ≠ data s → h1.cell q = h.cell q)
    (hgone : data s ≠ 0 → h1.cell (data s) = none) (hnull : data s = 0 → h1 = h) :
    Owned data size h1 objs1 := by
  have hzero : h1.cell 0 = none := by
    by_cases h0 : data s = 0
    · rw [hnull h0]; exact inv.wf.1
    · rw [hframe 0 (Ne.symm h0)]; exact inv.wf.1
  have hsub : ∀ p ys, h1.cell p = some ys → h.cell p = some ys ∧ p ≠ data s := by
    intro p ys hp
    by_cases hps : p = data s
    · by_cases h0 : data s = 0
      · rw [hps, h0, hzero] at hp; cases hp
      · rw [hps, hgone h0] at hp; cases hp
    · rw [hframe p hps] at hp; exact ⟨hp, hps⟩
  refine ⟨⟨hzero, ?_⟩, ?_, ?_, ?_⟩
  · intro p hp
    cases hc : h1.cell p with
    | none => rfl
    | some ys =>
      have := inv.wf.2 p (by omega)
      rw [(hsub p ys hc).1] at this; cases this
  · intro k d hk
    rw [hupd] at hk
    by_cases hki : k = i
    · simp [hki] at hk
    · simp only [hki, if_false] at hk
      rcases inv.own k d hk with hv | ⟨h0, ys, hys, hl⟩
      · exact Or.inl hv
      · refine Or.inr ⟨h0, ys, ?_, hl⟩
        rw [hframe _ (fun e => hki (inv.excl k i d s hk hlive h0 e))]; exact hys
  · intro k l d e hk hl hnz hde
    rw [hupd] at hk hl
    by_cases hki : k = i
    · simp [hki] at hk
    · by_cases hli : l = i
      · simp [hli] at hl
      · simp only [hki, if_false] at hk
        simp only [hli, if_false] at hl
        exact inv.excl k l d e hk hl hnz hde
  · intro p ys hp
    obtain ⟨hp1, hp2⟩ := hsub p ys hp
    obtain ⟨k, d, hk, hd⟩ := inv.noleak p ys hp1
    have hki : k ≠ i := by
      intro e
      rw [e, hlive] at hk
      simp only [Option.some.injEq] at hk
      rw [hk] at hp2; exact hp2 hd.symm
    exact ⟨k, d, by rw [hupd]; simp [hki, hk], hd⟩

/-- The buffer and size of a live object `o` handed to an object in a slot that held no live
object, and `o` left vacant. -/
theorem Owned.transfer {h : Heap} {objs objs1 : List (Option α)} {i j : Nat} {c v o : α}
    (inv : Owned data size h objs)
    (hdead : ∀ d, objs[i]? ≠ some (some d)) (hlive : objs[j]? = some (some o))
    (hupd : ∀ k, objs1[k]? =
      if k = j then some (some v) else if k = i then some (some c) else objs[k]?)
    (hdata : data c = data o) (hsize : size c = size o)
    (hv : data v = 0 ∧ size v = 0) : Owned data size h objs1 := by
  have hij : i ≠ j := fun e => hdead o (by rw [e]; exact hlive)
  refine ⟨inv.wf, ?_, ?_, ?_⟩
  · intro k d hk
    rw [hupd] at hk
    by_cases hkj : k = j
    · simp only [hkj, if_true, Option.some.injEq] at hk
      subst hk; exact Or.inl hv
    · by_cases hki : k = i
      · simp only [hkj, hki, if_true, if_false, Option.some.injEq] at hk
        simp only [hij, if_false, Option.some.injEq] at hk
        subst hk
        rw [hdata, hsize]; exact inv.own j o hlive
      · simp only [hkj, hki, if_false] at hk
        exact inv.own k d hk
  · intro k l d e hk hl hnz hde
    rw [hupd] at hk hl
    by_cases hkj : k = j
    · simp only [hkj, if_true, Option.some.injEq] at hk
      subst hk; exact absurd hv.1 hnz
    · by_cases hlj : l = j
      · simp only [hlj, if_true, Option.some.injEq] at hl
        subst hl; rw [hv.1] at hde; exact absurd hde hnz
      · simp only [hkj, hlj, if_false] at hk hl
        by_cases hki : k = i <;> by_cases hli : l = i
        · rw [hki, hli]
        · simp only [hki, if_true, Option.some.injEq] at hk
          simp only [hli, if_false] at hl
          subst hk
          rw [hdata] at hnz hde
          exact absurd (inv.excl j l o e hlive hl hnz hde).symm hlj
        · simp only [hli, if_true, Option.some.injEq] at hl
          simp only [hki, if_false] at hk
          subst hl
          rw [hdata] at hde
          exact absurd (inv.excl k j d o hk hlive hnz hde) hkj
        · simp only [hki, if_false] at hk
          simp only [hli, if_false] at hl
          exact inv.excl k l d e hk hl hnz hde
  · intro p ys hp
    obtain ⟨k, d, hk, hd⟩ := inv.noleak p ys hp
    by_cases hkj : k = j
    · rw [hkj, hlive] at hk
      simp only [Option.some.injEq] at hk
      subst hk
      exact ⟨i, c, by rw [hupd]; simp [hij], hdata.trans hd⟩
    · have hki : k ≠ i := fun e => hdead d (by rw [← e]; exact hk)
      exact ⟨k, d, by rw [hupd]; simp [hkj, hki, hk], hd⟩

end Discipline

/-! ## Every call keeps the discipline -/

theorem getElem?_set_upd {α : Type} {l : List α} {i : Nat} (v : α) (hi : i < l.length)
    (k : Nat) : (l.set i v)[k]? = if k = i then some v else l[k]? := by
  by_cases hki : k = i
  · simp [hki, hi]
  · simp [List.getElem?_set, hki, Ne.symm hki]

theorem getElem?_append_upd {α : Type} (l : List α) (v : α) (k : Nat) :
    (l ++ [v])[k]? = if k = l.length then some v else l[k]? := by
  by_cases hk : k = l.length
  · simp [hk]
  · rcases Nat.lt_or_ge k l.length with h | h
    · simp [hk, List.getElem?_append_left, h]
    · have h1 : l.length < k := by omega
      simp [hk, List.getElem?_eq_none h]
      omega

theorem getElem?_length_dead {α : Type} (l : List (Option α)) (d : α) :
    l[l.length]? ≠ some (some d) := by
  simp

theorem HolderOld.ctor_old_keeps {w w1 : World HolderOld} {size : Int}
    (inv : HolderOld.Disciplined w) (e : HolderOld.ctor size w = .done w1) :
    HolderOld.Disciplined w1 := by
  unfold HolderOld.ctor at e
  split at e
  · cases e
  · split at e
    · cases e
    · rename_i h p hnew
      cases e
      obtain ⟨hp, hbrk, ⟨xs, hxs, hlen⟩, hframe⟩ := Heap.newArray_some hnew
      subst hp
      refine ⟨Owned.alloc inv.1 (getElem?_length_dead w.objs) (getElem?_append_upd _ _) rfl hxs
        hlen hframe hbrk, ?_⟩
      intro i c hi
      rw [getElem?_append_upd] at hi
      split at hi
      · cases hi; exact Nat.succ_ne_zero _
      · exact inv.2 i c hi

theorem HolderOld.copyCtor_old_keeps {w w1 : World HolderOld} {other : Nat}
    (inv : HolderOld.Disciplined w) (e : HolderOld.copyCtor other w = .done w1) :
    HolderOld.Disciplined w1 := by
  unfold HolderOld.copyCtor at e
  split at e
  · rename_i o ho
    split at e
    · cases e
    · rename_i h p hnew
      split at e
      · cases e
      · rename_i h1 hcopy
        cases e
        obtain ⟨hp, hbrk, ⟨xs, hxs, hlen⟩, hframe⟩ := Heap.newArray_some hnew
        obtain ⟨cbrk, cframe, cdst⟩ := Heap.copy_some hcopy
        obtain ⟨ys, hys, hylen⟩ := cdst xs hxs
        subst hp
        refine ⟨Owned.alloc inv.1 (getElem?_length_dead w.objs) (getElem?_append_upd _ _) rfl
          hys (hylen.trans hlen) (fun q hq => (cframe q hq).trans (hframe q hq))
          (cbrk.trans hbrk), ?_⟩
        intro i c hi
        rw [getElem?_append_upd] at hi
        split at hi
        · cases hi; exact Nat.succ_ne_zero _
        · exact inv.2 i c hi
  · cases e

theorem HolderOld.dtor_old_keeps {w w1 : World HolderOld} {self : Nat}
    (inv : HolderOld.Disciplined w) (e : HolderOld.dtor self w = .done w1) :
    HolderOld.Disciplined w1 := by
  unfold HolderOld.dtor at e
  split at e
  · rename_i s hs
    split at e
    · cases e
    · rename_i h1 hdel
      cases e
      obtain ⟨dbrk, dframe, dgone, dnull⟩ := Heap.deleteArray_some hdel
      have hlt := getElem?_lt_length hs
      refine ⟨Owned.release inv.1 hs (getElem?_set_upd _ hlt) dbrk dframe dgone dnull, ?_⟩
      intro i c hi
      rw [getElem?_set_upd _ hlt] at hi
      split at hi
      · cases hi
      · exact inv.2 i c hi
  · cases e

theorem HolderOld.copyAssign_old_keeps {w w1 : World HolderOld} {self other : Nat}
    (inv : HolderOld.Disciplined w) (e : HolderOld.copyAssign self other w = .done w1) :
    HolderOld.Disciplined w1 := by
  unfold HolderOld.copyAssign at e
  split at e
  · rename_i s o hs ho
    split at e
    · cases e; exact inv
    · split at e
      · cases e
      · rename_i h1 hdel
        split at e
        · cases e
        · rename_i h2 p hnew
          split at e
          · cases e
          · rename_i h3 hcopy
            cases e
            obtain ⟨dbrk, dframe, dgone, dnull⟩ := Heap.deleteArray_some hdel
            obtain ⟨hp, hbrk, ⟨xs, hxs, hlen⟩, hframe⟩ := Heap.newArray_some hnew
            obtain ⟨cbrk, cframe, cdst⟩ := Heap.copy_some hcopy
            obtain ⟨ys, hys, hylen⟩ := cdst xs hxs
            subst hp
            have hlt := getElem?_lt_length hs
            have inv1 : Owned HolderOld.m_data HolderOld.m_size h1 (w.objs.set self none) :=
              Owned.release inv.1 hs (getElem?_set_upd _ hlt) dbrk dframe dgone dnull
            refine ⟨Owned.alloc (i := self) (c := ⟨h1.brk + 1, o.m_size⟩) inv1 ?_ ?_ rfl hys (hylen.trans hlen)
              (fun q hq => (cframe q hq).trans (hframe q hq)) (cbrk.trans hbrk), ?_⟩
            · intro d; simp [hlt]
            · intro k
              rw [getElem?_set_upd _ hlt, getElem?_set_upd _ hlt]
              split <;> rfl
            · intro i c hi
              rw [getElem?_set_upd _ hlt] at hi
              split at hi
              · cases hi; exact Nat.succ_ne_zero _
              · exact inv.2 i c hi
  · cases e

theorem OldOp.step_old_keeps {op : OldOp} {w w1 : World HolderOld}
    (inv : HolderOld.Disciplined w) (e : op.step w = .done w1) : HolderOld.Disciplined w1 := by
  cases op with
  | construct size => exact HolderOld.ctor_old_keeps inv e
  | duplicateConstruct other => exact HolderOld.copyCtor_old_keeps inv e
  | duplicateAssign self other => exact HolderOld.copyAssign_old_keeps inv e
  | destroy self => exact HolderOld.dtor_old_keeps inv e

theorem runOld_keeps (ops : List OldOp) : ∀ {w w1 : World HolderOld},
    HolderOld.Disciplined w → runOld ops w = .done w1 → HolderOld.Disciplined w1 := by
  induction ops with
  | nil =>
    intro w w1 inv e
    simp only [runOld, Outcome.done.injEq] at e
    rw [← e]; exact inv
  | cons op ops ih =>
    intro w w1 inv e
    simp only [runOld] at e
    cases hstep : op.step w with
    | done w2 =>
      rw [hstep] at e
      exact ih (OldOp.step_old_keeps inv hstep) e
    | threw w2 => rw [hstep] at e; cases e
    | terminated => rw [hstep] at e; cases e
    | undefined => rw [hstep] at e; cases e

theorem Heap.init_wf (script : List (Option (List Int))) : (Heap.init script).wf :=
  ⟨rfl, fun _ _ => rfl⟩

theorem Owned.init_owned {α : Type} (data size : α → Nat) (script : List (Option (List Int))) :
    Owned data size (Heap.init script) ([] : List (Option α)) :=
  ⟨Heap.init_wf script, fun i c h => by simp at h, fun i j c d h => by simp at h,
    fun p xs h => by simp [Heap.init] at h⟩

theorem HolderOld.init_old_disciplined (script : List (Option (List Int))) :
    HolderOld.Disciplined (World.init HolderOld script) :=
  ⟨Owned.init_owned _ _ script, fun i c h => by simp [World.init] at h⟩

theorem Holder.ctor_keeps {w w1 : World Holder} {size : Int}
    (inv : Holder.Disciplined w) (e : Holder.ctor size w = .done w1) :
    Holder.Disciplined w1 := by
  unfold Holder.ctor at e
  split at e
  · cases e
  · split at e
    · cases e
    · rename_i h p hnew
      cases e
      obtain ⟨hp, hbrk, ⟨xs, hxs, hlen⟩, hframe⟩ := Heap.newArray_some hnew
      subst hp
      exact Owned.alloc (c := ⟨w.heap.brk + 1, size.toNat⟩) inv
        (getElem?_length_dead w.objs) (getElem?_append_upd _ _) rfl hxs hlen hframe hbrk

theorem Holder.copyCtor_keeps {w w1 : World Holder} {other : Nat}
    (inv : Holder.Disciplined w) (e : Holder.copyCtor other w = .done w1) :
    Holder.Disciplined w1 := by
  unfold Holder.copyCtor at e
  split at e
  · rename_i o ho
    split at e
    · cases e
    · rename_i h p hnew
      split at e
      · cases e
      · rename_i h1 hcopy
        cases e
        obtain ⟨hp, hbrk, ⟨xs, hxs, hlen⟩, hframe⟩ := Heap.newArray_some hnew
        obtain ⟨cbrk, cframe, cdst⟩ := Heap.copy_some hcopy
        obtain ⟨ys, hys, hylen⟩ := cdst xs hxs
        subst hp
        exact Owned.alloc (c := ⟨w.heap.brk + 1, o.m_size⟩) inv
          (getElem?_length_dead w.objs) (getElem?_append_upd _ _) rfl
          hys (hylen.trans hlen) (fun q hq => (cframe q hq).trans (hframe q hq))
          (cbrk.trans hbrk)
  · cases e

theorem Holder.dtor_keeps {w w1 : World Holder} {self : Nat}
    (inv : Holder.Disciplined w) (e : Holder.dtor self w = .done w1) :
    Holder.Disciplined w1 := by
  unfold Holder.dtor at e
  split at e
  · rename_i s hs
    split at e
    · cases e
    · rename_i h1 hdel
      cases e
      obtain ⟨dbrk, dframe, dgone, dnull⟩ := Heap.deleteArray_some hdel
      exact Owned.release inv hs (getElem?_set_upd _ (getElem?_lt_length hs)) dbrk dframe
        dgone dnull
  · cases e

theorem Holder.copyAssign_keeps {w w1 : World Holder} {self other : Nat}
    (inv : Holder.Disciplined w) (e : Holder.copyAssign self other w = .done w1) :
    Holder.Disciplined w1 := by
  unfold Holder.copyAssign at e
  split at e
  · rename_i s o hs ho
    split at e
    · cases e; exact inv
    · split at e
      · cases e
      · rename_i h1 hdel
        split at e
        · cases e
        · rename_i h2 p hnew
          split at e
          · cases e
          · rename_i h3 hcopy
            cases e
            obtain ⟨dbrk, dframe, dgone, dnull⟩ := Heap.deleteArray_some hdel
            obtain ⟨hp, hbrk, ⟨xs, hxs, hlen⟩, hframe⟩ := Heap.newArray_some hnew
            obtain ⟨cbrk, cframe, cdst⟩ := Heap.copy_some hcopy
            obtain ⟨ys, hys, hylen⟩ := cdst xs hxs
            subst hp
            have hlt := getElem?_lt_length hs
            have inv1 : Owned Holder.m_data Holder.m_size h1 (w.objs.set self none) :=
              Owned.release inv hs (getElem?_set_upd _ hlt) dbrk dframe dgone dnull
            refine Owned.alloc (i := self) (c := ⟨h1.brk + 1, o.m_size⟩) inv1 ?_ ?_ rfl hys
              (hylen.trans hlen) (fun q hq => (cframe q hq).trans (hframe q hq))
              (cbrk.trans hbrk)
            · intro d; simp [hlt]
            · intro k
              rw [getElem?_set_upd _ hlt, getElem?_set_upd _ hlt]
              split <;> rfl
  · cases e

theorem Holder.moveCtor_keeps {w w1 : World Holder} {other : Nat}
    (inv : Holder.Disciplined w) (e : Holder.moveCtor other w = .done w1) :
    Holder.Disciplined w1 := by
  unfold Holder.moveCtor at e
  split at e
  · rename_i o ho
    cases e
    have hlt := getElem?_lt_length ho
    refine Owned.transfer (i := w.objs.length) (j := other) (c := ⟨o.m_data, o.m_size⟩)
      (v := ⟨0, 0⟩) inv (getElem?_length_dead w.objs) ho ?_ rfl rfl ⟨rfl, rfl⟩
    intro k
    rw [getElem?_append_upd, List.length_set, getElem?_set_upd _ hlt]
    by_cases hkj : k = other
    · have : k ≠ w.objs.length := by omega
      simp [hkj, this]
      omega
    · simp [hkj]
  · cases e

theorem Holder.moveAssign_keeps {w w1 : World Holder} {self other : Nat}
    (inv : Holder.Disciplined w) (e : Holder.moveAssign self other w = .done w1) :
    Holder.Disciplined w1 := by
  unfold Holder.moveAssign at e
  split at e
  · rename_i s o hs ho
    split at e
    · cases e; exact inv
    · rename_i hne
      split at e
      · cases e
      · rename_i h1 hdel
        cases e
        obtain ⟨dbrk, dframe, dgone, dnull⟩ := Heap.deleteArray_some hdel
        have hlt := getElem?_lt_length hs
        have hlt2 := getElem?_lt_length ho
        have inv1 : Owned Holder.m_data Holder.m_size h1 (w.objs.set self none) :=
          Owned.release inv hs (getElem?_set_upd _ hlt) dbrk dframe dgone dnull
        have ho1 : (w.objs.set self none)[other]? = some (some o) := by
          rw [getElem?_set_upd _ hlt]; simp [Ne.symm hne, ho]
        refine Owned.transfer (i := self) (j := other) (c := ⟨o.m_data, o.m_size⟩)
          (v := ⟨0, 0⟩) inv1 ?_ ho1 ?_ rfl rfl ⟨rfl, rfl⟩
        · intro d; simp [hlt]
        · intro k
          rw [getElem?_set_upd _ (by rw [List.length_set]; exact hlt2),
            getElem?_set_upd _ hlt, getElem?_set_upd _ hlt]
          by_cases hkj : k = other
          · simp [hkj]
          · simp only [hkj, if_false]
            split <;> rfl
  · cases e

theorem NewOp.step_keeps {op : NewOp} {w w1 : World Holder}
    (inv : Holder.Disciplined w) (e : op.step w = .done w1) : Holder.Disciplined w1 := by
  cases op with
  | construct size => exact Holder.ctor_keeps inv e
  | duplicateConstruct other => exact Holder.copyCtor_keeps inv e
  | duplicateAssign self other => exact Holder.copyAssign_keeps inv e
  | transferConstruct other => exact Holder.moveCtor_keeps inv e
  | transferAssign self other => exact Holder.moveAssign_keeps inv e
  | destroy self => exact Holder.dtor_keeps inv e

theorem runNew_keeps (ops : List NewOp) : ∀ {w w1 : World Holder},
    Holder.Disciplined w → runNew ops w = .done w1 → Holder.Disciplined w1 := by
  induction ops with
  | nil =>
    intro w w1 inv e
    simp only [runNew, Outcome.done.injEq] at e
    rw [← e]; exact inv
  | cons op ops ih =>
    intro w w1 inv e
    simp only [runNew] at e
    cases hstep : op.step w with
    | done w2 =>
      rw [hstep] at e
      exact ih (NewOp.step_keeps inv hstep) e
    | threw w2 => rw [hstep] at e; cases e
    | terminated => rw [hstep] at e; cases e
    | undefined => rw [hstep] at e; cases e

theorem Holder.init_disciplined (script : List (Option (List Int))) :
    Holder.Disciplined (World.init Holder script) :=
  Owned.init_owned _ _ script

/-! ## Transfers (`Holder` only) -/

/-- C1. The move constructor of `Holder`, applied to a live source that holds the elements
`xs`, returns; the new object has the size of the source and holds `xs`, and the source is
left vacant: null buffer and size 0. -/
theorem Holder.moveCtor_transfers (w : World Holder) (other : Nat) (o : Holder) (xs : List Int)
    (hlive : w.objs[other]? = some (some o)) (hholds : o.holds w.heap xs) :
    ∃ w1 r, Holder.moveCtor other w = .done w1 ∧
      w1.objs[w.objs.length]? = some (some r) ∧
      r.m_size = o.m_size ∧ xs.length = r.m_size ∧ r.holds w1.heap xs ∧
      w1.objs[other]? = some (some ⟨0, 0⟩) := by
  have hlt := getElem?_lt_length hlive
  refine ⟨⟨w.heap, w.objs.set other (some ⟨0, 0⟩) ++ [some ⟨o.m_data, o.m_size⟩]⟩,
    ⟨o.m_data, o.m_size⟩, ?_, ?_, rfl, ?_, ?_, ?_⟩
  · simp [Holder.moveCtor, hlive]
  · simp [List.getElem?_append_right]
  · rcases hholds with ⟨⟨_, h0⟩, hx⟩ | ⟨_, _, hl⟩
    · simp [hx, h0]
    · exact hl
  · exact hholds
  · simp [List.getElem?_append_left, hlt]

/-- The move constructor on the first object of `sampleNew`, which holds `1, 2, 3, 4`. -/
theorem Holder.moveCtor_transfers_witness :
    ∃ w1 r, Holder.moveCtor 0 sampleNew = .done w1 ∧
      w1.objs[2]? = some (some r) ∧
      r.m_size = 4 ∧ ([1, 2, 3, 4] : List Int).length = r.m_size ∧
      r.holds w1.heap [1, 2, 3, 4] ∧
      w1.objs[0]? = some (some ⟨0, 0⟩) :=
  Holder.moveCtor_transfers sampleNew 0 ⟨1, 4⟩ [1, 2, 3, 4] (by decide) (by decide)

/-- C2. Move assignment of `Holder` between two distinct live objects that do not share a
buffer returns; `self` then has the size of the source and holds the elements `xs` the source
held, the source is left vacant (null buffer, size 0), and the array `self` owned before the
call is released. -/
theorem Holder.moveAssign_transfers (w : World Holder) (self other : Nat) (s o : Holder)
    (ys xs : List Int) (hne : self ≠ other)
    (hself : w.objs[self]? = some (some s)) (hother : w.objs[other]? = some (some o))
    (hs : s.holds w.heap ys) (ho : o.holds w.heap xs)
    (hexcl : s.m_data ≠ 0 → s.m_data ≠ o.m_data) :
    ∃ w1 r, Holder.moveAssign self other w = .done w1 ∧
      w1.objs[self]? = some (some r) ∧
      r.m_size = o.m_size ∧ xs.length = r.m_size ∧ r.holds w1.heap xs ∧
      w1.objs[other]? = some (some ⟨0, 0⟩) ∧
      (s.m_data ≠ 0 → w1.heap.cell s.m_data = none) := by
  have hl1 := getElem?_lt_length hself
  have hl2 := getElem?_lt_length hother
  have hlen : xs.length = o.m_size := by
    rcases ho with ⟨⟨_, h0⟩, hx⟩ | ⟨_, _, hl⟩
    · simp [hx, h0]
    · exact hl
  rcases hs with ⟨⟨hs0, _⟩, _⟩ | ⟨hs0, hcell, _⟩
  · refine ⟨⟨w.heap, (w.objs.set self (some ⟨o.m_data, o.m_size⟩)).set other (some ⟨0, 0⟩)⟩,
      ⟨o.m_data, o.m_size⟩, ?_, ?_, rfl, hlen, ho, ?_, ?_⟩
    · simp [Holder.moveAssign, hself, hother, hne, Heap.deleteArray, hs0]
    · simp [List.getElem?_set, hne, hl1, Ne.symm hne]
    · simp [List.getElem?_set, hl2]
    · intro h; exact absurd hs0 h
  · refine ⟨⟨⟨fun q => if q = s.m_data then none else w.heap.cell q, w.heap.brk, w.heap.script⟩,
        (w.objs.set self (some ⟨o.m_data, o.m_size⟩)).set other (some ⟨0, 0⟩)⟩,
      ⟨o.m_data, o.m_size⟩, ?_, ?_, rfl, hlen, ?_, ?_, ?_⟩
    · simp [Holder.moveAssign, hself, hother, hne, Heap.deleteArray, hs0, hcell]
    · simp [List.getElem?_set, hne, hl1, Ne.symm hne]
    · rcases ho with hv | ⟨h1, h2, h3⟩
      · exact Or.inl hv
      · refine Or.inr ⟨h1, ?_, h3⟩
        have : o.m_data ≠ s.m_data := fun e => hexcl hs0 e.symm
        simp [this, h2]
    · simp [List.getElem?_set, hl2]
    · intro _; simp

/-- Move assignment of the first object of `sampleNew` (`1, 2, 3, 4`) to the second
(`7, 8`). -/
theorem Holder.moveAssign_transfers_witness :
    ∃ w1 r, Holder.moveAssign 1 0 sampleNew = .done w1 ∧
      w1.objs[1]? = some (some r) ∧
      r.m_size = 4 ∧ ([1, 2, 3, 4] : List Int).length = r.m_size ∧
      r.holds w1.heap [1, 2, 3, 4] ∧
      w1.objs[0]? = some (some ⟨0, 0⟩) ∧
      ((2 : Nat) ≠ 0 → w1.heap.cell 2 = none) :=
  Holder.moveAssign_transfers sampleNew 1 0 ⟨2, 2⟩ ⟨1, 4⟩ [7, 8] [1, 2, 3, 4] (by decide)
    (by decide) (by decide) (by decide) (by decide) (by decide)

/-! ## Duplication (both classes) -/

/-- C3. In both classes the copy constructor, applied to a live source that holds the
elements `xs` on a well-formed heap whose platform grants the request, returns; the new
object has the size of the source and a buffer of its own holding `xs`, and the source has
the same size, the same buffer address and the same elements as before. -/
theorem copyCtor_duplicates :
    (∀ (w : World HolderOld) (other : Nat) (o : HolderOld) (xs junk : List Int)
        (rest : List (Option (List Int))),
      w.heap.wf → w.objs[other]? = some (some o) → o.holds w.heap xs →
      w.heap.script = some junk :: rest →
      ∃ w1 r, HolderOld.copyCtor other w = .done w1 ∧
        w1.objs[w.objs.length]? = some (some r) ∧
        r.m_size = o.m_size ∧ r.m_data ≠ 0 ∧ w1.heap.cell r.m_data = some xs ∧
        xs.length = r.m_size ∧
        w1.objs[other]? = some (some o) ∧ o.holds w1.heap xs) ∧
    (∀ (w : World Holder) (other : Nat) (o : Holder) (xs junk : List Int)
        (rest : List (Option (List Int))),
      w.heap.wf → w.objs[other]? = some (some o) → o.holds w.heap xs →
      w.heap.script = some junk :: rest →
      ∃ w1 r, Holder.copyCtor other w = .done w1 ∧
        w1.objs[w.objs.length]? = some (some r) ∧
        r.m_size = o.m_size ∧ r.m_data ≠ 0 ∧ w1.heap.cell r.m_data = some xs ∧
        xs.length = r.m_size ∧
        w1.objs[other]? = some (some o) ∧ o.holds w1.heap xs) :=
  ⟨HolderOld.copyCtor_old_ok, Holder.copyCtor_new_ok⟩

/-- The literal scenario: copy construction from a container of size 4 holding
`1, 2, 3, 4`, in both classes. -/
theorem copyCtor_duplicates_witness :
    (∃ w1 r, HolderOld.copyCtor 0 sampleOld = .done w1 ∧
        w1.objs[2]? = some (some r) ∧
        r.m_size = 4 ∧ r.m_data ≠ 0 ∧ w1.heap.cell r.m_data = some [1, 2, 3, 4] ∧
        ([1, 2, 3, 4] : List Int).length = r.m_size ∧
        w1.objs[0]? = some (some ⟨1, 4⟩) ∧ HolderOld.holds w1.heap ⟨1, 4⟩ [1, 2, 3, 4]) ∧
    (∃ w1 r, Holder.copyCtor 0 sampleNew = .done w1 ∧
        w1.objs[2]? = some (some r) ∧
        r.m_size = 4 ∧ r.m_data ≠ 0 ∧ w1.heap.cell r.m_data = some [1, 2, 3, 4] ∧
        ([1, 2, 3, 4] : List Int).length = r.m_size ∧
        w1.objs[0]? = some (some ⟨1, 4⟩) ∧ Holder.holds w1.heap ⟨1, 4⟩ [1, 2, 3, 4]) :=
  ⟨copyCtor_duplicates.1 sampleOld 0 ⟨1, 4⟩ [1, 2, 3, 4] [] [some []] sampleHeap_wf
      (by decide) (by decide) rfl,
   copyCtor_duplicates.2 sampleNew 0 ⟨1, 4⟩ [1, 2, 3, 4] [] [some []] sampleHeap_wf
      (by decide) (by decide) rfl⟩

/-- C4. In both classes copy assignment between two distinct live objects that do not share
a buffer, on a well-formed heap whose platform grants the request, returns; `self` then has
the size of the source and a buffer holding the elements `xs` of the source, whatever `self`
held before, and the source has the same size, buffer address and elements as before. -/
theorem copyAssign_duplicates :
    (∀ (w : World HolderOld) (self other : Nat) (s o : HolderOld) (ys xs junk : List Int)
        (rest : List (Option (List Int))),
      w.heap.wf → self ≠ other →
      w.objs[self]? = some (some s) → w.objs[other]? = some (some o) →
      s.holds w.heap ys → o.holds w.heap xs → s.m_data ≠ o.m_data →
      w.heap.script = some junk :: rest →
      ∃ w1 r, HolderOld.copyAssign self other w = .done w1 ∧
        w1.objs[self]? = some (some r) ∧
        r.m_size = o.m_size ∧ r.m_data ≠ 0 ∧ w1.heap.cell r.m_data = some xs ∧
        xs.length = r.m_size ∧
        w1.objs[other]? = some (some o) ∧ o.holds w1.heap xs) ∧
    (∀ (w : World Holder) (self other : Nat) (s o : Holder) (ys xs junk : List Int)
        (rest : List (Option (List Int))),
      w.heap.wf → self ≠ other →
      w.objs[self]? = some (some s) → w.objs[other]? = some (some o) →
      s.holds w.heap ys → o.holds w.heap xs → (s.m_data ≠ 0 → s.m_data ≠ o.m_data) →
      w.heap.script = some junk :: rest →
      ∃ w1 r, Holder.copyAssign self other w = .done w1 ∧
        w1.objs[self]? = some (some r) ∧
        r.m_size = o.m_size ∧ r.m_data ≠ 0 ∧ w1.heap.cell r.m_data = some xs ∧
        xs.length = r.m_size ∧
        w1.objs[other]? = some (some o) ∧ o.holds w1.heap xs) :=
  ⟨HolderOld.copyAssign_old_ok, Holder.copyAssign_new_ok⟩

/-- Copy assignment of the first sample object (`1, 2, 3, 4`) to the second (`7, 8`), in
both classes. -/
theorem copyAssign_duplicates_witness :
    (∃ w1 r, HolderOld.copyAssign 1 0 sampleOld = .done w1 ∧
        w1.objs[1]? = some (some r) ∧
        r.m_size = 4 ∧ r.m_data ≠ 0 ∧ w1.heap.cell r.m_data = some [1, 2, 3, 4] ∧
        ([1, 2, 3, 4] : List Int).length = r.m_size ∧
        w1.objs[0]? = some (some ⟨1, 4⟩) ∧ HolderOld.holds w1.heap ⟨1, 4⟩ [1, 2, 3, 4]) ∧
    (∃ w1 r, Holder.copyAssign 1 0 sampleNew = .done w1 ∧
        w1.objs[1]? = some (some r) ∧
        r.m_size = 4 ∧ r.m_data ≠ 0 ∧ w1.heap.cell r.m_data = some [1, 2, 3, 4] ∧
        ([1, 2, 3, 4] : List Int).length = r.m_size ∧
        w1.objs[0]? = some (some ⟨1, 4⟩) ∧ Holder.holds w1.heap ⟨1, 4⟩ [1, 2, 3, 4]) :=
  ⟨copyAssign_duplicates.1 sampleOld 1 0 ⟨2, 2⟩ ⟨1, 4⟩ [7, 8] [1, 2, 3, 4] [] [some []]
      sampleHeap_wf (by decide) (by decide) (by decide) (by decide) (by decide) (by decide) rfl,
   copyAssign_duplicates.2 sampleNew 1 0 ⟨2, 2⟩ ⟨1, 4⟩ [7, 8] [1, 2, 3, 4] [] [some []]
      sampleHeap_wf (by decide) (by decide) (by decide) (by decide) (by decide) (by decide) rfl⟩

/-! ## Direct construction -/

/-- C5, as the code has it. In both classes the constructor, called with a size `n ≥ 0` on
a platform that grants the request, returns; the new object has size `n` and a non-null
buffer, a live array of `n` elements. That holds for `n = 0` too: `new int[0]` yields a
non-null pointer, so the buffer is never vacant after a construction. -/
theorem ctor_constructs :
    (∀ (w : World HolderOld) (n : Int) (junk : List Int) (rest : List (Option (List Int))),
      0 ≤ n → w.heap.script = some junk :: rest →
      ∃ w1 r xs, HolderOld.ctor n w = .done w1 ∧
        w1.objs[w.objs.length]? = some (some r) ∧
        (r.m_size : Int) = n ∧ r.m_data ≠ 0 ∧
        w1.heap.cell r.m_data = some xs ∧ xs.length = r.m_size) ∧
    (∀ (w : World Holder) (n : Int) (junk : List Int) (rest : List (Option (List Int))),
      0 ≤ n → w.heap.script = some junk :: rest →
      ∃ w1 r xs, Holder.ctor n w = .done w1 ∧
        w1.objs[w.objs.length]? = some (some r) ∧
        (r.m_size : Int) = n ∧ r.m_data ≠ 0 ∧
        w1.heap.cell r.m_data = some xs ∧ xs.length = r.m_size) := by
  constructor
  · intro w n junk rest hn hs
    refine ⟨⟨⟨fun q => if q = w.heap.brk + 1 then some (fresh junk n.toNat) else w.heap.cell q,
        w.heap.brk + 1, rest⟩, w.objs ++ [some ⟨w.heap.brk + 1, n.toNat⟩]⟩,
      ⟨w.heap.brk + 1, n.toNat⟩, fresh junk n.toNat, ?_, ?_, Int.toNat_of_nonneg hn,
      Nat.succ_ne_zero _, ?_, length_fresh _ _⟩
    · simp only [HolderOld.ctor, not_lt.mpr hn, if_false,
        Heap.newArray_granted w.heap n.toNat junk rest hs]
    · simp [List.getElem?_append_right]
    · simp
  · intro w n junk rest hn hs
    refine ⟨⟨⟨fun q => if q = w.heap.brk + 1 then some (fresh junk n.toNat) else w.heap.cell q,
        w.heap.brk + 1, rest⟩, w.objs ++ [some ⟨w.heap.brk + 1, n.toNat⟩]⟩,
      ⟨w.heap.brk + 1, n.toNat⟩, fresh junk n.toNat, ?_, ?_, Int.toNat_of_nonneg hn,
      Nat.succ_ne_zero _, ?_, length_fresh _ _⟩
    · simp only [Holder.ctor, not_lt.mpr hn, if_false,
        Heap.newArray_granted w.heap n.toNat junk rest hs]
    · simp [List.getElem?_append_right]
    · simp

/-- Construction with size 3 next to the sample objects, in both classes. -/
theorem ctor_constructs_witness :
    (∃ w1 r xs, HolderOld.ctor 3 sampleOld = .done w1 ∧
        w1.objs[2]? = some (some r) ∧
        (r.m_size : Int) = 3 ∧ r.m_data ≠ 0 ∧
        w1.heap.cell r.m_data = some xs ∧ xs.length = r.m_size) ∧
    (∃ w1 r xs, Holder.ctor 3 sampleNew = .done w1 ∧
        w1.objs[2]? = some (some r) ∧
        (r.m_size : Int) = 3 ∧ r.m_data ≠ 0 ∧
        w1.heap.cell r.m_data = some xs ∧ xs.length = r.m_size) :=
  ⟨ctor_constructs.1 sampleOld 3 [] [some []] (by decide) rfl,
   ctor_constructs.2 sampleNew 3 [] [some []] (by decide) rfl⟩

/-- C5 as stated fails for `n = 0`: in a starting process whose platform grants the request,
construction with size 0 succeeds in both classes and gives an object of size 0 whose buffer
is not null, so "non-vacant buffer if and only if `n > 0`" is false there. -/
theorem ctor_zero_not_vacant :
    (∃ w1 r, HolderOld.ctor 0 (World.init HolderOld [some []]) = .done w1 ∧
        w1.objs[0]? = some (some r) ∧ r.m_size = 0 ∧ ¬ (r.m_data ≠ 0 ↔ (0 : Int) > 0)) ∧
    (∃ w1 r, Holder.ctor 0 (World.init Holder [some []]) = .done w1 ∧
        w1.objs[0]? = some (some r) ∧ r.m_size = 0 ∧ ¬ (r.m_data ≠ 0 ↔ (0 : Int) > 0)) :=
  ⟨⟨_, ⟨1, 0⟩, rfl, rfl, rfl, by decide⟩, ⟨_, ⟨1, 0⟩, rfl, rfl, rfl, by decide⟩⟩

/-! ## Self-assignment -/

/-- C6. Assigning a live object to itself returns and leaves the whole world as it was
(every object and the free store, so nothing is released or allocated): copy assignment in
both classes and move assignment of `Holder`; doing it a second time changes nothing
either. -/
theorem self_assign_noop :
    (∀ (w : World HolderOld) (i : Nat) (x : HolderOld), w.objs[i]? = some (some x) →
      HolderOld.copyAssign i i w = .done w ∧
      (HolderOld.copyAssign i i w).andThen (HolderOld.copyAssign i i) = .done w) ∧
    (∀ (w : World Holder) (i : Nat) (x : Holder), w.objs[i]? = some (some x) →
      Holder.copyAssign i i w = .done w ∧
      (Holder.copyAssign i i w).andThen (Holder.copyAssign i i) = .done w ∧
      Holder.moveAssign i i w = .done w ∧
      (Holder.moveAssign i i w).andThen (Holder.moveAssign i i) = .done w) := by
  constructor
  · intro w i x hx
    have h1 : HolderOld.copyAssign i i w = .done w := by simp [HolderOld.copyAssign, hx]
    exact ⟨h1, by rw [h1]; exact h1⟩
  · intro w i x hx
    have h1 : Holder.copyAssign i i w = .done w := by simp [Holder.copyAssign, hx]
    have h2 : Holder.moveAssign i i w = .done w := by simp [Holder.moveAssign, hx]
    exact ⟨h1, by rw [h1]; exact h1, h2, by rw [h2]; exact h2⟩

/-- Self-assignment of the sample objects. -/
theorem self_assign_noop_witness :
    (HolderOld.copyAssign 0 0 sampleOld = .done sampleOld ∧
      (HolderOld.copyAssign 0 0 sampleOld).andThen (HolderOld.copyAssign 0 0)
        = .done sampleOld) ∧
    (Holder.copyAssign 1 1 sampleNew = .done sampleNew ∧
      (Holder.copyAssign 1 1 sampleNew).andThen (Holder.copyAssign 1 1) = .done sampleNew ∧
      Holder.moveAssign 1 1 sampleNew = .done sampleNew ∧
      (Holder.moveAssign 1 1 sampleNew).andThen (Holder.moveAssign 1 1) = .done sampleNew) :=
  ⟨self_assign_noop.1 sampleOld 0 ⟨1, 4⟩ (by decide),
   self_assign_noop.2 sampleNew 1 ⟨2, 2⟩ (by decide)⟩

/-! ## The stack of start times -/

/-- C7, as the code has it. `showChrono` on an empty `vStart` has undefined behaviour: the
function reads `vStart.back()` without testing for emptiness, and neither returns nor raises
an error. -/
theorem showChrono_empty_undefined (s : String) (cur : Int) (out : List (String × Int)) :
    showChrono s cur { vStart := [], out := out } = .undefined := by
  simp [showChrono]

/-- C7 as stated fails: on the empty stack of a starting process `showChrono` does not end
by raising an error. -/
theorem showChrono_empty_not_raised :
    ¬ ∃ t, showChrono "Total computation" 0 { vStart := [], out := [] } = .threw t := by
  simp [showChrono]

/-- C8, as the code has it. `setChrono0` at reading `t0` followed by `showChrono s` at
reading `t1` returns, restores `vStart` to what it was before the push (empty, if it was
empty), and reports for `s` the elapsed time `t1 - t0`; that figure is non-negative exactly
when the clock did not run backwards between the two readings. -/
theorem push_pop_restores (s : String) (t0 t1 : Int) (t : Chrono) :
    ∃ e, showChrono s t1 (setChrono0 t0 t) = .done { vStart := t.vStart, out := t.out ++ [(s, e)] } ∧
      e = t1 - t0 ∧ (0 ≤ e ↔ t0 ≤ t1) := by
  refine ⟨t1 - t0, ?_, rfl, by omega⟩
  simp [showChrono, setChrono0]

/-- C8 as stated fails: `std::chrono::system_clock` need not be monotonic; with a reading of
5 at the push and 3 at the pop, starting from the empty stack, the reported elapsed time is
`-2`, which is negative. -/
theorem push_pop_negative_elapsed :
    ∃ t, showChrono "regular constructor" 3 (setChrono0 5 { vStart := [], out := [] }) = .done t ∧
      t.vStart = [] ∧ t.out = [("regular constructor", -2)] ∧ ¬ (0 : Int) ≤ -2 :=
  ⟨_, rfl, rfl, rfl, by decide⟩

/-! ## The invariants of the data model -/

/-- C9. Invariant I3 of the copy-only class: in a process that starts with no object, after
any sequence of calls that all return (construction, copy construction, copy assignment,
self-assignment included, and destruction), every live `HolderOld` has a non-null buffer that
is a live array of exactly `m_size` elements. -/
theorem HolderOld.invariant_I3 (script : List (Option (List Int))) (ops : List OldOp)
    (w : World HolderOld) (hrun : runOld ops (World.init HolderOld script) = .done w) :
    HolderOld.I3 w := by
  have inv := runOld_keeps ops (HolderOld.init_old_disciplined script) hrun
  intro i c hi
  rcases inv.1.own i c hi with ⟨h0, _⟩ | ⟨h0, hx⟩
  · exact absurd h0 (inv.2 i c hi)
  · exact ⟨h0, hx⟩

/-- The sample program over `HolderOld` runs to the end, leaves two live objects, and I3
holds in the world it reaches. -/
theorem HolderOld.invariant_I3_witness :
    ∃ w, runOld sampleOldProgram (World.init HolderOld sampleScript) = .done w ∧
      w.objs = [none, some ⟨4, 2⟩, some ⟨3, 2⟩] ∧ HolderOld.I3 w :=
  ⟨_, rfl, rfl, HolderOld.invariant_I3 sampleScript sampleOldProgram _ rfl⟩

/-- C10. Invariants I1 and I2 of the copy+move class: in a process that starts with no
object, after any sequence of calls that all return (construction, copy construction, copy
assignment, move construction, move assignment and destruction), every live `Holder` either
has a null buffer and size 0, or has a buffer that is a live array of exactly `m_size`
elements. -/
theorem Holder.invariant_I1_I2 (script : List (Option (List Int))) (ops : List NewOp)
    (w : World Holder) (hrun : runNew ops (World.init Holder script) = .done w) :
    Holder.I12 w := by
  have inv := runNew_keeps ops (Holder.init_disciplined script) hrun
  exact fun i c hi => inv.own i c hi

/-- The sample program over `Holder` runs to the end, leaves one vacant object and two
owning ones, and I1 and I2 hold in the world it reaches. -/
theorem Holder.invariant_I1_I2_witness :
    ∃ w, runNew sampleNewProgram (World.init Holder sampleScript) = .done w ∧
      w.objs = [none, some ⟨4, 2⟩, some ⟨1, 4⟩, some ⟨0, 0⟩] ∧ Holder.I12 w :=
  ⟨_, rfl, rfl, Holder.invariant_I1_I2 sampleScript sampleNewProgram _ rfl⟩

/-! ## The objects after a call that returned -/

theorem HolderOld.ctor_old_shape {w w1 : World HolderOld} {size : Int}
    (e : HolderOld.ctor size w = .done w1) :
    0 ≤ size ∧ ∃ p, p ≠ 0 ∧ w1.objs = w.objs ++ [some ⟨p, size.toNat⟩] := by
  unfold HolderOld.ctor at e
  split at e
  · cases e
  · rename_i hs
    split at e
    · cases e
    · rename_i h p hnew
      cases e
      exact ⟨not_lt.mp hs, p, by rw [(Heap.newArray_some hnew).1]; omega, rfl⟩

theorem HolderOld.copyCtor_old_shape {w w1 : World HolderOld} {other : Nat}
    (e : HolderOld.copyCtor other w = .done w1) :
    ∃ o p, w.objs[other]? = some (some o) ∧ p ≠ 0 ∧
      w1.objs = w.objs ++ [some ⟨p, o.m_size⟩] := by
  unfold HolderOld.copyCtor at e
  split at e
  · rename_i o ho
    split at e
    · cases e
    · rename_i h p hnew
      split at e
      · cases e
      · cases e
        exact ⟨o, p, ho, by rw [(Heap.newArray_some hnew).1]; omega, rfl⟩
  · cases e

theorem HolderOld.copyAssign_old_shape {w w1 : World HolderOld} {self other : Nat}
    (e : HolderOld.copyAssign self other w = .done w1) :
    (self = other ∧ w1 = w) ∨
      (self ≠ other ∧ ∃ s o p, w.objs[self]? = some (some s) ∧
        w.objs[other]? = some (some o) ∧ p ≠ 0 ∧
        w1.objs = w.objs.set self (some ⟨p, o.m_size⟩)) := by
  unfold HolderOld.copyAssign at e
  split at e
  · rename_i s o hs ho
    split at e
    · rename_i heq
      cases e; exact Or.inl ⟨heq, rfl⟩
    · rename_i hne
      split at e
      · cases e
      · split at e
        · cases e
        · rename_i h2 p hnew
          split at e
          · cases e
          · cases e
            exact Or.inr ⟨hne, s, o, p, hs, ho, by rw [(Heap.newArray_some hnew).1]; omega, rfl⟩
  · cases e

theorem HolderOld.dtor_old_shape {w w1 : World HolderOld} {self : Nat}
    (e : HolderOld.dtor self w = .done w1) :
    ∃ s, w.objs[self]? = some (some s) ∧ w1.objs = w.objs.set self none := by
  unfold HolderOld.dtor at e
  split at e
  · rename_i s hs
    split at e
    · cases e
    · cases e; exact ⟨s, hs, rfl⟩
  · cases e

theorem Holder.ctor_shape {w w1 : World Holder} {size : Int}
    (e : Holder.ctor size w = .done w1) :
    0 ≤ size ∧ ∃ p, p ≠ 0 ∧ w1.objs = w.objs ++ [some ⟨p, size.toNat⟩] := by
  unfold Holder.ctor at e
  split at e
  · cases e
  · rename_i hs
    split at e
    · cases e
    · rename_i h p hnew
      cases e
      exact ⟨not_lt.mp hs, p, by rw [(Heap.newArray_some hnew).1]; omega, rfl⟩

theorem Holder.copyCtor_shape {w w1 : World Holder} {other : Nat}
    (e : Holder.copyCtor other w = .done w1) :
    ∃ o p, w.objs[other]? = some (some o) ∧ p ≠ 0 ∧
      w1.objs = w.objs ++ [some ⟨p, o.m_size⟩] := by
  unfold Holder.copyCtor at e
  split at e
  · rename_i o ho
    split at e
    · cases e
    · rename_i h p hnew
      split at e
      · cases e
      · cases e
        exact ⟨o, p, ho, by rw [(Heap.newArray_some hnew).1]; omega, rfl⟩
  · cases e

theorem Holder.copyAssign_shape {w w1 : World Holder} {self other : Nat}
    (e : Holder.copyAssign self other w = .done w1) :
    (self = other ∧ w1 = w) ∨
      (self ≠ other ∧ ∃ s o p, w.objs[self]? = some (some s) ∧
        w.objs[other]? = some (some o) ∧ p ≠ 0 ∧
        w1.objs = w.objs.set self (some ⟨p, o.m_size⟩)) := by
  unfold Holder.copyAssign at e
  split at e
  · rename_i s o hs ho
    split at e
    · rename_i heq
      cases e; exact Or.inl ⟨heq, rfl⟩
    · rename_i hne
      split at e
      · cases e
      · split at e
        · cases e
        · rename_i h2 p hnew
          split at e
          · cases e
          · cases e
            exact Or.inr ⟨hne, s, o, p, hs, ho, by rw [(Heap.newArray_some hnew).1]; omega, rfl⟩
  · cases e

theorem Holder.moveCtor_shape {w w1 : World Holder} {other : Nat}
    (e : Holder.moveCtor other w = .done w1) :
    ∃ o, w.objs[other]? = some (some o) ∧ w1.heap = w.heap ∧
      w1.objs = w.objs.set other (some ⟨0, 0⟩) ++ [some ⟨o.m_data, o.m_size⟩] := by
  unfold Holder.moveCtor at e
  split at e
  · rename_i o ho
    cases e; exact ⟨o, ho, rfl, rfl⟩
  · cases e

theorem Holder.moveAssign_shape {w w1 : World Holder} {self other : Nat}
    (e : Holder.moveAssign self other w = .done w1) :
    (self = other ∧ w1 = w) ∨
      (self ≠ other ∧ ∃ s o, w.objs[self]? = some (some s) ∧
        w.objs[other]? = some (some o) ∧
        w1.objs = (w.objs.set self (some ⟨o.m_data, o.m_size⟩)).set other (some ⟨0, 0⟩)) := by
  unfold Holder.moveAssign at e
  split at e
  · rename_i s o hs ho
    split at e
    · rename_i heq
      cases e; exact Or.inl ⟨heq, rfl⟩
    · rename_i hne
      split at e
      · cases e
      · cases e; exact Or.inr ⟨hne, s, o, hs, ho, rfl⟩
  · cases e

theorem Holder.dtor_shape {w w1 : World Holder} {self : Nat}
    (e : Holder.dtor self w = .done w1) :
    ∃ s, w.objs[self]? = some (some s) ∧ w1.objs = w.objs.set self none := by
  unfold Holder.dtor at e
  split at e
  · rename_i s hs
    split at e
    · cases e
    · cases e; exact ⟨s, hs, rfl⟩
  · cases e

/-! ## Released buffers -/

theorem HolderOld.copyAssign_old_releases {w w1 : World HolderOld} {self other : Nat}
    {s : HolderOld} (inv : HolderOld.Disciplined w) (hne : self ≠ other)
    (hs : w.objs[self]? = some (some s)) (e : HolderOld.copyAssign self other w = .done w1) :
    w1.heap.cell s.m_data = none := by
  have hnz := inv.2 self s hs
  have hnext : s.m_data ≠ w.heap.brk + 1 := by
    rcases inv.1.own self s hs with ⟨h0, _⟩ | ⟨_, ys, hys, _⟩
    · exact absurd h0 hnz
    · exact Heap.wf_ne_next inv.1.wf hys
  unfold HolderOld.copyAssign at e
  rw [hs] at e
  split at e
  · rename_i s1 o1 hs1 ho1
    cases hs1
    simp only [hne, if_false] at e
    split at e
    · cases e
    · rename_i h1 hdel
      split at e
      · cases e
      · rename_i h2 p hnew
        split at e
        · cases e
        · rename_i h3 hcopy
          cases e
          obtain ⟨dbrk, _, dgone, _⟩ := Heap.deleteArray_some hdel
          obtain ⟨hp, _, _, hframe⟩ := Heap.newArray_some hnew
          obtain ⟨_, cframe, _⟩ := Heap.copy_some hcopy
          have hsp : s.m_data ≠ p := by rw [hp, dbrk]; exact hnext
          show h3.cell s.m_data = none
          rw [cframe _ hsp, hframe _ hsp]; exact dgone hnz
  · cases e

theorem HolderOld.dtor_old_releases {w w1 : World HolderOld} {self : Nat} {s : HolderOld}
    (inv : HolderOld.Disciplined w) (hs : w.objs[self]? = some (some s))
    (e : HolderOld.dtor self w = .done w1) : w1.heap.cell s.m_data = none := by
  have hnz := inv.2 self s hs
  unfold HolderOld.dtor at e
  rw [hs] at e
  simp only at e
  split at e
  · cases e
  · rename_i h1 hdel
    cases e
    exact (Heap.deleteArray_some hdel).2.2.1 hnz

theorem Holder.copyAssign_releases {w w1 : World Holder} {self other : Nat}
    {s : Holder} (inv : Holder.Disciplined w) (hne : self ≠ other)
    (hs : w.objs[self]? = some (some s)) (e : Holder.copyAssign self other w = .done w1) :
    w1.heap.cell s.m_data = none := by
  by_cases hnz : s.m_data = 0
  · rw [hnz]; exact (Holder.copyAssign_keeps inv e).wf.1
  have hnext : s.m_data ≠ w.heap.brk + 1 := by
    rcases inv.own self s hs with ⟨h0, _⟩ | ⟨_, ys, hys, _⟩
    · exact absurd h0 hnz
    · exact Heap.wf_ne_next inv.wf hys
  unfold Holder.copyAssign at e
  rw [hs] at e
  split at e
  · rename_i s1 o1 hs1 ho1
    cases hs1
    simp only [hne, if_false] at e
    split at e
    · cases e
    · rename_i h1 hdel
      split at e
      · cases e
      · rename_i h2 p hnew
        split at e
        · cases e
        · rename_i h3 hcopy
          cases e
          obtain ⟨dbrk, _, dgone, _⟩ := Heap.deleteArray_some hdel
          obtain ⟨hp, _, _, hframe⟩ := Heap.newArray_some hnew
          obtain ⟨_, cframe, _⟩ := Heap.copy_some hcopy
          have hsp : s.m_data ≠ p := by rw [hp, dbrk]; exact hnext
          show h3.cell s.m_data = none
          rw [cframe _ hsp, hframe _ hsp]; exact dgone hnz
  · cases e

theorem Holder.moveAssign_releases {w w1 : World Holder} {self other : Nat}
    {s : Holder} (inv : Holder.Disciplined w) (hne : self ≠ other)
    (hs : w.objs[self]? = some (some s)) (e : Holder.moveAssign self other w = .done w1) :
    w1.heap.cell s.m_data = none := by
  by_cases hnz : s.m_data = 0
  · rw [hnz]; exact (Holder.moveAssign_keeps inv e).wf.1
  unfold Holder.moveAssign at e
  rw [hs] at e
  split at e
  · rename_i s1 o1 hs1 ho1
    cases hs1
    simp only [hne, if_false] at e
    split at e
    · cases e
    · rename_i h1 hdel
      cases e
      exact (Heap.deleteArray_some hdel).2.2.1 hnz
  · cases e

theorem Holder.dtor_releases {w w1 : World Holder} {self : Nat} {s : Holder}
    (inv : Holder.Disciplined w) (hs : w.objs[self]? = some (some s))
    (e : Holder.dtor self w = .done w1) : w1.heap.cell s.m_data = none := by
  by_cases hnz : s.m_data = 0
  · rw [hnz]; exact (Holder.dtor_keeps inv e).wf.1
  unfold Holder.dtor at e
  rw [hs] at e
  simp only at e
  split at e
  · cases e
  · rename_i h1 hdel
    cases e
    exact (Heap.deleteArray_some hdel).2.2.1 hnz

/-- In a world that keeps the discipline the live arrays are exactly the non-null addresses
held by live objects. -/
theorem Owned.live_iff_held {α : Type} {data size : α → Nat} {h : Heap}
    {objs : List (Option α)} (inv : Owned data size h objs) (p : Nat) :
    (∃ xs, h.cell p = some xs) ↔
      (p ≠ 0 ∧ ∃ (i : Nat) (c : α), objs[i]? = some (some c) ∧ data c = p) := by
  constructor
  · rintro ⟨xs, hxs⟩
    refine ⟨?_, inv.noleak p xs hxs⟩
    intro h0
    rw [h0, inv.wf.1] at hxs; cases hxs
  · rintro ⟨hp, i, c, hi, hc⟩
    rcases inv.own i c hi with ⟨h0, _⟩ | ⟨_, xs, hxs, _⟩
    · exact absurd (hc.symm.trans h0) hp
    · exact ⟨xs, by rw [← hc]; exact hxs⟩

/-! ## The record of transfers is kept up -/

theorem NewOp.note_mono (op : NewOp) (w : World Holder) (t : Trace) (i : Nat)
    (h : i ∈ t.sources ∨ i ∈ t.heirs) :
    i ∈ (op.note w t).sources ∨ i ∈ (op.note w t).heirs := by
  cases op with
  | construct size => exact h
  | duplicateConstruct other => exact h
  | duplicateAssign a b => exact h
  | destroy a => exact h
  | transferConstruct other =>
    simp only [NewOp.note]
    split
    · rcases h with h | h
      · exact Or.inl (List.mem_cons_of_mem _ h)
      · right; split
        · exact List.mem_cons_of_mem _ h
        · exact h
    · exact h
  | transferAssign a b =>
    simp only [NewOp.note]
    split
    · rcases h with h | h
      · exact Or.inl (List.mem_cons_of_mem _ h)
      · right; split
        · exact List.mem_cons_of_mem _ h
        · exact h
    · exact h

theorem NewOp.step_accounted {op : NewOp} {w w1 : World Holder} {t : Trace}
    (acc : Accounted w t) (e : op.step w = .done w1) : Accounted w1 (op.note w t) := by
  intro i c hi hv
  cases op with
  | construct size =>
    obtain ⟨_, p, hp, hobjs⟩ := Holder.ctor_shape e
    rw [hobjs, getElem?_append_upd] at hi
    split at hi
    · cases hi; exact absurd hv.1 hp
    · exact acc i c hi hv
  | duplicateConstruct other =>
    obtain ⟨o, p, _, hp, hobjs⟩ := Holder.copyCtor_shape e
    rw [hobjs, getElem?_append_upd] at hi
    split at hi
    · cases hi; exact absurd hv.1 hp
    · exact acc i c hi hv
  | duplicateAssign a b =>
    rcases Holder.copyAssign_shape e with ⟨_, hw⟩ | ⟨_, s, o, p, hs, _, hp, hobjs⟩
    · rw [hw] at hi; exact acc i c hi hv
    · rw [hobjs, getElem?_set_upd _ (getElem?_lt_length hs)] at hi
      split at hi
      · cases hi; exact absurd hv.1 hp
      · exact acc i c hi hv
  | destroy a =>
    obtain ⟨s, hs, hobjs⟩ := Holder.dtor_shape e
    rw [hobjs, getElem?_set_upd _ (getElem?_lt_length hs)] at hi
    split at hi
    · cases hi
    · exact acc i c hi hv
  | transferConstruct other =>
    obtain ⟨o, ho, _, hobjs⟩ := Holder.moveCtor_shape e
    have hlt := getElem?_lt_length ho
    rw [hobjs, getElem?_append_upd, List.length_set, getElem?_set_upd _ hlt] at hi
    simp only [NewOp.note, ho]
    by_cases h1 : i = w.objs.length
    · simp only [h1, if_true, Option.some.injEq] at hi
      subst hi
      have hov : o.vacant := hv
      right; simp [hov, h1]
    · simp only [h1, if_false] at hi
      by_cases h2 : i = other
      · left; simp [h2]
      · simp only [h2, if_false] at hi
        rcases acc i c hi hv with h | h
        · exact Or.inl (List.mem_cons_of_mem _ h)
        · right; split
          · exact List.mem_cons_of_mem _ h
          · exact h
  | transferAssign a b =>
    rcases Holder.moveAssign_shape e with ⟨_, hw⟩ | ⟨hne, s, o, hs, ho, hobjs⟩
    · rw [hw] at hi
      exact NewOp.note_mono _ w t i (acc i c hi hv)
    · have hl1 := getElem?_lt_length hs
      have hl2 := getElem?_lt_length ho
      rw [hobjs, getElem?_set_upd _ (by rw [List.length_set]; exact hl2),
        getElem?_set_upd _ hl1] at hi
      simp only [NewOp.note, ho]
      by_cases h2 : i = b
      · left; simp [h2]
      · simp only [h2, if_false] at hi
        by_cases h1 : i = a
        · simp only [h1, if_true, Option.some.injEq] at hi
          subst hi
          have hov : o.vacant := hv
          right; simp [hov, h1]
        · simp only [h1, if_false] at hi
          rcases acc i c hi hv with h | h
          · exact Or.inl (List.mem_cons_of_mem _ h)
          · right; split
            · exact List.mem_cons_of_mem _ h
            · exact h

theorem runNew_accounted (ops : List NewOp) : ∀ {w w1 : World Holder} {t : Trace},
    Accounted w t → runNew ops w = .done w1 → Accounted w1 (traceNew ops w t) := by
  induction ops with
  | nil =>
    intro w w1 t acc e
    simp only [runNew, Outcome.done.injEq] at e
    rw [← e]; exact acc
  | cons op ops ih =>
    intro w w1 t acc e
    simp only [runNew] at e
    cases hstep : op.step w with
    | done w2 =>
      rw [hstep] at e
      simp only [traceNew, hstep]
      exact ih (NewOp.step_accounted acc hstep) e
    | threw w2 => rw [hstep] at e; cases e
    | terminated => rw [hstep] at e; cases e
    | undefined => rw [hstep] at e; cases e

/-! ## The driver `process` and the timing stack -/

theorem Outcome.andThen_done {σ : Type} {r : Outcome σ} {f : σ → Outcome σ} {s : σ}
    (h : r.andThen f = .done s) : ∃ s1, r = .done s1 ∧ f s1 = .done s := by
  cases r with
  | done s1 => exact ⟨s1, rfl, h⟩
  | threw s1 => cases h
  | terminated => cases h
  | undefined => cases h

theorem Machine.call_done {α : Type} {op : World α → Outcome (World α)} {m m1 : Machine α}
    (h : m.call op = .done m1) :
    ∃ w1, op m.world = .done w1 ∧ m1 = { chrono := m.chrono, world := w1 } := by
  unfold Machine.call at h
  split at h
  · rename_i w1 hw
    cases h; exact ⟨w1, hw, rfl⟩
  · cases h
  · cases h
  · cases h

theorem Machine.showChrono_push {α : Type} (s : String) (cur c0 : Int) (v : List Int)
    (out : List (String × Int)) (w : World α) :
    Machine.showChrono s cur { chrono := { vStart := v ++ [c0], out := out }, world := w } =
      .done { chrono := { vStart := v, out := out ++ [(s, cur - c0)] }, world := w } := by
  simp [Machine.showChrono, OldAndNewSchool.showChrono]

theorem process_done_chrono {α : Type} (api : Api α) (clock : Nat → Int) (mday3 mday5 : Int)
    (m m1 : Machine α) (h : process api clock mday3 mday5 m = .done m1) :
    m1.chrono = { vStart := m.chrono.vStart, out := m.chrono.out ++ processReports clock } := by
  simp only [process, Machine.setChrono0, OldAndNewSchool.setChrono0] at h
  obtain ⟨_, e, h⟩ := Outcome.andThen_done h
  obtain ⟨w1, _, rfl⟩ := Machine.call_done e
  simp only [Machine.showChrono_push, Outcome.andThen] at h
  obtain ⟨_, e, h⟩ := Outcome.andThen_done h
  obtain ⟨w2, _, rfl⟩ := Machine.call_done e
  simp only [Machine.showChrono_push, Outcome.andThen] at h
  obtain ⟨_, e, h⟩ := Outcome.andThen_done h
  obtain ⟨w3, _, rfl⟩ := Machine.call_done e
  simp only [Machine.showChrono_push, Outcome.andThen] at h
  obtain ⟨_, e, h⟩ := Outcome.andThen_done h
  obtain ⟨w4, _, rfl⟩ := Machine.call_done e
  simp only [Machine.showChrono_push, Outcome.andThen] at h
  obtain ⟨_, e, h⟩ := Outcome.andThen_done h
  obtain ⟨w5, _, rfl⟩ := Machine.call_done e
  obtain ⟨_, e, h⟩ := Outcome.andThen_done h
  obtain ⟨w6, _, rfl⟩ := Machine.call_done e
  obtain ⟨_, e, h⟩ := Outcome.andThen_done h
  obtain ⟨w7, _, rfl⟩ := Machine.call_done e
  simp only [Machine.showChrono_push, Outcome.andThen] at h
  obtain ⟨_, e, h⟩ := Outcome.andThen_done h
  obtain ⟨w8, _, rfl⟩ := Machine.call_done e
  obtain ⟨_, e, h⟩ := Outcome.andThen_done h
  obtain ⟨w9, _, rfl⟩ := Machine.call_done e
  obtain ⟨w10, _, rfl⟩ := Machine.call_done h
  simp [processReports]

theorem Outcome.andThen_undefined {σ : Type} {r : Outcome σ} {f : σ → Outcome σ}
    (h : r.andThen f = .undefined) :
    r = .undefined ∨ ∃ s1, r = .done s1 ∧ f s1 = .undefined := by
  cases r with
  | done s1 => exact Or.inr ⟨s1, rfl, h⟩
  | threw s1 => cases h
  | terminated => cases h
  | undefined => exact Or.inl rfl

theorem Machine.call_undefined {α : Type} {op : World α → Outcome (World α)} {m : Machine α}
    (h : m.call op = .undefined) : op m.world = .undefined := by
  unfold Machine.call at h
  split at h
  · cases h
  · cases h
  · cases h
  · assumption

/-! ## Calls that return -/

theorem granted_succ {k : Nat} {s : List (Option (List Int))}
    (h : granted (k + 1) s = true) :
    ∃ junk rest, s = some junk :: rest ∧ granted k rest = true := by
  match s, h with
  | some junk :: rest, h => exact ⟨junk, rest, rfl, h⟩

theorem granted_pred {k : Nat} : ∀ {s : List (Option (List Int))},
    granted (k + 1) s = true → granted k s = true := by
  induction k with
  | zero => intro s _; rfl
  | succ k ih =>
    intro s h
    obtain ⟨junk, rest, rfl, h1⟩ := granted_succ h
    exact ih h1

theorem Grew.of_append {α : Type} {w w1 : World α} {c : α}
    (h : w1.objs = w.objs ++ [some c]) : Grew w w1 := by
  refine ⟨by rw [h]; simp, ⟨c, by rw [h]; simp⟩, ?_⟩
  rintro i ⟨d, hd⟩
  exact ⟨d, by rw [h, getElem?_append_upd]; simp [hd, Nat.ne_of_lt (getElem?_lt_length hd)]⟩

theorem Grew.of_set_append {α : Type} {w w1 : World α} {j : Nat} {v c : α}
    (h : w1.objs = w.objs.set j (some v) ++ [some c]) : Grew w w1 := by
  refine ⟨by rw [h]; simp, ⟨c, by rw [h]; simp [List.getElem?_append_right]⟩, ?_⟩
  rintro i ⟨d, hd⟩
  have hlt := getElem?_lt_length hd
  by_cases hij : i = j
  · subst hij
    exact ⟨v, by
      rw [h, List.getElem?_append_left (by simpa using hlt), getElem?_set_upd _ hlt]; simp⟩
  · exact ⟨d, by
      rw [h, List.getElem?_append_left (by simpa using hlt)]
      simp [List.getElem?_set, Ne.symm hij, hd]⟩

theorem Kept.of_set {α : Type} {w w1 : World α} {j : Nat} {c : α}
    (h : w1.objs = w.objs.set j (some c)) : Kept w w1 := by
  refine ⟨by rw [h]; simp, ?_⟩
  rintro i ⟨d, hd⟩
  have hlt := getElem?_lt_length hd
  by_cases hij : i = j
  · subst hij
    exact ⟨c, by rw [h, getElem?_set_upd _ hlt]; simp⟩
  · exact ⟨d, by rw [h]; simp [List.getElem?_set, Ne.symm hij, hd]⟩

theorem Kept.refl {α : Type} (w : World α) : Kept w w := ⟨rfl, fun _ h => h⟩

theorem Kept.trans {α : Type} {w w1 w2 : World α} (h1 : Kept w w1) (h2 : Kept w1 w2) :
    Kept w w2 := ⟨h2.1.trans h1.1, fun i h => h2.2 i (h1.2 i h)⟩

theorem Ended.of_set_none {α : Type} {w w1 : World α} {i : Nat}
    (h : w1.objs = w.objs.set i none) : Ended w w1 i := by
  refine ⟨by rw [h]; simp, ?_⟩
  rintro j hji ⟨d, hd⟩
  exact ⟨d, by rw [h]; simp [List.getElem?_set, Ne.symm hji, hd]⟩

theorem Owned.source {α : Type} {data size : α → Nat} {h : Heap} {objs : List (Option α)}
    (inv : Owned data size h objs) {i : Nat} {o : α} (ho : objs[i]? = some (some o)) :
    ∃ xs, (size o = 0 ∧ xs = []) ∨
      (data o ≠ 0 ∧ data o ≠ h.brk + 1 ∧ h.cell (data o) = some xs ∧ xs.length = size o) := by
  rcases inv.own i o ho with ⟨_, h0⟩ | ⟨h1, xs, h2, h3⟩
  · exact ⟨[], Or.inl ⟨h0, rfl⟩⟩
  · exact ⟨xs, Or.inr ⟨h1, Heap.wf_ne_next inv.wf h2, h2, h3⟩⟩

/-- The source of a copy is still good for `std::copy` after the destination's old array
was released. -/
theorem Owned.source_after_release {α : Type} {data size : α → Nat} {h h1 : Heap}
    {objs : List (Option α)} (inv : Owned data size h objs) {i j : Nat} {s o : α}
    (hij : i ≠ j) (hs : objs[i]? = some (some s)) (ho : objs[j]? = some (some o))
    (hbrk : h1.brk = h.brk) (hframe : ∀ q, q ≠ data s → h1.cell q = h.cell q) :
    ∃ xs, (size o = 0 ∧ xs = []) ∨
      (data o ≠ 0 ∧ data o ≠ h1.brk + 1 ∧ h1.cell (data o) = some xs ∧
        xs.length = size o) := by
  rcases inv.own j o ho with ⟨_, h0⟩ | ⟨a1, xs, a2, a3⟩
  · exact ⟨[], Or.inl ⟨h0, rfl⟩⟩
  · refine ⟨xs, Or.inr ⟨a1, by rw [hbrk]; exact Heap.wf_ne_next inv.wf a2, ?_, a3⟩⟩
    rw [hframe _ (fun e => hij (inv.excl j i o s ho hs a1 e).symm)]; exact a2

theorem Owned.deletable {α : Type} {data size : α → Nat} {h : Heap} {objs : List (Option α)}
    (inv : Owned data size h objs) {i : Nat} {s : α} (hs : objs[i]? = some (some s)) :
    data s = 0 ∨ ∃ ys, h.cell (data s) = some ys := by
  rcases inv.own i s hs with ⟨h0, _⟩ | ⟨_, ys, h2, _⟩
  · exact Or.inl h0
  · exact Or.inr ⟨ys, h2⟩

theorem HolderOld.ctor_old_returns (w : World HolderOld) (n : Int) (k : Nat) (hn : 0 ≤ n)
    (hg : granted (k + 1) w.heap.script = true) :
    ∃ w1, HolderOld.ctor n w = .done w1 ∧ granted k w1.heap.script = true := by
  obtain ⟨junk, rest, hs, hk⟩ := granted_succ hg
  exact ⟨_, by
    simp only [HolderOld.ctor, not_lt.mpr hn, if_false,
      Heap.newArray_granted w.heap n.toNat junk rest hs]; rfl, hk⟩

theorem HolderOld.copyCtor_old_returns (w : World HolderOld) (other k : Nat) (o : HolderOld)
    (inv : HolderOld.Disciplined w) (ho : w.objs[other]? = some (some o))
    (hg : granted (k + 1) w.heap.script = true) :
    ∃ w1, HolderOld.copyCtor other w = .done w1 ∧ granted k w1.heap.script = true := by
  obtain ⟨junk, rest, hs, hk⟩ := granted_succ hg
  obtain ⟨xs, hsrc⟩ := inv.1.source ho
  obtain ⟨h0, h1, e0, e1, _, _, _, hscr⟩ :=
    Heap.newArray_copy w.heap o.m_data o.m_size xs junk rest hs hsrc
  exact ⟨⟨h1, w.objs ++ [some (HolderOld.mk (w.heap.brk + 1) o.m_size)]⟩,
    by simp [HolderOld.copyCtor, ho, e0, e1], by rw [hscr]; exact hk⟩

theorem HolderOld.copyAssign_old_returns (w : World HolderOld) (self other k : Nat)
    (s o : HolderOld) (inv : HolderOld.Disciplined w)
    (hs : w.objs[self]? = some (some s)) (ho : w.objs[other]? = some (some o))
    (hg : granted (k + 1) w.heap.script = true) :
    ∃ w1, HolderOld.copyAssign self other w = .done w1 ∧
      granted k w1.heap.script = true := by
  by_cases hne : self = other
  · exact ⟨w, by simp [HolderOld.copyAssign, hs, ho, hne], granted_pred hg⟩
  obtain ⟨junk, rest, hscript, hk⟩ := granted_succ hg
  obtain ⟨h1, d0, dbrk, dscript, dframe, _, _⟩ :=
    Heap.deleteArray_ok w.heap s.m_data (inv.1.deletable hs)
  obtain ⟨xs, hsrc⟩ := inv.1.source_after_release hne hs ho dbrk dframe
  obtain ⟨h2, h3, e0, e1, _, _, _, hscr⟩ :=
    Heap.newArray_copy h1 o.m_data o.m_size xs junk rest (dscript.trans hscript) hsrc
  exact ⟨⟨h3, w.objs.set self (some (HolderOld.mk (h1.brk + 1) o.m_size))⟩,
    by simp [HolderOld.copyAssign, hs, ho, hne, d0, e0, e1], by rw [hscr]; exact hk⟩

theorem HolderOld.dtor_old_returns (w : World HolderOld) (self k : Nat) (s : HolderOld)
    (inv : HolderOld.Disciplined w) (hs : w.objs[self]? = some (some s))
    (hg : granted k w.heap.script = true) :
    ∃ w1, HolderOld.dtor self w = .done w1 ∧ granted k w1.heap.script = true := by
  obtain ⟨h1, d0, _, dscript, _, _, _⟩ :=
    Heap.deleteArray_ok w.heap s.m_data (inv.1.deletable hs)
  exact ⟨⟨h1, w.objs.set self none⟩, by simp [HolderOld.dtor, hs, d0],
    by rw [dscript]; exact hg⟩

theorem Holder.ctor_returns (w : World Holder) (n : Int) (k : Nat) (hn : 0 ≤ n)
    (hg : granted (k + 1) w.heap.script = true) :
    ∃ w1, Holder.ctor n w = .done w1 ∧ granted k w1.heap.script = true := by
  obtain ⟨junk, rest, hs, hk⟩ := granted_succ hg
  exact ⟨_, by
    simp only [Holder.ctor, not_lt.mpr hn, if_false,
      Heap.newArray_granted w.heap n.toNat junk rest hs]; rfl, hk⟩

theorem Holder.copyCtor_returns (w : World Holder) (other k : Nat) (o : Holder)
    (inv : Holder.Disciplined w) (ho : w.objs[other]? = some (some o))
    (hg : granted (k + 1) w.heap.script = true) :
    ∃ w1, Holder.copyCtor other w = .done w1 ∧ granted k w1.heap.script = true := by
  obtain ⟨junk, rest, hs, hk⟩ := granted_succ hg
  obtain ⟨xs, hsrc⟩ := inv.source ho
  obtain ⟨h0, h1, e0, e1, _, _, _, hscr⟩ :=
    Heap.newArray_copy w.heap o.m_data o.m_size xs junk rest hs hsrc
  exact ⟨⟨h1, w.objs ++ [some (Holder.mk (w.heap.brk + 1) o.m_size)]⟩,
    by simp [Holder.copyCtor, ho, e0, e1], by rw [hscr]; exact hk⟩

theorem Holder.copyAssign_returns (w : World Holder) (self other k : Nat)
    (s o : Holder) (inv : Holder.Disciplined w)
    (hs : w.objs[self]? = some (some s)) (ho : w.objs[other]? = some (some o))
    (hg : granted (k + 1) w.heap.script = true) :
    ∃ w1, Holder.copyAssign self other w = .done w1 ∧
      granted k w1.heap.script = true := by
  by_cases hne : self = other
  · exact ⟨w, by simp [Holder.copyAssign, hs, ho, hne], granted_pred hg⟩
  obtain ⟨junk, rest, hscript, hk⟩ := granted_succ hg
  obtain ⟨h1, d0, dbrk, dscript, dframe, _, _⟩ :=
    Heap.deleteArray_ok w.heap s.m_data (inv.deletable hs)
  obtain ⟨xs, hsrc⟩ := inv.source_after_release hne hs ho dbrk dframe
  obtain ⟨h2, h3, e0, e1, _, _, _, hscr⟩ :=
    Heap.newArray_copy h1 o.m_data o.m_size xs junk rest (dscript.trans hscript) hsrc
  exact ⟨⟨h3, w.objs.set self (some (Holder.mk (h1.brk + 1) o.m_size))⟩,
    by simp [Holder.copyAssign, hs, ho, hne, d0, e0, e1], by rw [hscr]; exact hk⟩

theorem Holder.moveCtor_returns (w : World Holder) (other k : Nat) (o : Holder)
    (ho : w.objs[other]? = some (some o)) (hg : granted k w.heap.script = true) :
    ∃ w1, Holder.moveCtor other w = .done w1 ∧ granted k w1.heap.script = true :=
  ⟨⟨w.heap, w.objs.set other (some (Holder.mk 0 0)) ++ [some (Holder.mk o.m_data o.m_size)]⟩,
    by simp only [Holder.moveCtor, ho], hg⟩

theorem Holder.moveAssign_returns (w : World Holder) (self other k : Nat)
    (s o : Holder) (inv : Holder.Disciplined w)
    (hs : w.objs[self]? = some (some s)) (ho : w.objs[other]? = some (some o))
    (hg : granted k w.heap.script = true) :
    ∃ w1, Holder.moveAssign self other w = .done w1 ∧
      granted k w1.heap.script = true := by
  by_cases hne : self = other
  · exact ⟨w, by simp [Holder.moveAssign, hs, ho, hne], hg⟩
  obtain ⟨h1, d0, _, dscript, _, _, _⟩ :=
    Heap.deleteArray_ok w.heap s.m_data (inv.deletable hs)
  exact ⟨⟨h1, (w.objs.set self (some (Holder.mk o.m_data o.m_size))).set other
      (some (Holder.mk 0 0))⟩,
    by simp [Holder.moveAssign, hs, ho, hne, d0], by rw [dscript]; exact hg⟩

theorem Holder.dtor_returns (w : World Holder) (self k : Nat) (s : Holder)
    (inv : Holder.Disciplined w) (hs : w.objs[self]? = some (some s))
    (hg : granted k w.heap.script = true) :
    ∃ w1, Holder.dtor self w = .done w1 ∧ granted k w1.heap.script = true := by
  obtain ⟨h1, d0, _, dscript, _, _, _⟩ :=
    Heap.deleteArray_ok w.heap s.m_data (inv.deletable hs)
  exact ⟨⟨h1, w.objs.set self none⟩, by simp [Holder.dtor, hs, d0],
    by rw [dscript]; exact hg⟩

/-! ## Both classes are lawful -/

theorem HolderOld.lawful_old : Lawful HolderOld.api HolderOld.Disciplined 1 1 := by
  have hctor : ∀ (w : World HolderOld) (n : Int) (k : Nat), HolderOld.Disciplined w → 0 ≤ n →
      granted (k + 1) w.heap.script = true →
      ∃ w1, HolderOld.ctor n w = .done w1 ∧ HolderOld.Disciplined w1 ∧ Grew w w1 ∧
        granted k w1.heap.script = true := by
    intro w n k inv hn hg
    obtain ⟨w1, e, hk⟩ := HolderOld.ctor_old_returns w n k hn hg
    obtain ⟨_, p, _, hobjs⟩ := HolderOld.ctor_old_shape e
    exact ⟨w1, e, HolderOld.ctor_old_keeps inv e, Grew.of_append hobjs, hk⟩
  have hcopy : ∀ (w : World HolderOld) (i k : Nat), HolderOld.Disciplined w → Live w i →
      granted (k + 1) w.heap.script = true →
      ∃ w1, HolderOld.copyCtor i w = .done w1 ∧ HolderOld.Disciplined w1 ∧ Grew w w1 ∧
        granted k w1.heap.script = true := by
    rintro w i k inv ⟨o, ho⟩ hg
    obtain ⟨w1, e, hk⟩ := HolderOld.copyCtor_old_returns w i k o inv ho hg
    obtain ⟨_, p, _, _, hobjs⟩ := HolderOld.copyCtor_old_shape e
    exact ⟨w1, e, HolderOld.copyCtor_old_keeps inv e, Grew.of_append hobjs, hk⟩
  have hassign : ∀ (w : World HolderOld) (i j k : Nat), HolderOld.Disciplined w → Live w i →
      Live w j → granted (k + 1) w.heap.script = true →
      ∃ w1, HolderOld.copyAssign i j w = .done w1 ∧ HolderOld.Disciplined w1 ∧ Kept w w1 ∧
        granted k w1.heap.script = true := by
    rintro w i j k inv ⟨s, hs⟩ ⟨o, ho⟩ hg
    obtain ⟨w1, e, hk⟩ := HolderOld.copyAssign_old_returns w i j k s o inv hs ho hg
    refine ⟨w1, e, HolderOld.copyAssign_old_keeps inv e, ?_, hk⟩
    rcases HolderOld.copyAssign_old_shape e with ⟨_, hw⟩ | ⟨_, _, _, _, _, _, _, hobjs⟩
    · rw [hw]; exact Kept.refl w
    · exact Kept.of_set hobjs
  refine ⟨hctor, hcopy, hcopy, hassign, hassign, ?_⟩
  rintro w i k inv ⟨s, hs⟩ hg
  obtain ⟨w1, e, hk⟩ := HolderOld.dtor_old_returns w i k s inv hs hg
  obtain ⟨_, _, hobjs⟩ := HolderOld.dtor_old_shape e
  exact ⟨w1, e, HolderOld.dtor_old_keeps inv e, Ended.of_set_none hobjs, hk⟩

theorem Holder.lawful : Lawful Holder.api Holder.Disciplined 0 0 := by
  refine ⟨?_, ?_, ?_, ?_, ?_, ?_⟩
  · intro w n k inv hn hg
    obtain ⟨w1, e, hk⟩ := Holder.ctor_returns w n k hn hg
    obtain ⟨_, p, _, hobjs⟩ := Holder.ctor_shape e
    exact ⟨w1, e, Holder.ctor_keeps inv e, Grew.of_append hobjs, hk⟩
  · rintro w i k inv ⟨o, ho⟩ hg
    obtain ⟨w1, e, hk⟩ := Holder.copyCtor_returns w i k o inv ho hg
    obtain ⟨_, p, _, _, hobjs⟩ := Holder.copyCtor_shape e
    exact ⟨w1, e, Holder.copyCtor_keeps inv e, Grew.of_append hobjs, hk⟩
  · rintro w i k inv ⟨o, ho⟩ hg
    obtain ⟨w1, e, hk⟩ := Holder.moveCtor_returns w i k o ho hg
    obtain ⟨_, _, _, hobjs⟩ := Holder.moveCtor_shape e
    exact ⟨w1, e, Holder.moveCtor_keeps inv e, Grew.of_set_append hobjs, hk⟩
  · rintro w i j k inv ⟨s, hs⟩ ⟨o, ho⟩ hg
    obtain ⟨w1, e, hk⟩ := Holder.copyAssign_returns w i j k s o inv hs ho hg
    refine ⟨w1, e, Holder.copyAssign_keeps inv e, ?_, hk⟩
    rcases Holder.copyAssign_shape e with ⟨_, hw⟩ | ⟨_, _, _, _, _, _, _, hobjs⟩
    · rw [hw]; exact Kept.refl w
    · exact Kept.of_set hobjs
  · rintro w i j k inv ⟨s, hs⟩ ⟨o, ho⟩ hg
    obtain ⟨w1, e, hk⟩ := Holder.moveAssign_returns w i j k s o inv hs ho hg
    refine ⟨w1, e, Holder.moveAssign_keeps inv e, ?_, hk⟩
    rcases Holder.moveAssign_shape e with ⟨_, hw⟩ | ⟨_, _, o1, _, _, hobjs⟩
    · rw [hw]; exact Kept.refl w
    · have h1 : Kept w ⟨w.heap, w.objs.set i (some (Holder.mk o1.m_data o1.m_size))⟩ :=
        Kept.of_set rfl
      exact h1.trans (Kept.of_set hobjs)
  · rintro w i k inv ⟨s, hs⟩ hg
    obtain ⟨w1, e, hk⟩ := Holder.dtor_returns w i k s inv hs hg
    obtain ⟨_, _, hobjs⟩ := Holder.dtor_shape e
    exact ⟨w1, e, Holder.dtor_keeps inv e, Ended.of_set_none hobjs, hk⟩

/-! ## The factory returns -/

theorem Live.lt {α : Type} {w : World α} {i : Nat} (h : Live w i) : i < w.objs.length := by
  obtain ⟨c, hc⟩ := h
  exact getElem?_lt_length hc

theorem createHolder_runs {α : Type} {api : Api α} {Inv : World α → Prop} {costR costA : Nat}
    (law : Lawful api Inv costR costA) (w : World α) (n mday : Int) (k : Nat)
    (inv : Inv w) (hn : 0 ≤ n) (hg : granted (k + costR + 2) w.heap.script = true) :
    ∃ w1 w2 w3 w4 w5,
      api.ctor n w = .done w1 ∧ api.ctor n w1 = .done w2 ∧
      api.fromRvalue (if Int.tmod mday 2 ≠ 0 then w.objs.length else w.objs.length + 1) w2
        = .done w3 ∧
      api.dtor (w.objs.length + 1) w3 = .done w4 ∧ api.dtor w.objs.length w4 = .done w5 ∧
      createHolder api n mday w = .done w5 ∧ Inv w5 ∧
      w5.objs.length = w.objs.length + 3 ∧ Live w5 (w.objs.length + 2) ∧
      (∀ i, Live w i → Live w5 i) ∧ granted k w5.heap.script = true := by
  obtain ⟨w1, e1, inv1, g1, hg1⟩ := law.ctor_runs w n (k + costR + 1) inv hn hg
  obtain ⟨w2, e2, inv2, g2, hg2⟩ := law.ctor_runs w1 n (k + costR) inv1 hn hg1
  have hl1 : w1.objs.length = w.objs.length + 1 := g1.1
  have hl2 : w2.objs.length = w.objs.length + 2 := by rw [g2.1, hl1]
  have hsrc : Live w2 (if Int.tmod mday 2 ≠ 0 then w.objs.length else w.objs.length + 1) := by
    split
    · exact g2.2.2 _ g1.2.1
    · rw [← hl1]; exact g2.2.1
  obtain ⟨w3, e3, inv3, g3, hg3⟩ := law.fromRvalue_runs w2 _ k inv2 hsrc hg2
  have h02 : Live w3 (w.objs.length + 1) := g3.2.2 _ (by rw [← hl1]; exact g2.2.1)
  obtain ⟨w4, e4, inv4, g4, hg4⟩ := law.dtor_runs w3 _ k inv3 h02 hg3
  have h01 : Live w4 w.objs.length :=
    g4.2 _ (by omega) (g3.2.2 _ (g2.2.2 _ g1.2.1))
  obtain ⟨w5, e5, inv5, g5, hg5⟩ := law.dtor_runs w4 _ k inv4 h01 hg4
  refine ⟨w1, w2, w3, w4, w5, e1, e2, e3, e4, e5, ?_, inv5, ?_, ?_, ?_, hg5⟩
  · simp only [createHolder, e1, Outcome.andThen, hl1, e2, e3, e4, e5]
  · rw [g5.1, g4.1, g3.1, hl2]
  · have h3 : Live w3 (w.objs.length + 2) := by rw [← hl2]; exact g3.2.1
    exact g5.2 _ (by omega) (g4.2 _ (by omega) h3)
  · intro i hi
    have hlt := hi.lt
    exact g5.2 _ (by omega) (g4.2 _ (by omega) (g3.2.2 _ (g2.2.2 _ (g1.2.2 _ hi))))

theorem Machine.call_mk {α : Type} {op : World α → Outcome (World α)} {c : Chrono}
    {w w1 : World α} (h : op w = .done w1) :
    Machine.call op { chrono := c, world := w } = .done { chrono := c, world := w1 } := by
  simp only [Machine.call, h]

theorem process_runs {α : Type} {api : Api α} {Inv : World α → Prop} {costR costA : Nat}
    (law : Lawful api Inv costR costA) (clock : Nat → Int) (mday3 mday5 : Int)
    (m : Machine α) (inv : Inv m.world)
    (hg : granted (2 * costR + costA + 7) m.world.heap.script = true) :
    ∃ m1, process api clock mday3 mday5 m = .done m1 ∧ Inv m1.world := by
  have hK : 2 * costR + costA + 7 = 0 + costA + costR + 2 + 1 + costR + 2 + 1 + 1 := by omega
  rw [hK] at hg
  have hs2 : (0 : Int) ≤ arraysSize2 := by decide
  have hs1 : (0 : Int) ≤ arraysSize1 := by decide
  obtain ⟨w1, e1, inv1, g1, hg1⟩ := law.ctor_runs m.world arraysSize2 _ inv hs2 hg
  obtain ⟨w2, e2, inv2, g2, hg2⟩ := law.fromLvalue_runs w1 m.world.objs.length _ inv1 g1.2.1 hg1
  obtain ⟨_, _, _, _, w3, _, _, _, _, _, e3, inv3, l3, n3, g3, hg3⟩ :=
    createHolder_runs law w2 arraysSize2 mday3 _ inv2 hs2 hg2
  have hh2 : Live w3 w1.objs.length := g3 _ g2.2.1
  have hh3 : Live w3 (w3.objs.length - 1) := by
    rw [l3]; exact n3
  obtain ⟨w4, e4, inv4, g4, hg4⟩ :=
    law.assignLvalue_runs w3 w1.objs.length (w3.objs.length - 1) _ inv3 hh2 hh3 hg3
  obtain ⟨_, _, _, _, w5, _, _, _, _, _, e5, inv5, l5, n5, g5, hg5⟩ :=
    createHolder_runs law w4 arraysSize1 mday5 _ inv4 hs1 hg4
  have ht : Live w5 (w5.objs.length - 1) := by
    rw [l5]; exact n5
  obtain ⟨w6, e6, inv6, g6, hg6⟩ :=
    law.assignRvalue_runs w5 w1.objs.length (w5.objs.length - 1) _ inv5
      (g5 _ (g4.2 _ hh2)) ht hg5
  obtain ⟨w7, e7, inv7, g7, hg7⟩ :=
    law.dtor_runs w6 (w5.objs.length - 1) 0 inv6 (g6.2 _ ht) hg6
  have hlt3 : w3.objs.length - 1 < w4.objs.length := by
    have := hh3.lt
    rw [g4.1]; exact this
  have hne3 : w3.objs.length - 1 ≠ w5.objs.length - 1 := by
    rw [l5]; omega
  have hh3' : Live w7 (w3.objs.length - 1) :=
    g7.2 _ hne3 (g6.2 _ (g5 _ (g4.2 _ hh3)))
  obtain ⟨w8, e8, inv8, g8, hg8⟩ := law.dtor_runs w7 (w3.objs.length - 1) 0 inv7 hh3' hg7
  have hlt2 : w1.objs.length < w3.objs.length - 1 := by
    have h2 : w2.objs.length = w1.objs.length + 1 := g2.1
    rw [l3, h2]; omega
  have hh2' : Live w8 w1.objs.length :=
    g8.2 _ (by omega) (g7.2 _ (by rw [l5, g4.1]; omega) (g6.2 _ (g5 _ (g4.2 _ hh2))))
  obtain ⟨w9, e9, inv9, g9, hg9⟩ := law.dtor_runs w8 w1.objs.length 0 inv8 hh2' hg8
  have hl1 : w1.objs.length = m.world.objs.length + 1 := g1.1
  have hh1 : Live w9 m.world.objs.length :=
    g9.2 _ (by omega) (g8.2 _ (by omega) (g7.2 _ (by rw [l5, g4.1]; omega)
      (g6.2 _ (g5 _ (g4.2 _ (g3 _ (g2.2.2 _ g1.2.1)))))))
  obtain ⟨w10, e10, inv10, g10, hg10⟩ := law.dtor_runs w9 m.world.objs.length 0 inv9 hh1 hg9
  refine ⟨⟨⟨m.chrono.vStart,
    m.chrono.out ++ [("regular constructor", clock 2 - clock 1)] ++
      [("copy constructor (lvalue in input)", clock 4 - clock 3)] ++
      [("move constructor (rvalue in input)", clock 6 - clock 5)] ++
      [("assignment operator (lvalue in input)", clock 8 - clock 7)] ++
      [("move assignment operator (rvalue in input)", clock 10 - clock 9)] ++
      [("Total computation", clock 11 - clock 0)]⟩, w10⟩, ?_, inv10⟩
  simp only [process, Machine.setChrono0, OldAndNewSchool.setChrono0, Machine.call_mk e1,
    Outcome.andThen, Machine.showChrono_push, Machine.call_mk e2, Machine.call_mk e3,
    Machine.call_mk e4, Machine.call_mk e5, Machine.call_mk e6, Machine.call_mk e7,
    Machine.call_mk e8, Machine.call_mk e9, Machine.call_mk e10]

/-! ## No undefined behaviour on live objects -/

theorem Heap.newArray_refused (h : Heap) (n : Nat) (hg : granted 1 h.script = false) :
    ∃ h0, h.newArray n = (h0, none) := by
  unfold Heap.newArray
  match hs : h.script with
  | [] => exact ⟨_, rfl⟩
  | none :: rest => exact ⟨_, rfl⟩
  | some junk :: rest => rw [hs] at hg; simp [granted] at hg

theorem HolderOld.ctor_old_defined (w : World HolderOld) (n : Int) :
    HolderOld.ctor n w ≠ .undefined := by
  unfold HolderOld.ctor
  split
  · simp
  · split <;> simp

theorem Holder.ctor_defined (w : World Holder) (n : Int) :
    Holder.ctor n w ≠ .undefined := by
  unfold Holder.ctor
  split
  · simp
  · split <;> simp

theorem HolderOld.copyCtor_old_defined (w : World HolderOld) (other : Nat)
    (inv : HolderOld.Disciplined w) (hl : Live w other) :
    HolderOld.copyCtor other w ≠ .undefined := by
  obtain ⟨o, ho⟩ := hl
  cases hg : granted 1 w.heap.script with
  | true =>
    obtain ⟨w1, e, _⟩ := HolderOld.copyCtor_old_returns w other 0 o inv ho hg
    rw [e]; simp
  | false =>
    obtain ⟨h0, e0⟩ := Heap.newArray_refused w.heap o.m_size hg
    simp [HolderOld.copyCtor, ho, e0]

theorem Holder.copyCtor_defined (w : World Holder) (other : Nat)
    (inv : Holder.Disciplined w) (hl : Live w other) :
    Holder.copyCtor other w ≠ .undefined := by
  obtain ⟨o, ho⟩ := hl
  cases hg : granted 1 w.heap.script with
  | true =>
    obtain ⟨w1, e, _⟩ := Holder.copyCtor_returns w other 0 o inv ho hg
    rw [e]; simp
  | false =>
    obtain ⟨h0, e0⟩ := Heap.newArray_refused w.heap o.m_size hg
    simp [Holder.copyCtor, ho, e0]

theorem HolderOld.copyAssign_old_defined (w : World HolderOld) (self other : Nat)
    (inv : HolderOld.Disciplined w) (hl1 : Live w self) (hl2 : Live w other) :
    HolderOld.copyAssign self other w ≠ .undefined := by
  obtain ⟨s, hs⟩ := hl1
  obtain ⟨o, ho⟩ := hl2
  cases hg : granted 1 w.heap.script with
  | true =>
    obtain ⟨w1, e, _⟩ := HolderOld.copyAssign_old_returns w self other 0 s o inv hs ho hg
    rw [e]; simp
  | false =>
    by_cases hne : self = other
    · simp [HolderOld.copyAssign, hs, ho, hne]
    · obtain ⟨h1, d0, _, dscript, _, _, _⟩ :=
        Heap.deleteArray_ok w.heap s.m_data (inv.1.deletable hs)
      obtain ⟨h0, e0⟩ := Heap.newArray_refused h1 o.m_size (by rw [dscript]; exact hg)
      simp [HolderOld.copyAssign, hs, ho, hne, d0, e0]

theorem Holder.copyAssign_defined (w : World Holder) (self other : Nat)
    (inv : Holder.Disciplined w) (hl1 : Live w self) (hl2 : Live w other) :
    Holder.copyAssign self other w ≠ .undefined := by
  obtain ⟨s, hs⟩ := hl1
  obtain ⟨o, ho⟩ := hl2
  cases hg : granted 1 w.heap.script with
  | true =>
    obtain ⟨w1, e, _⟩ := Holder.copyAssign_returns w self other 0 s o inv hs ho hg
    rw [e]; simp
  | false =>
    by_cases hne : self = other
    · simp [Holder.copyAssign, hs, ho, hne]
    · obtain ⟨h1, d0, _, dscript, _, _, _⟩ :=
        Heap.deleteArray_ok w.heap s.m_data (inv.deletable hs)
      obtain ⟨h0, e0⟩ := Heap.newArray_refused h1 o.m_size (by rw [dscript]; exact hg)
      simp [Holder.copyAssign, hs, ho, hne, d0, e0]

theorem HolderOld.sound_old : Sound HolderOld.api HolderOld.Disciplined := by
  have hcopyD : ∀ (w : World HolderOld) (i : Nat), HolderOld.Disciplined w → Live w i →
      HolderOld.copyCtor i w ≠ .undefined :=
    fun w i inv hl => HolderOld.copyCtor_old_defined w i inv hl
  have hcopy : ∀ (w w1 : World HolderOld) (i : Nat), HolderOld.Disciplined w →
      HolderOld.copyCtor i w = .done w1 → HolderOld.Disciplined w1 ∧ Grew w w1 := by
    intro w w1 i inv e
    obtain ⟨_, p, _, _, hobjs⟩ := HolderOld.copyCtor_old_shape e
    exact ⟨HolderOld.copyCtor_old_keeps inv e, Grew.of_append hobjs⟩
  have hassignD : ∀ (w : World HolderOld) (i j : Nat), HolderOld.Disciplined w → Live w i →
      Live w j → HolderOld.copyAssign i j w ≠ .undefined :=
    fun w i j inv h1 h2 => HolderOld.copyAssign_old_defined w i j inv h1 h2
  have hassign : ∀ (w w1 : World HolderOld) (i j : Nat), HolderOld.Disciplined w →
      HolderOld.copyAssign i j w = .done w1 → HolderOld.Disciplined w1 ∧ Kept w w1 := by
    intro w w1 i j inv e
    refine ⟨HolderOld.copyAssign_old_keeps inv e, ?_⟩
    rcases HolderOld.copyAssign_old_shape e with ⟨_, hw⟩ | ⟨_, _, _, _, _, _, _, hobjs⟩
    · rw [hw]; exact Kept.refl w
    · exact Kept.of_set hobjs
  refine ⟨fun w n _ => HolderOld.ctor_old_defined w n, ?_, hcopyD, hcopy, hcopyD, hcopy,
    hassignD, hassign, hassignD, hassign, ?_, ?_⟩
  · intro w w1 n inv e
    obtain ⟨_, p, _, hobjs⟩ := HolderOld.ctor_old_shape e
    exact ⟨HolderOld.ctor_old_keeps inv e, Grew.of_append hobjs⟩
  · rintro w i inv ⟨s, hs⟩
    obtain ⟨w1, e, _⟩ := HolderOld.dtor_old_returns w i 0 s inv hs rfl
    intro h
    have h2 : Outcome.done w1 = Outcome.undefined := e.symm.trans h
    cases h2
  · intro w w1 i inv e
    obtain ⟨_, _, hobjs⟩ := HolderOld.dtor_old_shape e
    exact ⟨HolderOld.dtor_old_keeps inv e, Ended.of_set_none hobjs⟩

theorem Holder.sound : Sound Holder.api Holder.Disciplined := by
  refine ⟨fun w n _ => Holder.ctor_defined w n, ?_,
    fun w i inv hl => Holder.copyCtor_defined w i inv hl, ?_, ?_, ?_,
    fun w i j inv h1 h2 => Holder.copyAssign_defined w i j inv h1 h2, ?_, ?_, ?_, ?_, ?_⟩
  · intro w w1 n inv e
    obtain ⟨_, p, _, hobjs⟩ := Holder.ctor_shape e
    exact ⟨Holder.ctor_keeps inv e, Grew.of_append hobjs⟩
  · intro w w1 i inv e
    obtain ⟨_, p, _, _, hobjs⟩ := Holder.copyCtor_shape e
    exact ⟨Holder.copyCtor_keeps inv e, Grew.of_append hobjs⟩
  · rintro w i inv ⟨o, ho⟩
    obtain ⟨w1, e, _⟩ := Holder.moveCtor_returns w i 0 o ho rfl
    intro h
    have h2 : Outcome.done w1 = Outcome.undefined := e.symm.trans h
    cases h2
  · intro w w1 i inv e
    obtain ⟨_, _, _, hobjs⟩ := Holder.moveCtor_shape e
    exact ⟨Holder.moveCtor_keeps inv e, Grew.of_set_append hobjs⟩
  · intro w w1 i j inv e
    refine ⟨Holder.copyAssign_keeps inv e, ?_⟩
    rcases Holder.copyAssign_shape e with ⟨_, hw⟩ | ⟨_, _, _, _, _, _, _, hobjs⟩
    · rw [hw]; exact Kept.refl w
    · exact Kept.of_set hobjs
  · rintro w i j inv ⟨s, hs⟩ ⟨o, ho⟩
    obtain ⟨w1, e, _⟩ := Holder.moveAssign_returns w i j 0 s o inv hs ho rfl
    intro h
    have h2 : Outcome.done w1 = Outcome.undefined := e.symm.trans h
    cases h2
  · intro w w1 i j inv e
    refine ⟨Holder.moveAssign_keeps inv e, ?_⟩
    rcases Holder.moveAssign_shape e with ⟨_, hw⟩ | ⟨_, _, o1, _, _, hobjs⟩
    · rw [hw]; exact Kept.refl w
    · have h1 : Kept w ⟨w.heap, w.objs.set i (some (Holder.mk o1.m_data o1.m_size))⟩ :=
        Kept.of_set rfl
      exact h1.trans (Kept.of_set hobjs)
  · rintro w i inv ⟨s, hs⟩
    obtain ⟨w1, e, _⟩ := Holder.dtor_returns w i 0 s inv hs rfl
    intro h
    have h2 : Outcome.done w1 = Outcome.undefined := e.symm.trans h
    cases h2
  · intro w w1 i inv e
    obtain ⟨_, _, hobjs⟩ := Holder.dtor_shape e
    exact ⟨Holder.dtor_keeps inv e, Ended.of_set_none hobjs⟩

theorem createHolder_done {α : Type} {api : Api α} {Inv : World α → Prop}
    (snd : Sound api Inv) {w w5 : World α} {n mday : Int} (inv : Inv w)
    (h : createHolder api n mday w = .done w5) :
    Inv w5 ∧ w5.objs.length = w.objs.length + 3 ∧ Live w5 (w.objs.length + 2) ∧
      ∀ i, Live w i → Live w5 i := by
  simp only [createHolder] at h
  obtain ⟨w1, e1, h⟩ := Outcome.andThen_done h
  obtain ⟨inv1, g1⟩ := snd.ctor_done _ _ _ inv e1
  obtain ⟨w2, e2, h⟩ := Outcome.andThen_done h
  obtain ⟨inv2, g2⟩ := snd.ctor_done _ _ _ inv1 e2
  obtain ⟨w3, e3, h⟩ := Outcome.andThen_done h
  obtain ⟨inv3, g3⟩ := snd.fromRvalue_done _ _ _ inv2 e3
  obtain ⟨w4, e4, h⟩ := Outcome.andThen_done h
  obtain ⟨inv4, g4⟩ := snd.dtor_done _ _ _ inv3 e4
  obtain ⟨inv5, g5⟩ := snd.dtor_done _ _ _ inv4 h
  have hl1 : w1.objs.length = w.objs.length + 1 := g1.1
  have hl2 : w2.objs.length = w.objs.length + 2 := by rw [g2.1, hl1]
  refine ⟨inv5, by rw [g5.1, g4.1, g3.1, hl2], ?_, ?_⟩
  · have h3 : Live w3 (w.objs.length + 2) := by rw [← hl2]; exact g3.2.1
    exact g5.2 _ (by omega) (g4.2 _ (by omega) h3)
  · intro i hi
    have hlt := hi.lt
    exact g5.2 _ (by omega) (g4.2 _ (by omega) (g3.2.2 _ (g2.2.2 _ (g1.2.2 _ hi))))

theorem createHolder_defined {α : Type} {api : Api α} {Inv : World α → Prop}
    (snd : Sound api Inv) {w : World α} {n mday : Int} (inv : Inv w) :
    createHolder api n mday w ≠ .undefined := by
  intro h
  simp only [createHolder] at h
  rcases Outcome.andThen_undefined h with e | ⟨w1, e1, h⟩
  · exact snd.ctor_defined _ _ inv e
  obtain ⟨inv1, g1⟩ := snd.ctor_done _ _ _ inv e1
  rcases Outcome.andThen_undefined h with e | ⟨w2, e2, h⟩
  · exact snd.ctor_defined _ _ inv1 e
  obtain ⟨inv2, g2⟩ := snd.ctor_done _ _ _ inv1 e2
  have hl1 : w1.objs.length = w.objs.length + 1 := g1.1
  have hsrc : Live w2 (if Int.tmod mday 2 ≠ 0 then w.objs.length else w1.objs.length) := by
    split
    · exact g2.2.2 _ g1.2.1
    · exact g2.2.1
  rcases Outcome.andThen_undefined h with e | ⟨w3, e3, h⟩
  · exact snd.fromRvalue_defined _ _ inv2 hsrc e
  obtain ⟨inv3, g3⟩ := snd.fromRvalue_done _ _ _ inv2 e3
  have h02 : Live w3 w1.objs.length := g3.2.2 _ g2.2.1
  rcases Outcome.andThen_undefined h with e | ⟨w4, e4, h⟩
  · exact snd.dtor_defined _ _ inv3 h02 e
  obtain ⟨inv4, g4⟩ := snd.dtor_done _ _ _ inv3 e4
  have h01 : Live w4 w.objs.length :=
    g4.2 _ (by omega) (g3.2.2 _ (g2.2.2 _ g1.2.1))
  exact snd.dtor_defined _ _ inv4 h01 h

theorem process_defined {α : Type} {api : Api α} {Inv : World α → Prop}
    (snd : Sound api Inv) (clock : Nat → Int) (mday3 mday5 : Int) (m : Machine α)
    (inv : Inv m.world) : process api clock mday3 mday5 m ≠ .undefined := by
  intro h
  simp only [process, Machine.setChrono0, OldAndNewSchool.setChrono0] at h
  rcases Outcome.andThen_undefined h with e | ⟨_, e, h⟩
  · have e0 := Machine.call_undefined e
    exact snd.ctor_defined _ _ inv e0
  obtain ⟨w1, e1, rfl⟩ := Machine.call_done e
  obtain ⟨inv1, g1⟩ := snd.ctor_done _ _ _ inv e1
  simp only [Machine.showChrono_push, Outcome.andThen] at h
  rcases Outcome.andThen_undefined h with e | ⟨_, e, h⟩
  · have e0 := Machine.call_undefined e
    exact snd.fromLvalue_defined _ _ inv1 g1.2.1 e0
  obtain ⟨w2, e2, rfl⟩ := Machine.call_done e
  obtain ⟨inv2, g2⟩ := snd.fromLvalue_done _ _ _ inv1 e2
  simp only [Machine.showChrono_push, Outcome.andThen] at h
  rcases Outcome.andThen_undefined h with e | ⟨_, e, h⟩
  · have e0 := Machine.call_undefined e
    exact createHolder_defined snd inv2 e0
  obtain ⟨w3, e3, rfl⟩ := Machine.call_done e
  obtain ⟨inv3, l3, n3, g3⟩ := createHolder_done snd inv2 e3
  simp only [Machine.showChrono_push, Outcome.andThen] at h
  have hh2 : Live w3 w1.objs.length := g3 _ g2.2.1
  have hh3 : Live w3 (w3.objs.length - 1) := by rw [l3]; exact n3
  rcases Outcome.andThen_undefined h with e | ⟨_, e, h⟩
  · have e0 := Machine.call_undefined e
    exact snd.assignLvalue_defined _ _ _ inv3 hh2 hh3 e0
  obtain ⟨w4, e4, rfl⟩ := Machine.call_done e
  obtain ⟨inv4, g4⟩ := snd.assignLvalue_done _ _ _ _ inv3 e4
  simp only [Machine.showChrono_push, Outcome.andThen] at h
  rcases Outcome.andThen_undefined h with e | ⟨_, e, h⟩
  · have e0 := Machine.call_undefined e
    exact createHolder_defined snd inv4 e0
  obtain ⟨w5, e5, rfl⟩ := Machine.call_done e
  obtain ⟨inv5, l5, n5, g5⟩ := createHolder_done snd inv4 e5
  have ht : Live w5 (w5.objs.length - 1) := by rw [l5]; exact n5
  rcases Outcome.andThen_undefined h with e | ⟨_, e, h⟩
  · have e0 := Machine.call_undefined e
    exact snd.assignRvalue_defined _ _ _ inv5 (g5 _ (g4.2 _ hh2)) ht e0
  obtain ⟨w6, e6, rfl⟩ := Machine.call_done e
  obtain ⟨inv6, g6⟩ := snd.assignRvalue_done _ _ _ _ inv5 e6
  rcases Outcome.andThen_undefined h with e | ⟨_, e, h⟩
  · have e0 := Machine.call_undefined e
    exact snd.dtor_defined _ _ inv6 (g6.2 _ ht) e0
  obtain ⟨w7, e7, rfl⟩ := Machine.call_done e
  obtain ⟨inv7, g7⟩ := snd.dtor_done _ _ _ inv6 e7
  simp only [Machine.showChrono_push, Outcome.andThen] at h
  have hlt3 := hh3.lt
  have hl2 : w2.objs.length = w1.objs.length + 1 := g2.1
  have hl1 : w1.objs.length = m.world.objs.length + 1 := g1.1
  have hl4 : w4.objs.length = w3.objs.length := g4.1
  have hh3' : Live w7 (w3.objs.length - 1) :=
    g7.2 _ (by rw [l5, hl4]; omega) (g6.2 _ (g5 _ (g4.2 _ hh3)))
  rcases Outcome.andThen_undefined h with e | ⟨_, e, h⟩
  · have e0 := Machine.call_undefined e
    exact snd.dtor_defined _ _ inv7 hh3' e0
  obtain ⟨w8, e8, rfl⟩ := Machine.call_done e
  obtain ⟨inv8, g8⟩ := snd.dtor_done _ _ _ inv7 e8
  have hh2' : Live w8 w1.objs.length :=
    g8.2 _ (by rw [l3, hl2]; omega)
      (g7.2 _ (by rw [l5, hl4, l3, hl2]; omega) (g6.2 _ (g5 _ (g4.2 _ hh2))))
  rcases Outcome.andThen_undefined h with e | ⟨_, e, h⟩
  · have e0 := Machine.call_undefined e
    exact snd.dtor_defined _ _ inv8 hh2' e0
  obtain ⟨w9, e9, rfl⟩ := Machine.call_done e
  obtain ⟨inv9, g9⟩ := snd.dtor_done _ _ _ inv8 e9
  have hh1 : Live w9 m.world.objs.length :=
    g9.2 _ (by omega) (g8.2 _ (by rw [l3, hl2]; omega)
      (g7.2 _ (by rw [l5, hl4, l3, hl2]; omega)
        (g6.2 _ (g5 _ (g4.2 _ (g3 _ (g2.2.2 _ g1.2.1)))))))
  have e0 := Machine.call_undefined h
  exact snd.dtor_defined _ _ inv9 hh1 e0

/-! ## The factory `createHolder` -/

theorem factory_objs_copy {α : Type} (l : List (Option α)) (a b r : Option α) :
    ((((l ++ [a]) ++ [b]) ++ [r]).set (l.length + 1) none).set l.length none =
      l ++ [none, none, r] := by
  induction l with
  | nil => rfl
  | cons x l ih => simp [ih]

theorem factory_objs_move {α : Type} (l : List (Option α)) (a b v r : Option α) (j : Nat)
    (hj : j = l.length ∨ j = l.length + 1) :
    (((((l ++ [a]) ++ [b]).set j v) ++ [r]).set (l.length + 1) none).set l.length none =
      l ++ [none, none, r] := by
  induction l generalizing j with
  | nil =>
    rcases hj with rfl | rfl <;> rfl
  | cons x l ih =>
    obtain ⟨j1, rfl⟩ : ∃ j1, j = j1 + 1 := by
      rcases hj with h | h
      · exact ⟨l.length, by simpa using h⟩
      · exact ⟨l.length + 1, by simpa using h⟩
    have hj1 : j1 = l.length ∨ j1 = l.length + 1 := by
      rcases hj with h | h
      · left; simpa using h
      · right; simpa using h
    simpa using ih j1 hj1

/-- Once the factory has returned, the live arrays are those live before the call and the
buffer of the returned object, which was not live before. -/
theorem Owned.after_factory {α : Type} {data size : α → Nat} {h h5 : Heap}
    {objs : List (Option α)} {r : α} (inv : Owned data size h objs)
    (inv5 : Owned data size h5 (objs ++ [none, none, some r])) (hr : data r ≠ 0) :
    (∀ p, (∃ xs, h5.cell p = some xs) ↔ ((∃ xs, h.cell p = some xs) ∨ p = data r)) ∧
      ¬ ∃ xs, h.cell (data r) = some xs := by
  have hold : ∀ (i : Nat) (c : α), objs[i]? = some (some c) →
      (objs ++ [none, none, some r])[i]? = some (some c) := by
    intro i c hi
    rw [List.getElem?_append_left (getElem?_lt_length hi)]; exact hi
  have hnew : (objs ++ [none, none, some r])[objs.length + 2]? = some (some r) := by
    rw [List.getElem?_append_right (by omega)]
    simp
  have hnot : ¬ ∃ xs, h.cell (data r) = some xs := by
    rintro ⟨xs, hxs⟩
    obtain ⟨i, c, hi, hc⟩ := inv.noleak _ xs hxs
    have := inv5.excl (objs.length + 2) i r c hnew (hold i c hi) hr hc.symm
    have hlt := getElem?_lt_length hi
    omega
  refine ⟨fun p => ?_, hnot⟩
  rw [inv5.live_iff_held p, inv.live_iff_held p]
  constructor
  · rintro ⟨hp, i, c, hi, hc⟩
    rcases Nat.lt_or_ge i objs.length with hlt | hge
    · rw [List.getElem?_append_left hlt] at hi
      exact Or.inl ⟨hp, i, c, hi, hc⟩
    · rw [List.getElem?_append_right hge] at hi
      right
      match hk : i - objs.length, hi with
      | 0, hi => simp [hk] at hi
      | 1, hi => simp [hk] at hi
      | 2, hi =>
        simp [hk] at hi
        rw [← hc, hi]
      | k + 3, hi => simp [hk] at hi
  · rintro (⟨hp, i, c, hi, hc⟩ | hp)
    · exact ⟨hp, i, c, hold i c hi, hc⟩
    · exact ⟨by rw [hp]; exact hr, objs.length + 2, r, hnew, hp.symm⟩

theorem HolderOld.dtor_old_frame {w w1 : World HolderOld} {self : Nat} {s : HolderOld}
    (hs : w.objs[self]? = some (some s)) (e : HolderOld.dtor self w = .done w1) :
    ∀ q, q ≠ s.m_data → w1.heap.cell q = w.heap.cell q := by
  unfold HolderOld.dtor at e
  rw [hs] at e
  simp only at e
  split at e
  · cases e
  · rename_i h1 hdel
    cases e
    exact (Heap.deleteArray_some hdel).2.1

theorem Heap.newArray_script {h h0 : Heap} {n p : Nat} (e : h.newArray n = (h0, some p)) :
    ∃ junk, h.script = some junk :: h0.script := by
  unfold Heap.newArray at e
  split at e
  · cases e
  · cases e
  · rename_i junk rest hs
    simp only [Prod.mk.injEq, Option.some.injEq] at e
    obtain ⟨e1, _⟩ := e
    subst e1
    exact ⟨junk, hs⟩

/-- A copy construction that returned put the elements of the source into the array of the
new object. -/
theorem HolderOld.copyCtor_old_content {w w1 : World HolderOld} {other : Nat} {o : HolderOld}
    (inv : HolderOld.Disciplined w) (ho : w.objs[other]? = some (some o))
    (e : HolderOld.copyCtor other w = .done w1) :
    ∃ r xs, w1.objs = w.objs ++ [some r] ∧ r.m_size = o.m_size ∧ r.m_data ≠ 0 ∧
      w.heap.cell o.m_data = some xs ∧ w1.heap.cell r.m_data = some xs ∧
      xs.length = r.m_size := by
  have hscript : ∃ junk rest, w.heap.script = some junk :: rest := by
    have e0 := e
    unfold HolderOld.copyCtor at e0
    rw [ho] at e0
    simp only at e0
    split at e0
    · cases e0
    · rename_i h p hnew
      obtain ⟨junk, hj⟩ := Heap.newArray_script hnew
      exact ⟨junk, _, hj⟩
  obtain ⟨junk, rest, hs⟩ := hscript
  have hholds : ∃ xs, o.holds w.heap xs := by
    rcases inv.1.own other o ho with ⟨h0, _⟩ | ⟨h1, xs, h2, h3⟩
    · exact absurd h0 (inv.2 other o ho)
    · exact ⟨xs, h1, h2, h3⟩
  obtain ⟨xs, hx⟩ := hholds
  obtain ⟨w2, r, e2, hr, hsize, hnz, hcell, hlen, _, _⟩ :=
    HolderOld.copyCtor_old_ok w other o xs junk rest inv.1.wf ho hx hs
  have hw : w2 = w1 := by
    have := e2.symm.trans e
    cases this; rfl
  subst hw
  obtain ⟨o1, p, ho1, _, hobjs⟩ := HolderOld.copyCtor_old_shape e
  rw [hobjs] at hr
  simp only [List.getElem?_concat_length, Option.some.injEq] at hr
  exact ⟨r, xs, by rw [hobjs, hr], hsize, hnz, hx.2.1, hcell, hlen⟩

theorem getElem?_append_add {α : Type} (l l2 : List α) (k : Nat) :
    (l ++ l2)[l.length + k]? = l2[k]? := by
  rw [List.getElem?_append_right (by omega)]
  simp

theorem HolderOld.createHolder_old_built (w : World HolderOld) (n mday : Int)
    (inv : HolderOld.Disciplined w) (hn : 0 ≤ n) (hg : granted 3 w.heap.script = true) :
    ∃ w1 w2 w5 a b r xs,
      HolderOld.ctor n w = .done w1 ∧ HolderOld.ctor n w1 = .done w2 ∧
      w2.objs = w.objs ++ [some a, some b] ∧
      createHolder HolderOld.api n mday w = .done w5 ∧
      w5.objs = w.objs ++ [none, none, some r] ∧
      (r.m_size : Int) = n ∧ r.m_data ≠ 0 ∧
      w2.heap.cell (if Int.tmod mday 2 ≠ 0 then a else b).m_data = some xs ∧
      w5.heap.cell r.m_data = some xs ∧ xs.length = r.m_size ∧
      (∀ p, (∃ ys, w5.heap.cell p = some ys) ↔
        ((∃ ys, w.heap.cell p = some ys) ∨ p = r.m_data)) ∧
      ¬ ∃ ys, w.heap.cell r.m_data = some ys := by
  obtain ⟨w1, w2, w3, w4, w5, e1, e2, e3, e4, e5, ec, inv5, _, _, _, _⟩ :=
    createHolder_runs HolderOld.lawful_old w n mday 0 inv hn hg
  have e1 : HolderOld.ctor n w = .done w1 := e1
  have e2 : HolderOld.ctor n w1 = .done w2 := e2
  have e3 : HolderOld.copyCtor
      (if Int.tmod mday 2 ≠ 0 then w.objs.length else w.objs.length + 1) w2 = .done w3 := e3
  have e4 : HolderOld.dtor (w.objs.length + 1) w3 = .done w4 := e4
  have e5 : HolderOld.dtor w.objs.length w4 = .done w5 := e5
  have inv1 := HolderOld.ctor_old_keeps inv e1
  have inv2 := HolderOld.ctor_old_keeps inv1 e2
  have inv3 := HolderOld.copyCtor_old_keeps inv2 e3
  obtain ⟨_, p1, _, ho1⟩ := HolderOld.ctor_old_shape e1
  obtain ⟨_, p2, _, ho2⟩ := HolderOld.ctor_old_shape e2
  have hobjs2 : w2.objs = w.objs ++ [some ⟨p1, n.toNat⟩, some ⟨p2, n.toNat⟩] := by
    rw [ho2, ho1]; simp
  have hsrc : w2.objs[if Int.tmod mday 2 ≠ 0 then w.objs.length else w.objs.length + 1]? =
      some (some (if Int.tmod mday 2 ≠ 0 then (⟨p1, n.toNat⟩ : HolderOld)
        else ⟨p2, n.toNat⟩)) := by
    rw [hobjs2]
    split
    · exact getElem?_append_add w.objs _ 0
    · exact getElem?_append_add w.objs _ 1
  obtain ⟨r, xs, ho3, hsize, hnz, hc2, hc3, hlen⟩ := HolderOld.copyCtor_old_content inv2 hsrc e3
  have hsz : r.m_size = n.toNat := by
    rw [hsize]; split <;> rfl
  have hb3 : w3.objs[w.objs.length + 1]? = some (some ⟨p2, n.toNat⟩) := by
    rw [ho3, hobjs2, List.append_assoc]
    exact getElem?_append_add w.objs _ 1
  have ha3 : w3.objs[w.objs.length]? = some (some ⟨p1, n.toNat⟩) := by
    rw [ho3, hobjs2, List.append_assoc]
    exact getElem?_append_add w.objs _ 0
  have hr3 : w3.objs[w.objs.length + 2]? = some (some r) := by
    rw [ho3, hobjs2, List.append_assoc]
    exact getElem?_append_add w.objs _ 2
  obtain ⟨_, _, ho4⟩ := HolderOld.dtor_old_shape e4
  obtain ⟨_, _, ho5⟩ := HolderOld.dtor_old_shape e5
  have ha4 : w4.objs[w.objs.length]? = some (some ⟨p1, n.toNat⟩) := by
    rw [ho4, List.getElem?_set]; simp [ha3]
  have hrb : r.m_data ≠ p2 := fun e =>
    absurd (inv3.1.excl _ _ r ⟨p2, n.toNat⟩ hr3 hb3 hnz e) (by omega)
  have hra : r.m_data ≠ p1 := fun e =>
    absurd (inv3.1.excl _ _ r ⟨p1, n.toNat⟩ hr3 ha3 hnz e) (by omega)
  have hc5 : w5.heap.cell r.m_data = some xs := by
    rw [HolderOld.dtor_old_frame ha4 e5 _ hra, HolderOld.dtor_old_frame hb3 e4 _ hrb]
    exact hc3
  have hobjs5 : w5.objs = w.objs ++ [none, none, some r] := by
    rw [ho5, ho4, ho3, hobjs2]
    have := factory_objs_copy w.objs (some ⟨p1, n.toNat⟩) (some ⟨p2, n.toNat⟩) (some r)
    rw [List.append_assoc w.objs] at this
    exact this
  have inv5' : Owned HolderOld.m_data HolderOld.m_size w5.heap
      (w.objs ++ [none, none, some r]) := by rw [← hobjs5]; exact inv5.1
  obtain ⟨hlive, hfresh⟩ := Owned.after_factory inv.1 inv5' hnz
  refine ⟨w1, w2, w5, ⟨p1, n.toNat⟩, ⟨p2, n.toNat⟩, r, xs, e1, e2, hobjs2, ec, hobjs5, ?_, hnz,
    ?_, hc5, hlen, hlive, hfresh⟩
  · rw [hsz]; exact Int.toNat_of_nonneg hn
  · exact hc2

theorem Holder.createHolder_built (w : World Holder) (n mday : Int)
    (inv : Holder.Disciplined w) (hn : 0 ≤ n) (hg : granted 2 w.heap.script = true) :
    ∃ w1 w2 w5 a b r xs,
      Holder.ctor n w = .done w1 ∧ Holder.ctor n w1 = .done w2 ∧
      w2.objs = w.objs ++ [some a, some b] ∧
      createHolder Holder.api n mday w = .done w5 ∧
      w5.objs = w.objs ++ [none, none, some r] ∧
      (r.m_size : Int) = n ∧ r.m_data ≠ 0 ∧
      r = (if Int.tmod mday 2 ≠ 0 then a else b) ∧
      w5.heap.cell r.m_data = some xs ∧ xs.length = r.m_size ∧
      (∀ p, (∃ ys, w5.heap.cell p = some ys) ↔
        ((∃ ys, w.heap.cell p = some ys) ∨ p = r.m_data)) ∧
      ¬ ∃ ys, w.heap.cell r.m_data = some ys := by
  obtain ⟨w1, w2, w3, w4, w5, e1, e2, e3, e4, e5, ec, inv5, _, _, _, _⟩ :=
    createHolder_runs Holder.lawful w n mday 0 inv hn hg
  have e1 : Holder.ctor n w = .done w1 := e1
  have e2 : Holder.ctor n w1 = .done w2 := e2
  have e3 : Holder.moveCtor
      (if Int.tmod mday 2 ≠ 0 then w.objs.length else w.objs.length + 1) w2 = .done w3 := e3
  have e4 : Holder.dtor (w.objs.length + 1) w3 = .done w4 := e4
  have e5 : Holder.dtor w.objs.length w4 = .done w5 := e5
  obtain ⟨_, p1, hp1, ho1⟩ := Holder.ctor_shape e1
  obtain ⟨_, p2, hp2, ho2⟩ := Holder.ctor_shape e2
  have hobjs2 : w2.objs = w.objs ++ [some ⟨p1, n.toNat⟩, some ⟨p2, n.toNat⟩] := by
    rw [ho2, ho1]; simp
  have hsrc : w2.objs[if Int.tmod mday 2 ≠ 0 then w.objs.length else w.objs.length + 1]? =
      some (some (if Int.tmod mday 2 ≠ 0 then (⟨p1, n.toNat⟩ : Holder)
        else ⟨p2, n.toNat⟩)) := by
    rw [hobjs2]
    split
    · exact getElem?_append_add w.objs _ 0
    · exact getElem?_append_add w.objs _ 1
  obtain ⟨o, ho, _, ho3⟩ := Holder.moveCtor_shape e3
  rw [hsrc] at ho
  simp only [Option.some.injEq] at ho
  obtain ⟨_, _, ho4⟩ := Holder.dtor_shape e4
  obtain ⟨_, _, ho5⟩ := Holder.dtor_shape e5
  have hro : (⟨o.m_data, o.m_size⟩ : Holder) = o := rfl
  have hobjs5 : w5.objs = w.objs ++ [none, none, some o] := by
    rw [ho5, ho4, ho3, hobjs2, hro]
    have := factory_objs_move w.objs (some ⟨p1, n.toNat⟩) (some ⟨p2, n.toNat⟩)
      (some (Holder.mk 0 0)) (some o)
      (if Int.tmod mday 2 ≠ 0 then w.objs.length else w.objs.length + 1)
      (by split; exact Or.inl rfl; exact Or.inr rfl)
    rw [List.append_assoc w.objs] at this
    exact this
  have hnz : o.m_data ≠ 0 := by
    rw [← ho]; split
    · exact hp1
    · exact hp2
  have hsz : o.m_size = n.toNat := by
    rw [← ho]; split <;> rfl
  have inv5' : Owned Holder.m_data Holder.m_size w5.heap
      (w.objs ++ [none, none, some o]) := by rw [← hobjs5]; exact inv5
  obtain ⟨hlive, hfresh⟩ := Owned.after_factory inv inv5' hnz
  have hown : ∃ xs, w5.heap.cell o.m_data = some xs ∧ xs.length = o.m_size := by
    rcases inv5'.own (w.objs.length + 2) o (getElem?_append_add w.objs _ 2) with
      ⟨h0, _⟩ | ⟨_, hx⟩
    · exact absurd h0 hnz
    · exact hx
  obtain ⟨xs, hxs, hlen⟩ := hown
  refine ⟨w1, w2, w5, ⟨p1, n.toNat⟩, ⟨p2, n.toNat⟩, o, xs, e1, e2, hobjs2, ec, hobjs5, ?_, hnz,
    ho.symm, hxs, hlen, hlive, hfresh⟩
  rw [hsz]; exact Int.toNat_of_nonneg hn

/-! ## Copy assignment on a platform that refuses the request -/

theorem Heap.newArray_refused_frame (h : Heap) (n : Nat)
    (hg : granted 1 h.script = false) :
    ∃ h0, h.newArray n = (h0, none) ∧ h0.cell = h.cell ∧ h0.brk = h.brk := by
  unfold Heap.newArray
  match hs : h.script with
  | [] => exact ⟨_, rfl, rfl, rfl⟩
  | none :: rest => exact ⟨_, rfl, rfl, rfl⟩
  | some junk :: rest => rw [hs] at hg; simp [granted] at hg

theorem HolderOld.copyAssign_old_refused (w : World HolderOld) (self other : Nat)
    (s o : HolderOld) (ys xs : List Int) (hne : self ≠ other)
    (hs : w.objs[self]? = some (some s)) (ho : w.objs[other]? = some (some o))
    (hsh : s.holds w.heap ys) (hoh : o.holds w.heap xs) (hexcl : s.m_data ≠ o.m_data)
    (hg : granted 1 w.heap.script = false) :
    ∃ w1, HolderOld.copyAssign self other w = .threw w1 ∧ w1.objs = w.objs ∧
      o.holds w1.heap xs ∧ w1.heap.cell s.m_data = none ∧
      ∀ q, q ≠ s.m_data → w1.heap.cell q = w.heap.cell q := by
  obtain ⟨h1, d0, _, dscript, dframe, dgone, _⟩ :=
    Heap.deleteArray_ok w.heap s.m_data (Or.inr ⟨ys, hsh.2.1⟩)
  obtain ⟨h0, e0, hcell, _⟩ :=
    Heap.newArray_refused_frame h1 o.m_size (by rw [dscript]; exact hg)
  refine ⟨⟨h0, w.objs⟩, ?_, rfl, ?_, ?_, ?_⟩
  · simp [HolderOld.copyAssign, hs, ho, hne, d0, e0]
  · refine ⟨hoh.1, ?_, hoh.2.2⟩
    show h0.cell o.m_data = some xs
    rw [hcell, dframe _ (Ne.symm hexcl)]; exact hoh.2.1
  · show h0.cell s.m_data = none
    rw [hcell]; exact dgone hsh.1
  · intro q hq
    show h0.cell q = w.heap.cell q
    rw [hcell]; exact dframe q hq

theorem Holder.copyAssign_refused (w : World Holder) (self other : Nat)
    (s o : Holder) (ys xs : List Int) (hne : self ≠ other)
    (hs : w.objs[self]? = some (some s)) (ho : w.objs[other]? = some (some o))
    (hsh : s.holds w.heap ys) (hoh : o.holds w.heap xs)
    (hexcl : s.m_data ≠ 0 → s.m_data ≠ o.m_data)
    (hg : granted 1 w.heap.script = false) :
    ∃ w1, Holder.copyAssign self other w = .threw w1 ∧ w1.objs = w.objs ∧
      o.holds w1.heap xs ∧ (s.m_data ≠ 0 → w1.heap.cell s.m_data = none) ∧
      ∀ q, q ≠ s.m_data → w1.heap.cell q = w.heap.cell q := by
  have hdel : s.m_data = 0 ∨ ∃ ys, w.heap.cell s.m_data = some ys := by
    rcases hsh with ⟨⟨h0, _⟩, _⟩ | ⟨_, h2, _⟩
    · exact Or.inl h0
    · exact Or.inr ⟨ys, h2⟩
  obtain ⟨h1, d0, _, dscript, dframe, dgone, _⟩ := Heap.deleteArray_ok w.heap s.m_data hdel
  obtain ⟨h0, e0, hcell, _⟩ :=
    Heap.newArray_refused_frame h1 o.m_size (by rw [dscript]; exact hg)
  refine ⟨⟨h0, w.objs⟩, ?_, rfl, ?_, ?_, ?_⟩
  · simp [Holder.copyAssign, hs, ho, hne, d0, e0]
  · rcases hoh with hv | ⟨a1, a2, a3⟩
    · exact Or.inl hv
    · refine Or.inr ⟨a1, ?_, a3⟩
      show h0.cell o.m_data = some xs
      rw [hcell]
      by_cases hs0 : s.m_data = 0
      · rw [dframe _ (by rw [hs0]; exact a1)]; exact a2
      · rw [dframe _ (Ne.symm (hexcl hs0))]; exact a2
  · intro hnz
    show h0.cell s.m_data = none
    rw [hcell]; exact dgone hnz
  · intro q hq
    show h0.cell q = w.heap.cell q
    rw [hcell]; exact dframe q hq

/-! ## Where vacant objects come from -/

/-- C11, as the code has it. In a process that starts with no object, after any sequence of
calls that all return, every live vacant `Holder` was the source of a move construction or
move assignment, or was the destination of one whose source was vacant at the time: the
transfers copy `m_data` and `m_size` of the source as they are, so they hand vacancy on. -/
theorem vacant_only_by_transfer (script : List (Option (List Int))) (ops : List NewOp)
    (w : World Holder) (hrun : runNew ops (World.init Holder script) = .done w)
    (i : Nat) (c : Holder) (hi : w.objs[i]? = some (some c)) (hv : c.vacant) :
    i ∈ (traceNew ops (World.init Holder script) ⟨[], []⟩).sources ∨
      i ∈ (traceNew ops (World.init Holder script) ⟨[], []⟩).heirs := by
  have acc0 : Accounted (World.init Holder script) ⟨[], []⟩ := by
    intro i c hi; simp [World.init] at hi
  exact runNew_accounted ops acc0 hrun i c hi hv

/-- After moving twice from the same object, the moved-from object is on the record as a
source and the second new object as the destination of a transfer from a vacant source. -/
theorem vacant_only_by_transfer_witness :
    ∃ w, runNew sampleMoveTwice (World.init Holder sampleScript) = .done w ∧
      w.objs = [some ⟨0, 0⟩, some ⟨1, 4⟩, some ⟨0, 0⟩] ∧
      (2 ∈ (traceNew sampleMoveTwice (World.init Holder sampleScript) ⟨[], []⟩).sources ∨
        2 ∈ (traceNew sampleMoveTwice (World.init Holder sampleScript) ⟨[], []⟩).heirs) :=
  ⟨_, rfl, rfl,
    vacant_only_by_transfer sampleScript sampleMoveTwice _ rfl 2 ⟨0, 0⟩ rfl (by decide)⟩

/-- C11 as stated fails: construct a `Holder` of size 4, move-construct a second object from
it, then move-construct a third from it again. All three calls return; the third object is
vacant (null buffer, size 0) and was never the source of any transfer, the only source on
the record being the first object. -/
theorem vacant_without_being_source :
    ∃ w, runNew sampleMoveTwice (World.init Holder sampleScript) = .done w ∧
      w.objs[2]? = some (some ⟨0, 0⟩) ∧ (⟨0, 0⟩ : Holder).vacant ∧
      (traceNew sampleMoveTwice (World.init Holder sampleScript) ⟨[], []⟩).sources = [0, 0] ∧
      2 ∉ (traceNew sampleMoveTwice (World.init Holder sampleScript) ⟨[], []⟩).sources :=
  ⟨_, rfl, rfl, by decide, rfl, by decide⟩

/-! ## Exclusive ownership -/

/-- C12. Exclusive ownership, in both classes: in a process that starts with no object,
after any sequence of calls that all return, two distinct live objects never hold the same
non-null buffer address. In particular the object made or assigned by a duplication holds an
address different from its source's, and after a transfer the source, left with the null
pointer, no longer holds the address the destination took over. -/
theorem exclusive_ownership :
    (∀ (script : List (Option (List Int))) (ops : List OldOp) (w : World HolderOld),
      runOld ops (World.init HolderOld script) = .done w →
      ∀ (i j : Nat) (c d : HolderOld), w.objs[i]? = some (some c) →
        w.objs[j]? = some (some d) → i ≠ j → c.m_data ≠ 0 → c.m_data ≠ d.m_data) ∧
    (∀ (script : List (Option (List Int))) (ops : List NewOp) (w : World Holder),
      runNew ops (World.init Holder script) = .done w →
      ∀ (i j : Nat) (c d : Holder), w.objs[i]? = some (some c) →
        w.objs[j]? = some (some d) → i ≠ j → c.m_data ≠ 0 → c.m_data ≠ d.m_data) := by
  constructor
  · intro script ops w hrun i j c d hi hj hij hnz heq
    have inv := runOld_keeps ops (HolderOld.init_old_disciplined script) hrun
    exact hij (inv.1.excl i j c d hi hj hnz heq)
  · intro script ops w hrun i j c d hi hj hij hnz heq
    have inv := runNew_keeps ops (Holder.init_disciplined script) hrun
    exact hij (inv.excl i j c d hi hj hnz heq)

/-- In the worlds the two sample programs reach, the two owning objects hold different
addresses. -/
theorem exclusive_ownership_witness :
    (∃ w, runOld sampleOldProgram (World.init HolderOld sampleScript) = .done w ∧
      w.objs[1]? = some (some ⟨4, 2⟩) ∧ w.objs[2]? = some (some ⟨3, 2⟩) ∧
      (⟨4, 2⟩ : HolderOld).m_data ≠ (⟨3, 2⟩ : HolderOld).m_data) ∧
    (∃ w, runNew sampleNewProgram (World.init Holder sampleScript) = .done w ∧
      w.objs[1]? = some (some ⟨4, 2⟩) ∧ w.objs[2]? = some (some ⟨1, 4⟩) ∧
      (⟨4, 2⟩ : Holder).m_data ≠ (⟨1, 4⟩ : Holder).m_data) :=
  ⟨⟨_, rfl, rfl, rfl,
      exclusive_ownership.1 sampleScript sampleOldProgram _ rfl 1 2 ⟨4, 2⟩ ⟨3, 2⟩ rfl rfl
        (by decide) (by decide)⟩,
   ⟨_, rfl, rfl, rfl,
      exclusive_ownership.2 sampleScript sampleNewProgram _ rfl 1 2 ⟨4, 2⟩ ⟨1, 4⟩ rfl rfl
        (by decide) (by decide)⟩⟩

/-! ## Destruction after a transfer -/

/-- C13. Destroying a live vacant `Holder` returns and leaves the free store exactly as it
was: `delete[]` of the null pointer releases nothing. Consequently, after the move
constructor took the array of a source, destroying the source and the new object, in either
order, returns both times; the destruction of the source leaves the free store unchanged and
the destruction of the new object releases the array, which is thus released exactly once
(a second release would be undefined behaviour, not a return). -/
theorem dtor_vacant_releases_nothing :
    (∀ (w : World Holder) (i : Nat) (c : Holder), w.objs[i]? = some (some c) → c.vacant →
      Holder.dtor i w = .done { heap := w.heap, objs := w.objs.set i none }) ∧
    (∀ (w : World Holder) (j : Nat) (o : Holder) (xs : List Int),
      w.objs[j]? = some (some o) → o.m_data ≠ 0 → w.heap.cell o.m_data = some xs →
      ∃ w1, Holder.moveCtor j w = .done w1 ∧
        (∃ w2 w3, Holder.dtor j w1 = .done w2 ∧ w2.heap = w.heap ∧
          Holder.dtor w.objs.length w2 = .done w3 ∧ w3.heap.cell o.m_data = none ∧
          ∀ q, q ≠ o.m_data → w3.heap.cell q = w.heap.cell q) ∧
        (∃ w2 w3, Holder.dtor w.objs.length w1 = .done w2 ∧ w2.heap.cell o.m_data = none ∧
          (∀ q, q ≠ o.m_data → w2.heap.cell q = w.heap.cell q) ∧
          Holder.dtor j w2 = .done w3 ∧ w3.heap = w2.heap)) := by
  constructor
  · intro w i c hi hv
    simp [Holder.dtor, hi, hv.1, Heap.deleteArray]
  · intro w j o xs hj hnz hcell
    have hlt := getElem?_lt_length hj
    have hne : j ≠ w.objs.length := by omega
    refine ⟨⟨w.heap, w.objs.set j (some (Holder.mk 0 0)) ++ [some (Holder.mk o.m_data o.m_size)]⟩, ?_, ?_, ?_⟩
    · simp [Holder.moveCtor, hj]
    · refine ⟨⟨w.heap, (w.objs.set j (some (Holder.mk 0 0)) ++ [some (Holder.mk o.m_data o.m_size)]).set j none⟩,
        ⟨Heap.mk (fun q => if q = o.m_data then none else w.heap.cell q) w.heap.brk w.heap.script,
          ((w.objs.set j (some (Holder.mk 0 0)) ++ [some (Holder.mk o.m_data o.m_size)]).set j none).set
            w.objs.length none⟩, ?_, rfl, ?_, by simp, fun q hq => by simp [hq]⟩
      · simp [Holder.dtor, List.getElem?_append_left, hlt, Heap.deleteArray]
      · simp [Holder.dtor, List.getElem?_set, hne, List.getElem?_append_right,
          Heap.deleteArray, hnz, hcell]
    · refine ⟨⟨Heap.mk (fun q => if q = o.m_data then none else w.heap.cell q) w.heap.brk
            w.heap.script,
          (w.objs.set j (some (Holder.mk 0 0)) ++ [some (Holder.mk o.m_data o.m_size)]).set w.objs.length none⟩,
        ⟨Heap.mk (fun q => if q = o.m_data then none else w.heap.cell q) w.heap.brk w.heap.script,
          ((w.objs.set j (some (Holder.mk 0 0)) ++ [some (Holder.mk o.m_data o.m_size)]).set
            w.objs.length none).set j none⟩, ?_, by simp, fun q hq => by simp [hq], ?_, rfl⟩
      · simp [Holder.dtor, List.getElem?_append_right, Heap.deleteArray, hnz, hcell]
      · simp [Holder.dtor, List.getElem?_set, Ne.symm hne, List.getElem?_append_left, hlt,
          Heap.deleteArray]

/-- Destroying a vacant object of a small world, and the two destructions after a move
construction from the first sample object. -/
theorem dtor_vacant_releases_nothing_witness :
    Holder.dtor 0 { heap := sampleHeap, objs := [some ⟨0, 0⟩] } =
        .done { heap := sampleHeap, objs := [none] } ∧
    (∃ w1, Holder.moveCtor 0 sampleNew = .done w1 ∧
        (∃ w2 w3, Holder.dtor 0 w1 = .done w2 ∧ w2.heap = sampleNew.heap ∧
          Holder.dtor 2 w2 = .done w3 ∧ w3.heap.cell 1 = none ∧
          ∀ q, q ≠ 1 → w3.heap.cell q = sampleNew.heap.cell q) ∧
        (∃ w2 w3, Holder.dtor 2 w1 = .done w2 ∧ w2.heap.cell 1 = none ∧
          (∀ q, q ≠ 1 → w2.heap.cell q = sampleNew.heap.cell q) ∧
          Holder.dtor 0 w2 = .done w3 ∧ w3.heap = w2.heap)) :=
  ⟨dtor_vacant_releases_nothing.1 { heap := sampleHeap, objs := [some ⟨0, 0⟩] } 0 ⟨0, 0⟩
      (by decide) (by decide),
   dtor_vacant_releases_nothing.2 sampleNew 0 ⟨1, 4⟩ [1, 2, 3, 4] (by decide) (by decide)
      (by decide)⟩

/-! ## Transfers cannot fail and allocate nothing -/

/-- C14. The transfers never fail, whatever the platform would answer to an allocation
request: the move constructor on a live source returns; move assignment between live objects
returns (`self` being vacant or the owner of a live array, as `delete[]` needs); and in no
world at all does either of them end with an exception or with `std::terminate`. -/
theorem transfers_never_fail :
    (∀ (w : World Holder) (other : Nat) (o : Holder), w.objs[other]? = some (some o) →
      ∃ w1, Holder.moveCtor other w = .done w1) ∧
    (∀ (w : World Holder) (self other : Nat) (s o : Holder) (ys : List Int),
      w.objs[self]? = some (some s) → w.objs[other]? = some (some o) → s.holds w.heap ys →
      ∃ w1, Holder.moveAssign self other w = .done w1) ∧
    (∀ (w w1 : World Holder) (other : Nat),
      Holder.moveCtor other w ≠ .threw w1 ∧ Holder.moveCtor other w ≠ .terminated) ∧
    (∀ (w w1 : World Holder) (self other : Nat),
      Holder.moveAssign self other w ≠ .threw w1 ∧
        Holder.moveAssign self other w ≠ .terminated) := by
  refine ⟨?_, ?_, ?_, ?_⟩
  · intro w other o ho
    exact ⟨_, by simp only [Holder.moveCtor, ho]; rfl⟩
  · intro w self other s o ys hs ho hholds
    by_cases hne : self = other
    · exact ⟨w, by simp [Holder.moveAssign, hs, ho, hne]⟩
    · have hdel : s.m_data = 0 ∨ ∃ ys, w.heap.cell s.m_data = some ys := by
        rcases hholds with ⟨⟨h0, _⟩, _⟩ | ⟨_, h2, _⟩
        · exact Or.inl h0
        · exact Or.inr ⟨ys, h2⟩
      obtain ⟨h1, d0, _⟩ := Heap.deleteArray_ok w.heap s.m_data hdel
      exact ⟨_, by simp only [Holder.moveAssign, hs, ho, hne, if_false, d0]; rfl⟩
  · intro w w1 other
    unfold Holder.moveCtor
    split <;> simp
  · intro w w1 self other
    unfold Holder.moveAssign
    split
    · split
      · simp
      · split <;> simp
    · simp

/-- Both transfers return on a platform that refuses every allocation request. -/
theorem transfers_never_fail_witness :
    sampleRefusing.heap.script = [] ∧
    (∃ w1, Holder.moveCtor 0 sampleRefusing = .done w1) ∧
    (∃ w1, Holder.moveAssign 1 0 sampleRefusing = .done w1) :=
  ⟨rfl, transfers_never_fail.1 sampleRefusing 0 ⟨1, 4⟩ (by decide),
    transfers_never_fail.2.1 sampleRefusing 1 0 ⟨2, 2⟩ ⟨1, 4⟩ [7, 8] (by decide) (by decide)
      (by decide)⟩

/-- C16. The transfers allocate nothing and copy no element. The move constructor leaves the
whole free store as it was and gives the new object the address the source held. Move
assignment between distinct live objects that do not share a buffer gives `self` the address
the source held, leaves the array at that address as it was, asks the platform for nothing
(last address handed out and pending answers unchanged), and every array live afterwards was
live before with the same elements. -/
theorem transfers_allocate_nothing :
    (∀ (w : World Holder) (other : Nat) (o : Holder), w.objs[other]? = some (some o) →
      ∃ w1 r, Holder.moveCtor other w = .done w1 ∧ w1.heap = w.heap ∧
        w1.objs[w.objs.length]? = some (some r) ∧ r.m_data = o.m_data) ∧
    (∀ (w : World Holder) (self other : Nat) (s o : Holder) (ys : List Int),
      self ≠ other → w.objs[self]? = some (some s) → w.objs[other]? = some (some o) →
      s.holds w.heap ys → (s.m_data ≠ 0 → s.m_data ≠ o.m_data) →
      ∃ w1 r, Holder.moveAssign self other w = .done w1 ∧
        w1.objs[self]? = some (some r) ∧ r.m_data = o.m_data ∧
        w1.heap.cell o.m_data = w.heap.cell o.m_data ∧
        w1.heap.brk = w.heap.brk ∧ w1.heap.script = w.heap.script ∧
        ∀ q xs, w1.heap.cell q = some xs → w.heap.cell q = some xs) := by
  constructor
  · intro w other o ho
    refine ⟨⟨w.heap, w.objs.set other (some (Holder.mk 0 0)) ++
      [some (Holder.mk o.m_data o.m_size)]⟩, Holder.mk o.m_data o.m_size, ?_, rfl, ?_, rfl⟩
    · simp only [Holder.moveCtor, ho]
    · simp [List.getElem?_append_right]
  · intro w self other s o ys hne hs ho hholds hexcl
    have hl1 := getElem?_lt_length hs
    have hdel : s.m_data = 0 ∨ ∃ ys, w.heap.cell s.m_data = some ys := by
      rcases hholds with ⟨⟨h0, _⟩, _⟩ | ⟨_, h2, _⟩
      · exact Or.inl h0
      · exact Or.inr ⟨ys, h2⟩
    obtain ⟨h1, d0, dbrk, dscript, dframe, dgone, dnull⟩ :=
      Heap.deleteArray_ok w.heap s.m_data hdel
    refine ⟨⟨h1, (w.objs.set self (some (Holder.mk o.m_data o.m_size))).set other
      (some (Holder.mk 0 0))⟩, Holder.mk o.m_data o.m_size, ?_, ?_, rfl, ?_, dbrk, dscript, ?_⟩
    · simp only [Holder.moveAssign, hs, ho, hne, if_false, d0]
    · simp [List.getElem?_set, hne, hl1, Ne.symm hne]
    · by_cases h0 : s.m_data = 0
      · rw [dnull h0]
      · exact dframe _ (Ne.symm (hexcl h0))
    · intro q xs hq
      by_cases h0 : s.m_data = 0
      · rw [dnull h0] at hq; exact hq
      · by_cases hqs : q = s.m_data
        · rw [hqs, dgone h0] at hq; cases hq
        · rw [dframe q hqs] at hq; exact hq

/-- The two transfers from the first sample object, which holds `1, 2, 3, 4` at address 1. -/
theorem transfers_allocate_nothing_witness :
    (∃ w1 r, Holder.moveCtor 0 sampleNew = .done w1 ∧ w1.heap = sampleNew.heap ∧
        w1.objs[2]? = some (some r) ∧ r.m_data = 1) ∧
    (∃ w1 r, Holder.moveAssign 1 0 sampleNew = .done w1 ∧
        w1.objs[1]? = some (some r) ∧ r.m_data = 1 ∧
        w1.heap.cell 1 = sampleNew.heap.cell 1 ∧
        w1.heap.brk = sampleNew.heap.brk ∧ w1.heap.script = sampleNew.heap.script ∧
        ∀ q xs, w1.heap.cell q = some xs → sampleNew.heap.cell q = some xs) :=
  ⟨transfers_allocate_nothing.1 sampleNew 0 ⟨1, 4⟩ (by decide),
   transfers_allocate_nothing.2 sampleNew 1 0 ⟨2, 2⟩ ⟨1, 4⟩ [7, 8] (by decide) (by decide)
      (by decide) (by decide) (by decide)⟩

/-! ## The driver and the factory -/

/-- C17. The driver `process<holder>()`, for `HolderOld` and for `Holder`, started with any
timing stack and any lines already printed, in a world that keeps the ownership discipline,
whatever the clock readings, the days of the month and the answers of the platform: the run
never has undefined behaviour, so no `showChrono` ever finds the stack empty; when the run
returns, `vStart` is what it was on entry and exactly six lines were printed, in the order
regular constructor, copy constructor, move constructor, assignment operator, move
assignment operator, each with the reading taken after the operation minus the reading
pushed just before it, and then "Total computation" with the last reading minus the reading
pushed on entry; and the run does return when the platform grants the requests the run
makes (ten with `HolderOld`, seven with `Holder`). -/
theorem process_timing_balanced :
    (∀ (clock : Nat → Int) (mday3 mday5 : Int) (m : Machine HolderOld),
      HolderOld.Disciplined m.world →
      process HolderOld.api clock mday3 mday5 m ≠ .undefined ∧
      (∀ m1, process HolderOld.api clock mday3 mday5 m = .done m1 →
        m1.chrono =
          { vStart := m.chrono.vStart, out := m.chrono.out ++ processReports clock }) ∧
      (granted 10 m.world.heap.script = true →
        ∃ m1, process HolderOld.api clock mday3 mday5 m = .done m1)) ∧
    (∀ (clock : Nat → Int) (mday3 mday5 : Int) (m : Machine Holder),
      Holder.Disciplined m.world →
      process Holder.api clock mday3 mday5 m ≠ .undefined ∧
      (∀ m1, process Holder.api clock mday3 mday5 m = .done m1 →
        m1.chrono =
          { vStart := m.chrono.vStart, out := m.chrono.out ++ processReports clock }) ∧
      (granted 7 m.world.heap.script = true →
        ∃ m1, process Holder.api clock mday3 mday5 m = .done m1)) := by
  constructor
  · intro clock mday3 mday5 m inv
    refine ⟨process_defined HolderOld.sound_old clock mday3 mday5 m inv,
      fun m1 h => process_done_chrono _ clock mday3 mday5 m m1 h, fun hg => ?_⟩
    obtain ⟨m1, h, _⟩ := process_runs HolderOld.lawful_old clock mday3 mday5 m inv hg
    exact ⟨m1, h⟩
  · intro clock mday3 mday5 m inv
    refine ⟨process_defined Holder.sound clock mday3 mday5 m inv,
      fun m1 h => process_done_chrono _ clock mday3 mday5 m m1 h, fun hg => ?_⟩
    obtain ⟨m1, h, _⟩ := process_runs Holder.lawful clock mday3 mday5 m inv hg
    exact ⟨m1, h⟩

/-- The driver in a starting process whose platform grants every request: it returns, for
both classes, with the timing stack empty again and the six lines printed. -/
theorem process_timing_balanced_witness :
    (∃ m1, process HolderOld.api sampleClock 15 16 sampleMachineOld = .done m1 ∧
      m1.chrono = { vStart := [], out := processReports sampleClock }) ∧
    (∃ m1, process Holder.api sampleClock 15 16 sampleMachineNew = .done m1 ∧
      m1.chrono = { vStart := [], out := processReports sampleClock }) :=
  ⟨let h := process_timing_balanced.1 sampleClock 15 16 sampleMachineOld
      (HolderOld.init_old_disciplined _)
    let ⟨m1, e⟩ := h.2.2 rfl
    ⟨m1, e, h.2.1 m1 e⟩,
   let h := process_timing_balanced.2 sampleClock 15 16 sampleMachineNew
      (Holder.init_disciplined _)
    let ⟨m1, e⟩ := h.2.2 rfl
    ⟨m1, e, h.2.1 m1 e⟩⟩

/-- C18. The factory `createHolder<holder>(n)`, for every `n ≥ 0` and every day of the
month, in a world that keeps the ownership discipline and on a platform that grants the
requests of the call (three with `HolderOld`, two with `Holder`): the call returns; the two
locals `h01` and `h02`, both constructed with size `n`, are destroyed; the returned object
has size `n` whatever the day, and is built from `h01` on an odd day and from `h02` on an
even day (with `HolderOld` its array holds the elements that local held, with `Holder` it is
that local's state, buffer included); and the live arrays after the call are those live
before it and, in addition, the buffer of the returned object alone. -/
theorem createHolder_returns_one_buffer :
    (∀ (w : World HolderOld) (n mday : Int),
      HolderOld.Disciplined w → 0 ≤ n → granted 3 w.heap.script = true →
      ∃ w1 w2 w5 a b r xs,
        HolderOld.ctor n w = .done w1 ∧ HolderOld.ctor n w1 = .done w2 ∧
        w2.objs = w.objs ++ [some a, some b] ∧
        createHolder HolderOld.api n mday w = .done w5 ∧
        w5.objs = w.objs ++ [none, none, some r] ∧
        (r.m_size : Int) = n ∧ r.m_data ≠ 0 ∧
        w2.heap.cell (if Int.tmod mday 2 ≠ 0 then a else b).m_data = some xs ∧
        w5.heap.cell r.m_data = some xs ∧ xs.length = r.m_size ∧
        (∀ p, (∃ ys, w5.heap.cell p = some ys) ↔
          ((∃ ys, w.heap.cell p = some ys) ∨ p = r.m_data)) ∧
        ¬ ∃ ys, w.heap.cell r.m_data = some ys) ∧
    (∀ (w : World Holder) (n mday : Int),
      Holder.Disciplined w → 0 ≤ n → granted 2 w.heap.script = true →
      ∃ w1 w2 w5 a b r xs,
        Holder.ctor n w = .done w1 ∧ Holder.ctor n w1 = .done w2 ∧
        w2.objs = w.objs ++ [some a, some b] ∧
        createHolder Holder.api n mday w = .done w5 ∧
        w5.objs = w.objs ++ [none, none, some r] ∧
        (r.m_size : Int) = n ∧ r.m_data ≠ 0 ∧
        r = (if Int.tmod mday 2 ≠ 0 then a else b) ∧
        w5.heap.cell r.m_data = some xs ∧ xs.length = r.m_size ∧
        (∀ p, (∃ ys, w5.heap.cell p = some ys) ↔
          ((∃ ys, w.heap.cell p = some ys) ∨ p = r.m_data)) ∧
        ¬ ∃ ys, w.heap.cell r.m_data = some ys) :=
  ⟨HolderOld.createHolder_old_built, Holder.createHolder_built⟩

/-- The factory with size 4 in a starting process, on an odd day with `HolderOld` and on an
even day with `Holder`. -/
theorem createHolder_returns_one_buffer_witness :
    (∃ w1 w2 w5 a b r xs,
        HolderOld.ctor 4 (World.init HolderOld sampleScript) = .done w1 ∧
        HolderOld.ctor 4 w1 = .done w2 ∧
        w2.objs = (World.init HolderOld sampleScript).objs ++ [some a, some b] ∧
        createHolder HolderOld.api 4 15 (World.init HolderOld sampleScript) = .done w5 ∧
        w5.objs = (World.init HolderOld sampleScript).objs ++ [none, none, some r] ∧
        (r.m_size : Int) = 4 ∧ r.m_data ≠ 0 ∧
        w2.heap.cell (if Int.tmod 15 2 ≠ 0 then a else b).m_data = some xs ∧
        w5.heap.cell r.m_data = some xs ∧ xs.length = r.m_size ∧
        (∀ p, (∃ ys, w5.heap.cell p = some ys) ↔
          ((∃ ys, (World.init HolderOld sampleScript).heap.cell p = some ys) ∨
            p = r.m_data)) ∧
        ¬ ∃ ys, (World.init HolderOld sampleScript).heap.cell r.m_data = some ys) ∧
    (∃ w1 w2 w5 a b r xs,
        Holder.ctor 4 (World.init Holder sampleScript) = .done w1 ∧
        Holder.ctor 4 w1 = .done w2 ∧
        w2.objs = (World.init Holder sampleScript).objs ++ [some a, some b] ∧
        createHolder Holder.api 4 16 (World.init Holder sampleScript) = .done w5 ∧
        w5.objs = (World.init Holder sampleScript).objs ++ [none, none, some r] ∧
        (r.m_size : Int) = 4 ∧ r.m_data ≠ 0 ∧
        r = (if Int.tmod 16 2 ≠ 0 then a else b) ∧
        w5.heap.cell r.m_data = some xs ∧ xs.length = r.m_size ∧
        (∀ p, (∃ ys, w5.heap.cell p = some ys) ↔
          ((∃ ys, (World.init Holder sampleScript).heap.cell p = some ys) ∨
            p = r.m_data)) ∧
        ¬ ∃ ys, (World.init Holder sampleScript).heap.cell r.m_data = some ys) :=
  ⟨createHolder_returns_one_buffer.1 (World.init HolderOld sampleScript) 4 15
      (HolderOld.init_old_disciplined _) (by decide) rfl,
   createHolder_returns_one_buffer.2 (World.init Holder sampleScript) 4 16
      (Holder.init_disciplined _) (by decide) rfl⟩

/-! ## Copy assignment when the allocation fails -/

/-- C19, as the code has it. Copy assignment promises its result on success only: it runs
`delete[] m_data` before `new int[other.m_size]`. For two distinct live objects that do not
share a buffer, in both classes, when the platform refuses the request the call ends with
the exception; no object has changed its `m_data` or `m_size`, the source still holds its
elements, and every array but the one `self` owned is as it was; that array has already been
released. Nothing in the program handles the exception: an allocation failure ends it. -/
theorem copyAssign_failure_releases :
    (∀ (w : World HolderOld) (self other : Nat) (s o : HolderOld) (ys xs : List Int),
      self ≠ other → w.objs[self]? = some (some s) → w.objs[other]? = some (some o) →
      s.holds w.heap ys → o.holds w.heap xs → s.m_data ≠ o.m_data →
      granted 1 w.heap.script = false →
      ∃ w1, HolderOld.copyAssign self other w = .threw w1 ∧ w1.objs = w.objs ∧
        o.holds w1.heap xs ∧ w1.heap.cell s.m_data = none ∧
        ∀ q, q ≠ s.m_data → w1.heap.cell q = w.heap.cell q) ∧
    (∀ (w : World Holder) (self other : Nat) (s o : Holder) (ys xs : List Int),
      self ≠ other → w.objs[self]? = some (some s) → w.objs[other]? = some (some o) →
      s.holds w.heap ys → o.holds w.heap xs → (s.m_data ≠ 0 → s.m_data ≠ o.m_data) →
      granted 1 w.heap.script = false →
      ∃ w1, Holder.copyAssign self other w = .threw w1 ∧ w1.objs = w.objs ∧
        o.holds w1.heap xs ∧ (s.m_data ≠ 0 → w1.heap.cell s.m_data = none) ∧
        ∀ q, q ≠ s.m_data → w1.heap.cell q = w.heap.cell q) :=
  ⟨HolderOld.copyAssign_old_refused, Holder.copyAssign_refused⟩

/-- Copy assignment of the first sample object (`1, 2, 3, 4`) to the second (`7, 8`) when
the platform refuses the request, in both classes. -/
theorem copyAssign_failure_releases_witness :
    (∃ w1, HolderOld.copyAssign 1 0 sampleOldRefused = .threw w1 ∧
        w1.objs = sampleOldRefused.objs ∧
        HolderOld.holds w1.heap ⟨1, 4⟩ [1, 2, 3, 4] ∧ w1.heap.cell 2 = none ∧
        ∀ q, q ≠ 2 → w1.heap.cell q = sampleOldRefused.heap.cell q) ∧
    (∃ w1, Holder.copyAssign 1 0 sampleRefusing = .threw w1 ∧
        w1.objs = sampleRefusing.objs ∧
        Holder.holds w1.heap ⟨1, 4⟩ [1, 2, 3, 4] ∧ ((2 : Nat) ≠ 0 → w1.heap.cell 2 = none) ∧
        ∀ q, q ≠ 2 → w1.heap.cell q = sampleRefusing.heap.cell q) :=
  ⟨copyAssign_failure_releases.1 sampleOldRefused 1 0 ⟨2, 2⟩ ⟨1, 4⟩ [7, 8] [1, 2, 3, 4]
      (by decide) (by decide) (by decide) (by decide) (by decide) (by decide) (by decide),
   copyAssign_failure_releases.2 sampleRefusing 1 0 ⟨2, 2⟩ ⟨1, 4⟩ [7, 8] [1, 2, 3, 4]
      (by decide) (by decide) (by decide) (by decide) (by decide) (by decide) (by decide)⟩

/-- C19 as stated fails: with two distinct live objects and a platform that refuses the
request, copy assignment ends with the exception and `self` still has its old address and
size, but the array at that address, live before the call, is no longer live: `self` does
not own its original buffer any more, in both classes. -/
theorem copyAssign_failure_dangles :
    (∃ w1, HolderOld.copyAssign 1 0 sampleOldRefused = .threw w1 ∧
        sampleOldRefused.objs[1]? = some (some ⟨2, 2⟩) ∧
        sampleOldRefused.heap.cell 2 = some [7, 8] ∧
        w1.objs[1]? = some (some ⟨2, 2⟩) ∧ w1.heap.cell 2 = none) ∧
    (∃ w1, Holder.copyAssign 1 0 sampleRefusing = .threw w1 ∧
        sampleRefusing.objs[1]? = some (some ⟨2, 2⟩) ∧
        sampleRefusing.heap.cell 2 = some [7, 8] ∧
        w1.objs[1]? = some (some ⟨2, 2⟩) ∧ w1.heap.cell 2 = none) :=
  ⟨⟨_, rfl, rfl, rfl, rfl, rfl⟩, ⟨_, rfl, rfl, rfl, rfl, rfl⟩⟩

/-! ## No leak, no dangling handle -/

/-- C20. No leak and no dangling handle, in both classes: in a process that starts with no
object, after any sequence of calls that all return, an address holds a live array exactly
when it is not null and is the buffer of a live object. In particular, when one more call
returns that has to release the buffer of an object (copy assignment or move assignment to
it from another object, or its destruction), no array is live any more at the address that
object held before the call. -/
theorem no_leak_no_dangling :
    (∀ (script : List (Option (List Int))) (ops : List OldOp) (w : World HolderOld),
      runOld ops (World.init HolderOld script) = .done w →
      (∀ p, (∃ xs, w.heap.cell p = some xs) ↔
        (p ≠ 0 ∧ ∃ (i : Nat) (c : HolderOld), w.objs[i]? = some (some c) ∧ c.m_data = p)) ∧
      (∀ (op : OldOp) (self : Nat) (s : HolderOld) (w1 : World HolderOld),
        op.released = some self → w.objs[self]? = some (some s) → op.step w = .done w1 →
        w1.heap.cell s.m_data = none)) ∧
    (∀ (script : List (Option (List Int))) (ops : List NewOp) (w : World Holder),
      runNew ops (World.init Holder script) = .done w →
      (∀ p, (∃ xs, w.heap.cell p = some xs) ↔
        (p ≠ 0 ∧ ∃ (i : Nat) (c : Holder), w.objs[i]? = some (some c) ∧ c.m_data = p)) ∧
      (∀ (op : NewOp) (self : Nat) (s : Holder) (w1 : World Holder),
        op.released = some self → w.objs[self]? = some (some s) → op.step w = .done w1 →
        w1.heap.cell s.m_data = none)) := by
  constructor
  · intro script ops w hrun
    have inv := runOld_keeps ops (HolderOld.init_old_disciplined script) hrun
    refine ⟨inv.1.live_iff_held, ?_⟩
    intro op self s w1 hrel hs e
    cases op with
    | construct size => cases hrel
    | duplicateConstruct other => cases hrel
    | duplicateAssign a b =>
      simp only [OldOp.released] at hrel
      split at hrel
      · cases hrel
      · rename_i hne
        cases hrel
        exact HolderOld.copyAssign_old_releases inv hne hs e
    | destroy a =>
      cases hrel
      exact HolderOld.dtor_old_releases inv hs e
  · intro script ops w hrun
    have inv := runNew_keeps ops (Holder.init_disciplined script) hrun
    refine ⟨inv.live_iff_held, ?_⟩
    intro op self s w1 hrel hs e
    cases op with
    | construct size => cases hrel
    | duplicateConstruct other => cases hrel
    | transferConstruct other => cases hrel
    | duplicateAssign a b =>
      simp only [NewOp.released] at hrel
      split at hrel
      · cases hrel
      · rename_i hne
        cases hrel
        exact Holder.copyAssign_releases inv hne hs e
    | transferAssign a b =>
      simp only [NewOp.released] at hrel
      split at hrel
      · cases hrel
      · rename_i hne
        cases hrel
        exact Holder.moveAssign_releases inv hne hs e
    | destroy a =>
      cases hrel
      exact Holder.dtor_releases inv hs e

/-- The worlds the two sample programs reach: the live arrays are the buffers of the live
objects, and one more call that releases a buffer (a copy assignment in the copy-only class,
a move assignment in the other) leaves no array at the old address. -/
theorem no_leak_no_dangling_witness :
    (∃ w, runOld sampleOldProgram (World.init HolderOld sampleScript) = .done w ∧
      (∀ p, (∃ xs, w.heap.cell p = some xs) ↔
        (p ≠ 0 ∧ ∃ (i : Nat) (c : HolderOld), w.objs[i]? = some (some c) ∧ c.m_data = p)) ∧
      ∃ w1, (OldOp.duplicateAssign 1 2).step w = .done w1 ∧ w1.heap.cell 4 = none) ∧
    (∃ w, runNew sampleNewProgram (World.init Holder sampleScript) = .done w ∧
      (∀ p, (∃ xs, w.heap.cell p = some xs) ↔
        (p ≠ 0 ∧ ∃ (i : Nat) (c : Holder), w.objs[i]? = some (some c) ∧ c.m_data = p)) ∧
      ∃ w1, (NewOp.transferAssign 1 2).step w = .done w1 ∧ w1.heap.cell 4 = none) :=
  ⟨⟨_, rfl, (no_leak_no_dangling.1 sampleScript sampleOldProgram _ rfl).1,
      _, rfl,
      (no_leak_no_dangling.1 sampleScript sampleOldProgram _ rfl).2
        (.duplicateAssign 1 2) 1 ⟨4, 2⟩ _ rfl rfl rfl⟩,
   ⟨_, rfl, (no_leak_no_dangling.2 sampleScript sampleNewProgram _ rfl).1,
      _, rfl,
      (no_leak_no_dangling.2 sampleScript sampleNewProgram _ rfl).2
        (.transferAssign 1 2) 1 ⟨4, 2⟩ _ rfl rfl rfl⟩⟩

end OldAndNewSchool
